import Mathlib

/-!
# Feed-forward network `nn.go`: a shallow embedding

The program is embedded over an arbitrary type `α` of scalars that has the operations
the code uses.  The theorems about the numbers it computes take `α` to be a linearly
ordered field (exact arithmetic; concrete evaluations use `ℚ`).  Where `float64`
arithmetic leaves the finite numbers (overflow, NaN), the program is run over the model
`F64` of `float64` defined below.  Go slices are embedded as
lists with value semantics: an index outside a slice, or a call of a nil
function value, makes the Go program panic and makes the embedded operation
return `none`.  The network's arrays are taken to be pairwise distinct
storage, as `NewFFN` and `FromFile` allocate them.

Go's `int` is embedded as `Int`; the one place where the code increments an
`int` without a bound (`currentEpoch++` in `Train`) wraps at 64 bits.
-/

namespace NN

/-! ## Slices -/

/-- Reading `a[i][j]`; `none` when an index is out of range. -/
def get2 {β : Type} (a : List (List β)) (i j : Nat) : Option β :=
  (a[i]?).bind fun r => r[j]?

/-- Reading `a[i][j][k]`; `none` when an index is out of range. -/
def get3 {β : Type} (a : List (List (List β))) (i j k : Nat) : Option β :=
  (a[i]?).bind fun m => (m[j]?).bind fun r => r[k]?

/-- Assignment `a[i] = v`; `none` when `i` is out of range. -/
def set1 {β : Type} (a : List β) (i : Nat) (v : β) : Option (List β) :=
  if i < a.length then some (a.set i v) else none

/-- Assignment `a[i][j] = v`; `none` when an index is out of range. -/
def set2 {β : Type} (a : List (List β)) (i j : Nat) (v : β) : Option (List (List β)) :=
  (a[i]?).bind fun r => (set1 r j v).bind fun r' => set1 a i r'

/-- Assignment `a[i][j][k] = v`; `none` when an index is out of range. -/
def set3 {β : Type} (a : List (List (List β))) (i j k : Nat) (v : β) :
    Option (List (List (List β))) :=
  (a[i]?).bind fun m => (set2 m j k v).bind fun m' => set1 a i m'

/-- Total readers used to state results: the element, or `0` out of range. -/
def at1 {β : Type} [Zero β] (a : List β) (i : Nat) : β := (a[i]?).getD 0

/-- Total reader for `a[i][j]`, `0` out of range. -/
def at2 {β : Type} [Zero β] (a : List (List β)) (i j : Nat) : β := (get2 a i j).getD 0

/-- Total reader for `a[i][j][k]`, `0` out of range. -/
def at3 {β : Type} [Zero β] (a : List (List (List β))) (i j k : Nat) : β :=
  (get3 a i j k).getD 0

/-! ## Loops -/

/-- Runs `body i`, `body (i+1)`, ..., `k` times, threading the state; a
panicking iteration (`none`) aborts the loop. -/
def loopFrom {σ : Type} (body : Nat → σ → Option σ) : Nat → Nat → σ → Option σ
  | _, 0, s => some s
  | i, k + 1, s => (body i s).bind fun s' => loopFrom body (i + 1) k s'

/-- The Go loop `for i := lo; i < hi; i++ { body }`.  Every such loop of
`nn.go` has a bound `len(..)` of a slice whose length the body never changes,
so the bound is evaluated once. -/
def forRange {σ : Type} (lo hi : Nat) (body : Nat → σ → Option σ) (s : σ) : Option σ :=
  loopFrom body lo (hi - lo) s

/-- The Go loop `for i := hi; i > 0; i-- { body }`: runs `body hi`, ...,
`body 1`. -/
def forDown {σ : Type} (body : Nat → σ → Option σ) : Nat → σ → Option σ
  | 0, s => some s
  | i + 1, s => (body (i + 1) s).bind fun s' => forDown body i s'

/-! ## The network -/

/-- The struct `FFN`.  An entry of `F` is `none` for a nil function value. -/
structure FFN (α : Type) where
  InputNeurons : Int
  HiddenNeurons : Int
  OutputNeurons : Int
  X : List (List α)
  E : List (List α)
  B : List (List α)
  W : List (List (List α))
  DW : List (List (List α))
  F : List (Option (α → α))

/-- The call `n.F[i](x)`: panics when `i` is out of range or `F[i]` is nil. -/
def callF {α : Type} (F : List (Option (α → α))) (i : Nat) (x : α) : Option α :=
  (F[i]?).bind fun g => g.map fun f => f x

/-! ## The program

The definitions below are for any type of scalars with the operations that the code uses
on `float64`: each takes the operations it needs, and no law about them. -/

section

variable {α : Type} [Zero α] [One α] [Add α] [Sub α] [Neg α] [Mul α] [Div α] [NatCast α]
  [Pow α ℕ] [LE α] [LT α] [∀ a b : α, Decidable (a ≤ b)] [∀ a b : α, Decidable (a < b)]

/-- The method `Forward` (nn.go 115-127). -/
def Forward (n : FFN α) (input : List α) : Option (FFN α) :=
  (set1 n.X 0 input).bind fun X0 =>
  let n : FFN α := { n with X := X0 }
  forRange 1 n.X.length (fun layer n =>
    (n.X[layer]?).bind fun xl =>
    forRange 0 xl.length (fun neuron n =>
      let prevLayer := layer - 1
      (get2 n.B prevLayer neuron).bind fun b =>
      (n.X[prevLayer]?).bind fun xp =>
      (forRange 0 xp.length (fun prevNeuron x =>
        (get2 n.X prevLayer prevNeuron).bind fun a =>
        (get3 n.W prevLayer prevNeuron neuron).bind fun w =>
        some (x + a * w)) b).bind fun x =>
      (callF n.F 0 x).bind fun y =>
      (set2 n.X layer neuron y).bind fun X' =>
      some { n with X := X' }) n) n

/-- The method `Backward` (nn.go 130-165): output error signals, hidden error
signals, weight update with momentum, bias update. -/
def Backward (n : FFN α) (output : List α) (speed moment : α) : Option (FFN α) :=
  (n.X[n.X.length - 1]?).bind fun xlast =>
  (forRange 0 xlast.length (fun neuron n =>
    (get2 n.X (n.X.length - 1) neuron).bind fun x =>
    (output[neuron]?).bind fun o =>
    (callF n.F 1 x).bind fun d =>
    (set2 n.E (n.E.length - 1) neuron ((o - x) * d)).bind fun E' =>
    some { n with E := E' }) n).bind fun n =>
  (forDown (fun layer n =>
    (n.X[layer]?).bind fun xl =>
    forRange 0 xl.length (fun neuron n =>
      (get2 n.W layer neuron).bind fun row =>
      (forRange 0 row.length (fun nextNeuron e =>
        (get3 n.W layer neuron nextNeuron).bind fun w =>
        (get2 n.E layer nextNeuron).bind fun en =>
        some (e + w * en)) 0).bind fun e =>
      (get2 n.X layer neuron).bind fun x =>
      (callF n.F 1 x).bind fun d =>
      (set2 n.E (layer - 1) neuron (e * d)).bind fun E' =>
      some { n with E := E' }) n) (n.X.length - 2) n).bind fun n =>
  (forRange 0 n.W.length (fun layer n =>
    (n.W[layer]?).bind fun wl =>
    forRange 0 wl.length (fun neuron n =>
      (get2 n.W layer neuron).bind fun row =>
      forRange 0 row.length (fun nextNeuron n =>
        (get2 n.X layer neuron).bind fun x =>
        (get2 n.E layer nextNeuron).bind fun en =>
        (get3 n.DW layer neuron nextNeuron).bind fun d =>
        let dw := speed * x * en + moment * d
        (set3 n.DW layer neuron nextNeuron dw).bind fun DW' =>
        (get3 n.W layer neuron nextNeuron).bind fun w =>
        (set3 n.W layer neuron nextNeuron (w + dw)).bind fun W' =>
        some { n with DW := DW', W := W' }) n) n) n).bind fun n =>
  forRange 0 n.B.length (fun layer n =>
    (n.B[layer]?).bind fun bl =>
    forRange 0 bl.length (fun nextNeuron n =>
      (get2 n.E layer nextNeuron).bind fun en =>
      let db := speed * en
      (get2 n.B layer nextNeuron).bind fun b =>
      (set2 n.B layer nextNeuron (b + db)).bind fun B' =>
      some { n with B := B' }) n) n

/-- The method `Rate` (nn.go 168-179): the returned value and the network as
the calls of `Forward` leave it. -/
def Rate (n : FFN α) (inputs outputs : List (List α)) : Option (α × FFN α) :=
  (forRange 0 outputs.length (fun set (st : α × FFN α) =>
    (inputs[set]?).bind fun inp =>
    (Forward st.2 inp).bind fun n =>
    (n.X[n.X.length - 1]?).bind fun xlast =>
    (forRange 0 xlast.length (fun neuron e =>
      (get2 n.X (n.X.length - 1) neuron).bind fun x =>
      (get2 outputs set neuron).bind fun o =>
      some (e + (x - o) ^ 2)) 0).bind fun e =>
    some (st.1 + e, n)) (0, n)).bind fun st =>
  some (st.1 / (outputs.length : α), st.2)

/-- The errors of `Train`, named as in the specification; `message` gives the
text of the Go error. -/
inductive TrainError
  | InvalidDataset
  | InvalidSpeed
  | InvalidMoment
  | InvalidRate
  | InvalidEpochBudget
  | EpochBudgetExceeded
  deriving DecidableEq

/-- The text passed to `errors.New` for each error of `Train`. -/
def TrainError.message : TrainError → String
  | .InvalidDataset => "inputs length is not equal to outputs length"
  | .InvalidSpeed => "speed less or equal to 0"
  | .InvalidMoment => "moment less than 0"
  | .InvalidRate => "rate less than 0"
  | .InvalidEpochBudget => "epoch less or equal to 0"
  | .EpochBudgetExceeded => "maximum count of epochs exceeded"

/-- What a run of `Train` can be observed to do: return its three values
(leaving the network `net`, having called the logging function with the
pairs `logged`, oldest first), panic, or still be running when the fuel given
to the embedding is used up. -/
inductive Outcome (α : Type)
  | returned (rate : α) (epoch : Int) (err : Option TrainError) (net : FFN α)
      (logged : List (Int × α))
  | panicked
  | running

/-- One pass through lines 201-203 for sample `set`: `Forward`, `Backward`,
then `Rate` over the whole dataset. -/
def sampleUpdate (n : FFN α) (inputs outputs : List (List α)) (speed moment : α)
    (set : Nat) : Option (α × FFN α) :=
  (inputs[set]?).bind fun inp =>
  (Forward n inp).bind fun n =>
  (outputs[set]?).bind fun out =>
  (Backward n out speed moment).bind fun n =>
  Rate n inputs outputs

/-- How the inner loop of `Train` over the samples ends: it falls through to
the end of the epoch, or a `return` statement inside it is executed, or it
panics. -/
inductive Step (α : Type)
  | next (net : FFN α) (currentRate : α)
  | stop (rate : α) (epoch : Int) (err : Option TrainError) (net : FFN α)
  | panic

/-- The inner loop of `Train` (nn.go 200-210) from sample index `set`, with
`k` samples left. -/
def TrainSets (inputs outputs : List (List α)) (speed moment rate : α) (epoch currentEpoch : Int) :
    Nat → Nat → FFN α → α → Step α
  | _, 0, n, currentRate => .next n currentRate
  | set, k + 1, n, _ =>
    match sampleUpdate n inputs outputs speed moment set with
    | none => .panic
    | some (currentRate, n) =>
      if currentRate ≤ rate then .stop currentRate currentEpoch none n
      else if currentEpoch > epoch then
        .stop currentRate currentEpoch (some .EpochBudgetExceeded) n
      else TrainSets inputs outputs speed moment rate epoch currentEpoch (set + 1) k n currentRate

/-- The value of a Go `int` (64 bits) holding the mathematical integer `x`. -/
def wrapInt (x : Int) : Int := (x + 2 ^ 63) % 2 ^ 64 - 2 ^ 63

/-- The outer loop of `Train` (nn.go 199-214), which has no exit condition of
its own; each epoch started uses one unit of `fuel`.  `log` tells whether the
logging function is non-nil. -/
def TrainEpochs (inputs outputs : List (List α)) (speed moment rate : α) (epoch : Int)
    (log : Bool) : Nat → Int → FFN α → α → List (Int × α) → Outcome α
  | 0, _, _, _, _ => .running
  | fuel + 1, currentEpoch, n, currentRate, logged =>
    match TrainSets inputs outputs speed moment rate epoch currentEpoch 0 inputs.length n
        currentRate with
    | .panic => .panicked
    | .stop r e err n => .returned r e err n logged
    | .next n currentRate =>
      TrainEpochs inputs outputs speed moment rate epoch log fuel (wrapInt (currentEpoch + 1)) n
        currentRate (if log then logged ++ [(currentEpoch, currentRate)] else logged)

/-- The method `Train` (nn.go 182-215). -/
def Train (fuel : Nat) (n : FFN α) (inputs outputs : List (List α)) (speed moment rate : α)
    (epoch : Int) (log : Bool) : Outcome α :=
  if inputs.length ≠ outputs.length then .returned 0 0 (some .InvalidDataset) n []
  else if speed ≤ 0 then .returned 0 0 (some .InvalidSpeed) n []
  else if moment < 0 then .returned 0 0 (some .InvalidMoment) n []
  else if rate < 0 then .returned 0 0 (some .InvalidRate) n []
  else if epoch ≤ 0 then .returned 0 0 (some .InvalidEpochBudget) n []
  else TrainEpochs inputs outputs speed moment rate epoch log fuel 0 n 0 []

/-! ## Well-formed networks -/

/-- The shape invariant for the topology `I`, `H`, `O`. -/
def Shaped (n : FFN α) (I H O : Nat) : Prop :=
  n.InputNeurons = I ∧ n.HiddenNeurons = H ∧ n.OutputNeurons = O ∧
  n.X.map List.length = [I, H, O] ∧
  n.E.map List.length = [H, O] ∧
  n.B.map List.length = [H, O] ∧
  n.W.map (List.map List.length) = [List.replicate I H, List.replicate H O] ∧
  n.DW.map (List.map List.length) = [List.replicate I H, List.replicate H O]

instance (n : FFN α) (I H O : Nat) : Decidable (Shaped n I H O) := by
  unfold Shaped; infer_instance

/-- A network is well-formed when it has the shape of its own topology. -/
def WellFormed (n : FFN α) : Prop :=
  Shaped n n.InputNeurons.toNat n.HiddenNeurons.toNat n.OutputNeurons.toNat

instance (n : FFN α) : Decidable (WellFormed n) := by
  unfold WellFormed; infer_instance

/-- The `P` by `Q` table of the values `g j k`. -/
def table {β : Type} (P Q : Nat) (g : Nat → Nat → β) : List (List β) :=
  (List.range P).map fun j => (List.range Q).map fun k => g j k

/-- The method `Read` (nn.go 218-221): the returned output layer and the
network after the call. -/
def Read (n : FFN α) (input : List α) : Option (List α × FFN α) :=
  (Forward n input).bind fun n =>
  (n.X[n.X.length - 1]?).bind fun out =>
  some (out, n)

/-- Total reader for a vector of a dataset, `[]` out of range. -/
def rowAt {β : Type} (a : List (List β)) (i : Nat) : List β := (a[i]?).getD []

/-- The rate computed by, and the network after, the first `k` sample updates
of a run of `Train`: samples are taken in dataset order, epoch after epoch
(before the first update the rate variable holds `0`). -/
def afterUpdates (n : FFN α) (inputs outputs : List (List α)) (speed moment : α) :
    Nat → Option (α × FFN α)
  | 0 => some (0, n)
  | k + 1 => (afterUpdates n inputs outputs speed moment k).bind fun st =>
      sampleUpdate st.2 inputs outputs speed moment (k % inputs.length)

/-- The largest value of a Go `int` (64 bits). -/
def maxInt : Int := 2 ^ 63 - 1

/-! ## Concrete networks -/

/-- A 1-1-1 network over `ℚ` whose numbers are all `0`, with the activation
pair `x ↦ x`, `x ↦ 1`. -/
def net111 : FFN ℚ :=
  { InputNeurons := 1, HiddenNeurons := 1, OutputNeurons := 1,
    X := [[0], [0], [0]], E := [[0], [0]], B := [[0], [0]],
    W := [[[0]], [[0]]], DW := [[[0]], [[0]]],
    F := [some fun x => x, some fun _ => 1] }

/-- A 1-1-1 network over `ℚ` that cannot learn: its activation function and
its derivative are constantly `0`. -/
def stuckNet : FFN ℚ :=
  { InputNeurons := 1, HiddenNeurons := 1, OutputNeurons := 1,
    X := [[0], [0], [0]], E := [[0], [0]], B := [[0], [0]],
    W := [[[0]], [[0]]], DW := [[[0]], [[0]]],
    F := [some fun _ => 0, some fun _ => 0] }

/-! ## Comparing two runs -/

/-- Two runs end alike: both panic, or both return, in states related by `R`. -/
def Both {σ : Type} (R : σ → σ → Prop) : Option σ → Option σ → Prop
  | none, none => True
  | some a, some b => R a b
  | _, _ => False

/-- The network `net111` after one sample update with input `[1]`, target
`[1]` and speed `1/5`. -/
def trained111 : FFN ℚ :=
  { InputNeurons := 1, HiddenNeurons := 1, OutputNeurons := 1,
    X := [[1], [0], [1 / 5]], E := [[0], [1]], B := [[0], [1 / 5]],
    W := [[[0]], [[0]]], DW := [[[0]], [[0]]],
    F := [some fun x => x, some fun _ => 1] }

/-! ## Construction

`math.Exp` is a parameter `exp` of the embedding, and so is the sequence `rnd`
of the values that the successive calls of `rand.Float64()` return (the
generator is seeded from the clock).  Allocation (`make`) is taken to
succeed for every length. -/

/-- The function `DefaultF` (nn.go 29-31). -/
def DefaultF (exp : α → α) (x : α) : α := 1 / (1 + exp (-x))

/-- The function `DefaultDF` (nn.go 34-36). -/
def DefaultDF (x : α) : α := x * (1 - x)

/-- The errors of `NewFFN`, one for each `errors.New` of nn.go 43-54; the
specification calls the first three `InvalidTopology` and the last
`InvalidActivationPair`. -/
inductive NewError
  | InputNeurons
  | OutputNeurons
  | HiddenNeurons
  | ActivationPair
  deriving DecidableEq

/-- The text passed to `errors.New` for each error of `NewFFN`. -/
def NewError.message : NewError → String
  | .InputNeurons => "input neurons less than 1"
  | .OutputNeurons => "output neurons less than 1"
  | .HiddenNeurons => "hidden neurons less than 1"
  | .ActivationPair => "activation functions slice length is not equal to 2"

/-- The test `f[i] == nil` on a slice of function values. -/
def isNilAt {β : Type} (F : List (Option β)) (i : Nat) : Bool :=
  match F[i]? with
  | some (some _) => false
  | _ => true

/-- The choice of the activation pair in `NewFFN` (nn.go 55-61): a nil slice
(`none`) is replaced by a slice of two nil functions, and when one of the two
functions is nil both are replaced by the defaults. -/
def activationPair (exp : α → α) (f : Option (List (Option (α → α)))) :
    List (Option (α → α)) :=
  let f : List (Option (α → α)) := match f with
    | none => [none, none]
    | some l => l
  if isNilAt f 0 ∨ isNilAt f 1 then
    (f.set 0 (some (DefaultF exp))).set 1 (some DefaultDF)
  else f

/-- The function `NewFFN` (nn.go 42-112).  The argument `f` is `none` for a
nil slice.  Biases and weights take the values `rnd k - 0.5` in the order of
the loops: `b[0]`, `b[1]`, then `w[0]` and `w[1]` row by row. -/
def NewFFN (exp : α → α) (rnd : Nat → α) (inputNeurons outputNeurons hiddenNeurons : Int)
    (f : Option (List (Option (α → α)))) : Except NewError (FFN α) :=
  if inputNeurons < 1 then .error .InputNeurons
  else if outputNeurons < 1 then .error .OutputNeurons
  else if hiddenNeurons < 1 then .error .HiddenNeurons
  else if f.isSome ∧ (f.getD []).length ≠ 2 then .error .ActivationPair
  else
    let I := inputNeurons.toNat
    let H := hiddenNeurons.toNat
    let O := outputNeurons.toNat
    .ok
      { InputNeurons := inputNeurons
        HiddenNeurons := hiddenNeurons
        OutputNeurons := outputNeurons
        X := [List.replicate I 0, List.replicate H 0, List.replicate O 0]
        E := [List.replicate H 0, List.replicate O 0]
        B := [(List.range H).map fun j => rnd j - 1 / 2,
          (List.range O).map fun j => rnd (H + j) - 1 / 2]
        W := [table I H fun j k => rnd (H + O + j * H + k) - 1 / 2,
          table H O fun j k => rnd (H + O + I * H + j * O + k) - 1 / 2]
        DW := [table I H fun _ _ => 0, table H O fun _ _ => 0]
        F := activationPair exp f }

/-! ## Persistence

A text is a value of a type `β`; `encoding/json` is a pair of parameters `encode`, `decode`,
of which `encode` (`json.Marshal`) can fail. -/

/-- What `json.Marshal` writes of a network: the fields whose tag is not
`"-"`. -/
structure Record (α : Type) where
  inputNeurons : Int
  hiddenNeurons : Int
  outputNeurons : Int
  b : List (List α)
  w : List (List (List α))
  dw : List (List (List α))

/-- The record of a network. -/
def toRecord (n : FFN α) : Record α :=
  { inputNeurons := n.InputNeurons, hiddenNeurons := n.HiddenNeurons,
    outputNeurons := n.OutputNeurons, b := n.B, w := n.W, dw := n.DW }

/-- The two kinds of error that `FromFile` and `Dump` pass on. -/
inductive PersistError
  | IOError
  | ParseError
  deriving DecidableEq

/-- The bytes of a file: none at all, or a text. -/
inductive Bytes (β : Type)
  | empty
  | text (b : β)

/-- The file system as `ioutil.ReadFile` and `ioutil.WriteFile` see it:
`content name = none` when the file cannot be read. -/
structure Files (β : Type) where
  content : String → Option (Bytes β)
  writable : String → Bool

/-- The method `Dump` (nn.go 244-247): the file system after the call and the
error returned (`none` for nil).  The result of `encode` is `none` when `json.Marshal`
returns an error; the method drops that error (`fileData, _ :=`) and writes the nil slice
that comes with it, that is, a file without bytes. -/
def Dump {β : Type} (encode : Record α → Option β) (n : FFN α) (filename : String)
    (fs : Files β) : Files β × Option PersistError :=
  let fileData : Bytes β :=
    match encode (toRecord n) with
    | some b => .text b
    | none => .empty
  if fs.writable filename then
    ({ fs with content := fun g => if g = filename then some fileData else fs.content g }, none)
  else (fs, some .IOError)

/-- The method `FromFile` (nn.go 224-241).  On a file without bytes `json.Unmarshal`
fails (unexpected end of JSON input).  The result of `decode` is `none`
when `json.Unmarshal` fails and `some none` when the text is the JSON literal
`null`, which leaves `v` nil and makes the method panic (result `none`). -/
def FromFile {β : Type} (decode : β → Option (Option (Record α))) (n : FFN α)
    (filename : String) (fs : Files β) : Option (Except PersistError (FFN α)) :=
  match fs.content filename with
  | none => some (.error .IOError)
  | some .empty => some (.error .ParseError)
  | some (.text fileData) =>
    match decode fileData with
    | none => some (.error .ParseError)
    | some none => none
    | some (some v) =>
      some (.ok { n with
        InputNeurons := v.inputNeurons
        HiddenNeurons := v.hiddenNeurons
        OutputNeurons := v.outputNeurons
        B := v.b
        W := v.w
        DW := v.dw })

/-- The calls of a non-nil logging function (nn.go 211-213) that the outer loop of `Train`
makes during its first `fuel` epochs, oldest first: one call at the end of each epoch whose
inner loop fell through, none once the loop has panicked or returned. -/
def TrainEpochsCalls (inputs outputs : List (List α)) (speed moment rate : α) (epoch : Int) :
    Nat → Int → FFN α → α → List (Int × α)
  | 0, _, _, _ => []
  | fuel + 1, currentEpoch, n, currentRate =>
    match TrainSets inputs outputs speed moment rate epoch currentEpoch 0 inputs.length n
        currentRate with
    | .next n currentRate =>
      (currentEpoch, currentRate) ::
        TrainEpochsCalls inputs outputs speed moment rate epoch fuel (wrapInt (currentEpoch + 1))
          n currentRate
    | _ => []

/-- The calls of a non-nil logging function that `Train` makes during its first `fuel`
epochs, oldest first. -/
def TrainCalls (fuel : Nat) (n : FFN α) (inputs outputs : List (List α))
    (speed moment rate : α) (epoch : Int) : List (Int × α) :=
  if inputs.length ≠ outputs.length then []
  else if speed ≤ 0 then []
  else if moment < 0 then []
  else if rate < 0 then []
  else if epoch ≤ 0 then []
  else TrainEpochsCalls inputs outputs speed moment rate epoch fuel 0 n 0

/-- The rate that the `k`-th sample update of a run of `Train` returns (`0`
when that update does not return). -/
def rateAfter (n : FFN α) (inputs outputs : List (List α)) (speed moment : α) (k : Nat) : α :=
  ((afterUpdates n inputs outputs speed moment k).map Prod.fst).getD 0

/-- A 1-2-1 network over `ℚ` (one input, two hidden neurons, one output)
whose numbers are all `0`, with the activation pair `x ↦ x`, `x ↦ 1`. -/
def net121 : FFN ℚ :=
  { InputNeurons := 1, HiddenNeurons := 2, OutputNeurons := 1,
    X := [[0], [0, 0], [0]], E := [[0, 0], [0]], B := [[0, 0], [0]],
    W := [[[0, 0]], [[0], [0]]], DW := [[[0, 0]], [[0], [0]]],
    F := [some fun x => x, some fun _ => 1] }

/-- A file name. -/
def dumpName : String := "dump.json"

/-- A file system with no readable file, in which every file can be written. -/
def emptyFiles {β : Type} : Files β :=
  { content := fun _ => none, writable := fun _ => true }

/-- The 1-1-1 network with the given activation pair and numbers. -/
def mk111 {β : Type} (f df : β → β) (x0 x1 x2 e0 e1 b0 b1 w0 w1 d0 d1 : β) : FFN β :=
  { InputNeurons := 1, HiddenNeurons := 1, OutputNeurons := 1,
    X := [[x0], [x1], [x2]], E := [[e0], [e1]], B := [[b0], [b1]],
    W := [[[w0]], [[w1]]], DW := [[[d0]], [[d1]]],
    F := [some f, some df] }

/-- A network `n'` that is well-formed and has the topology of `n`. -/
def Kept (n n' : FFN α) : Prop :=
  WellFormed n' ∧ n'.InputNeurons = n.InputNeurons ∧ n'.HiddenNeurons = n.HiddenNeurons ∧
    n'.OutputNeurons = n.OutputNeurons

/-- The inner loop of `Train` did not panic and left a network for which `P` holds. -/
def Step.All (P : FFN α → Prop) : Step α → Prop
  | .next n _ => P n
  | .stop _ _ _ n => P n
  | .panic => False

/-- A run of `Train` did not panic, and if it returned, it left a network for which `P`
holds. -/
def Outcome.All (P : FFN α → Prop) : Outcome α → Prop
  | .returned _ _ _ n _ => P n
  | .panicked => False
  | .running => True

/-- A 1-1-1 network whose numbers are all `0`, with the default activation pair built
from `exp`. -/
def sigmoid111 (exp : α → α) : FFN α :=
  { InputNeurons := 1, HiddenNeurons := 1, OutputNeurons := 1,
    X := [[0], [0], [0]], E := [[0], [0]], B := [[0], [0]],
    W := [[[0]], [[0]]], DW := [[[0]], [[0]]],
    F := [some (DefaultF exp), some DefaultDF] }

end

section

variable {α : Type} [LinearOrderedField α]

/-! ## Closed forms

The values that the loops of `Forward` and `Backward` are shown to compute,
written as in the specification. -/

/-- Activation of hidden neuron `j` for `input`: `f(bias + Σ input[k]·w[k][j])`. -/
def hiddenOf (n : FFN α) (f : α → α) (input : List α) (j : Nat) : α :=
  f (at2 n.B 0 j + ∑ k ∈ Finset.range input.length, at1 input k * at3 n.W 0 k j)

/-- Activation of output neuron `j` for `input`, from the hidden activations. -/
def outputOf (n : FFN α) (f : α → α) (input : List α) (j : Nat) : α :=
  f (at2 n.B 1 j +
    ∑ k ∈ Finset.range n.HiddenNeurons.toNat, hiddenOf n f input k * at3 n.W 1 k j)

/-- The network after `Forward`: only the activations change. -/
def forwardState (n : FFN α) (f : α → α) (input : List α) : FFN α :=
  { n with X := [input, (List.range n.HiddenNeurons.toNat).map (hiddenOf n f input),
      (List.range n.OutputNeurons.toNat).map (outputOf n f input)] }

/-- Error signal of output neuron `j` for the target `output`. -/
def errOut (n : FFN α) (df : α → α) (output : List α) (j : Nat) : α :=
  (at1 output j - at2 n.X 2 j) * df (at2 n.X 2 j)

/-- Error signal of hidden neuron `j`, from the output error signals and the
hidden-to-output weights of `n`. -/
def errHid (n : FFN α) (df : α → α) (output : List α) (j : Nat) : α :=
  (∑ m ∈ Finset.range n.OutputNeurons.toNat, at3 n.W 1 j m * errOut n df output m) *
    df (at2 n.X 1 j)

/-- Error signal `E[l][j]` computed by `Backward`: `l = 0` hidden, `l = 1` output. -/
def errOf (n : FFN α) (df : α → α) (output : List α) (l j : Nat) : α :=
  if l = 0 then errHid n df output j else errOut n df output j

/-- The weight delta of the delta rule with momentum for connection `l`, `j`, `k`. -/
def deltaOf (n : FFN α) (df : α → α) (output : List α) (speed moment : α) (l j k : Nat) : α :=
  speed * at2 n.X l j * errOf n df output l k + moment * at3 n.DW l j k

/-- The network after `Backward`: error signals, weights, weight deltas and
biases change, the activations do not. -/
def backwardState (n : FFN α) (df : α → α) (output : List α) (speed moment : α) : FFN α :=
  { n with
    E := [(List.range n.HiddenNeurons.toNat).map (errOf n df output 0),
      (List.range n.OutputNeurons.toNat).map (errOf n df output 1)]
    B := [(List.range n.HiddenNeurons.toNat).map fun j =>
        at2 n.B 0 j + speed * errOf n df output 0 j,
      (List.range n.OutputNeurons.toNat).map fun j =>
        at2 n.B 1 j + speed * errOf n df output 1 j]
    W := [table n.InputNeurons.toNat n.HiddenNeurons.toNat fun j k =>
        at3 n.W 0 j k + deltaOf n df output speed moment 0 j k,
      table n.HiddenNeurons.toNat n.OutputNeurons.toNat fun j k =>
        at3 n.W 1 j k + deltaOf n df output speed moment 1 j k]
    DW := [table n.InputNeurons.toNat n.HiddenNeurons.toNat
        (deltaOf n df output speed moment 0),
      table n.HiddenNeurons.toNat n.OutputNeurons.toNat
        (deltaOf n df output speed moment 1)] }

/-- Summed squared error of sample `s`, with the network outputs in closed form. -/
def sqErr (n : FFN α) (f : α → α) (inputs outputs : List (List α)) (s : Nat) : α :=
  ∑ j ∈ Finset.range n.OutputNeurons.toNat,
    (outputOf n f (rowAt inputs s) j - at2 outputs s j) ^ 2

/-- The value of `Rate` in closed form. -/
def rateOf (n : FFN α) (f : α → α) (inputs outputs : List (List α)) : α :=
  (∑ s ∈ Finset.range outputs.length, sqErr n f inputs outputs s) / (outputs.length : α)

/-- The network after `Rate`: the activations are those of the last sample. -/
def rateState (n : FFN α) (f : α → α) (inputs outputs : List (List α)) : FFN α :=
  if outputs.length = 0 then n else forwardState n f (rowAt inputs (outputs.length - 1))

end

/-! ## A model of `float64` with overflow, infinities and NaN

The theorems about the numbers that the program computes are stated over a linearly
ordered field, that is, for exact arithmetic.  The type `F64` is used to run the program
where `float64` arithmetic leaves the finite numbers.  Its operations follow IEEE 754 for
infinities and NaN; a finite result is kept exact (rounding is not modelled) unless its
magnitude reaches `F64.limit`, from where rounding to nearest yields an infinity; the two
zeros are one value, taken to be `+0` as a divisor. -/

/-- A `float64` value: a finite number, `+Inf`, `-Inf` or NaN. -/
inductive F64
  | fin (q : ℚ)
  | pinf
  | ninf
  | nan
  deriving DecidableEq

/-- The magnitude `2^1024 - 2^970` from which a result rounds to an infinity. -/
def F64.limit : ℚ := 2 ^ 1024 - 2 ^ 970

/-- The `float64` for the exact result `q` of an operation on finite values. -/
def F64.ofRat (q : ℚ) : F64 :=
  if F64.limit ≤ q then .pinf else if q ≤ -F64.limit then .ninf else .fin q

/-- Negation. -/
def F64.neg : F64 → F64
  | .fin a => .fin (-a)
  | .pinf => .ninf
  | .ninf => .pinf
  | .nan => .nan

/-- Addition: `+Inf + -Inf` is NaN. -/
def F64.add : F64 → F64 → F64
  | .fin a, .fin b => F64.ofRat (a + b)
  | .fin _, .pinf => .pinf
  | .fin _, .ninf => .ninf
  | .pinf, .fin _ => .pinf
  | .pinf, .pinf => .pinf
  | .pinf, .ninf => .nan
  | .ninf, .fin _ => .ninf
  | .ninf, .pinf => .nan
  | .ninf, .ninf => .ninf
  | .nan, _ => .nan
  | .fin _, .nan => .nan
  | .pinf, .nan => .nan
  | .ninf, .nan => .nan

/-- The product of an infinity, positive when `positive`, and the finite value `b`:
NaN when `b` is zero. -/
def F64.infMul (positive : Bool) (b : ℚ) : F64 :=
  if b = 0 then .nan
  else if 0 < b then (if positive then .pinf else .ninf)
  else (if positive then .ninf else .pinf)

/-- Multiplication: an infinity times zero is NaN. -/
def F64.mul : F64 → F64 → F64
  | .fin a, .fin b => F64.ofRat (a * b)
  | .fin a, .pinf => F64.infMul true a
  | .fin a, .ninf => F64.infMul false a
  | .pinf, .fin b => F64.infMul true b
  | .pinf, .pinf => .pinf
  | .pinf, .ninf => .ninf
  | .ninf, .fin b => F64.infMul false b
  | .ninf, .pinf => .ninf
  | .ninf, .ninf => .pinf
  | .nan, _ => .nan
  | .fin _, .nan => .nan
  | .pinf, .nan => .nan
  | .ninf, .nan => .nan

/-- Division: `0/0` and an infinity divided by an infinity are NaN, a finite value divided
by an infinity is zero, a non-zero value divided by zero is an infinity. -/
def F64.div : F64 → F64 → F64
  | .fin a, .fin b =>
    if b = 0 then (if a = 0 then .nan else if 0 < a then .pinf else .ninf)
    else F64.ofRat (a / b)
  | .fin _, .pinf => .fin 0
  | .fin _, .ninf => .fin 0
  | .pinf, .fin b => if 0 ≤ b then .pinf else .ninf
  | .pinf, .pinf => .nan
  | .pinf, .ninf => .nan
  | .ninf, .fin b => if 0 ≤ b then .ninf else .pinf
  | .ninf, .pinf => .nan
  | .ninf, .ninf => .nan
  | .nan, _ => .nan
  | .fin _, .nan => .nan
  | .pinf, .nan => .nan
  | .ninf, .nan => .nan

/-- The power `math.Pow(x, n)` for a natural number `n`, as a repeated product. -/
def F64.pow (x : F64) : Nat → F64
  | 0 => .fin 1
  | n + 1 => F64.mul (F64.pow x n) x

/-- The comparison `a <= b`: false when an operand is NaN. -/
def F64.le : F64 → F64 → Bool
  | .fin a, .fin b => decide (a ≤ b)
  | .fin _, .pinf => true
  | .fin _, .ninf => false
  | .pinf, .fin _ => false
  | .pinf, .pinf => true
  | .pinf, .ninf => false
  | .ninf, .fin _ => true
  | .ninf, .pinf => true
  | .ninf, .ninf => true
  | .nan, _ => false
  | .fin _, .nan => false
  | .pinf, .nan => false
  | .ninf, .nan => false

/-- The comparison `a < b`: false when an operand is NaN. -/
def F64.lt : F64 → F64 → Bool
  | .fin a, .fin b => decide (a < b)
  | .fin _, .pinf => true
  | .fin _, .ninf => false
  | .pinf, .fin _ => false
  | .pinf, .pinf => false
  | .pinf, .ninf => false
  | .ninf, .fin _ => true
  | .ninf, .pinf => true
  | .ninf, .ninf => false
  | .nan, _ => false
  | .fin _, .nan => false
  | .pinf, .nan => false
  | .ninf, .nan => false

instance : Zero F64 := ⟨.fin 0⟩

instance : One F64 := ⟨.fin 1⟩

instance : Neg F64 := ⟨F64.neg⟩

instance : Add F64 := ⟨F64.add⟩

instance : Sub F64 := ⟨fun a b => F64.add a (F64.neg b)⟩

instance : Mul F64 := ⟨F64.mul⟩

instance : Div F64 := ⟨F64.div⟩

instance : Pow F64 ℕ := ⟨F64.pow⟩

instance : NatCast F64 := ⟨fun n => .fin n⟩

instance : LE F64 := ⟨fun a b => F64.le a b = true⟩

instance : LT F64 := ⟨fun a b => F64.lt a b = true⟩

instance (a b : F64) : Decidable (a ≤ b) := inferInstanceAs (Decidable (F64.le a b = true))

instance (a b : F64) : Decidable (a < b) := inferInstanceAs (Decidable (F64.lt a b = true))

/-- The function `math.Exp` where it saturates: NaN for NaN, `+Inf` for `+Inf` and for
every argument from `1000` on (overflow), `0` for `-Inf` and for every argument up to
`-1000` (underflow).  Its values in between are those of the parameter `e`. -/
def F64.exp (e : ℚ → F64) : F64 → F64
  | .fin q => if q ≤ -1000 then .fin 0 else if 1000 ≤ q then .pinf else e q
  | .pinf => .pinf
  | .ninf => .fin 0
  | .nan => .nan

/-- Whether a value is neither NaN nor an infinity. -/
def F64.isFinite : F64 → Bool
  | .fin _ => true
  | _ => false

/-- The function `json.Marshal` on the record of a network, as far as its failure goes: it
returns an error when a number is NaN or an infinity, and otherwise a text, for which the
record stands here. -/
def marshal (r : Record F64) : Option (Record F64) :=
  if r.b.all (fun row => row.all F64.isFinite) &&
      r.w.all (fun m => m.all fun row => row.all F64.isFinite) &&
      r.dw.all (fun m => m.all fun row => row.all F64.isFinite) then some r
  else none

/-- A well-formed 1-1-1 network with the default activation pair whose two neurons are
saturated for large inputs: input weight `1`, output bias `1000`, all else `0`. -/
def saturated111 (e : ℚ → F64) : FFN F64 :=
  { InputNeurons := 1, HiddenNeurons := 1, OutputNeurons := 1,
    X := [[0], [0], [0]], E := [[0], [0]], B := [[0], [.fin 1000]],
    W := [[[1]], [[0]]], DW := [[[0]], [[0]]],
    F := [some (DefaultF (F64.exp e)), some DefaultDF] }

/-- A well-formed 1-1-1 network whose input weight is NaN. -/
def nanNet : FFN F64 :=
  { InputNeurons := 1, HiddenNeurons := 1, OutputNeurons := 1,
    X := [[0], [0], [0]], E := [[0], [0]], B := [[0], [0]],
    W := [[[.nan]], [[0]]], DW := [[[0]], [[0]]],
    F := [some fun x => x, some fun _ => 1] }

/-! ## Slices: basic facts -/

variable {α : Type} [LinearOrderedField α]

theorem Shaped.wellFormed {n : FFN α} {I H O : Nat} (h : Shaped n I H O) : WellFormed n := by
  unfold WellFormed
  rw [h.1, h.2.1, h.2.2.1]
  exact h

theorem wellFormed_iff (n : FFN α) : WellFormed n ↔ ∃ I H O, Shaped n I H O :=
  ⟨fun h => ⟨_, _, _, h⟩, fun ⟨_, _, _, h⟩ => h.wellFormed⟩

theorem get2_eq_at2 {β : Type} [Zero β] (a : List (List β)) (i j l : Nat)
    (h : (a.map List.length)[i]? = some l) (hj : j < l) : get2 a i j = some (at2 a i j) := by
  rw [List.getElem?_map] at h
  cases hr : a[i]? with
  | none => simp [hr] at h
  | some r =>
    simp only [hr, Option.map_some', Option.some.injEq] at h
    have hjr : j < r.length := by omega
    simp [at2, get2, hr, List.getElem?_eq_getElem hjr]

theorem get3_eq_at3 {β : Type} [Zero β] (a : List (List (List β))) (i j k l : Nat)
    (sh : List Nat) (h : (a.map (List.map List.length))[i]? = some sh) (hs : sh[j]? = some l)
    (hk : k < l) : get3 a i j k = some (at3 a i j k) := by
  rw [List.getElem?_map] at h
  cases hm : a[i]? with
  | none => simp [hm] at h
  | some m =>
    simp only [hm, Option.map_some', Option.some.injEq] at h
    subst h
    have h2 := get2_eq_at2 m j k l hs hk
    simp only [get2] at h2
    simp only [at3, get3, hm, Option.some_bind]
    cases hr : m[j]? with
    | none => simp [hr] at h2
    | some r =>
      simp only [hr, Option.some_bind] at h2 ⊢
      cases hv : r[k]? with
      | none => simp [hv] at h2
      | some v => simp

/-! ## Loops: proof rules -/

theorem loopFrom_inv {σ : Type} (body : Nat → σ → Option σ) (Inv : Nat → σ → Prop) :
    ∀ (k i : Nat) (s : σ), Inv i s →
      (∀ j t, i ≤ j → j < i + k → Inv j t → ∃ t', body j t = some t' ∧ Inv (j + 1) t') →
      ∃ s', loopFrom body i k s = some s' ∧ Inv (i + k) s' := by
  intro k
  induction k with
  | zero => intro i s h _; exact ⟨s, rfl, h⟩
  | succ k ih =>
    intro i s h hb
    obtain ⟨t, ht, hI⟩ := hb i s (le_refl i) (by omega) h
    obtain ⟨s', hs', hI'⟩ := ih (i + 1) t hI (fun j u h1 h2 hu => hb j u (by omega) (by omega) hu)
    refine ⟨s', ?_, ?_⟩
    · simp [loopFrom, ht, hs']
    · have : i + (k + 1) = i + 1 + k := by omega
      rw [this]; exact hI'

theorem forRange_inv {σ : Type} (body : Nat → σ → Option σ) (Inv : Nat → σ → Prop)
    (hi : Nat) (s : σ) (h0 : Inv 0 s)
    (hb : ∀ j t, j < hi → Inv j t → ∃ t', body j t = some t' ∧ Inv (j + 1) t') :
    ∃ s', forRange 0 hi body s = some s' ∧ Inv hi s' := by
  have := loopFrom_inv body Inv hi 0 s h0 (fun j t _ h2 hI => hb j t (by omega) hI)
  simpa [forRange] using this

theorem forRange_sum {α : Type} [LinearOrderedField α] (body : Nat → α → Option α)
    (t : Nat → α) (m : Nat) (b : α) (h : ∀ k x, k < m → body k x = some (x + t k)) :
    forRange 0 m body b = some (b + ∑ k ∈ Finset.range m, t k) := by
  obtain ⟨s, hs, hI⟩ := forRange_inv body (fun j x => x = b + ∑ k ∈ Finset.range j, t k) m b
    (by simp) (fun j x hj hx => ⟨x + t j, h j x hj, by
      show x + t j = b + ∑ k ∈ Finset.range (j + 1), t k
      rw [hx, Finset.sum_range_succ, add_assoc]⟩)
  rw [hs, hI]

theorem shape3 {β : Type} (a : List (List β)) (p q r : Nat)
    (h : a.map List.length = [p, q, r]) :
    ∃ x y z, a = [x, y, z] ∧ x.length = p ∧ y.length = q ∧ z.length = r := by
  match a, h with
  | [x, y, z], h => simp at h; exact ⟨x, y, z, rfl, h.1, h.2.1, h.2.2⟩

theorem shape2 {β : Type} (a : List (List β)) (p q : Nat)
    (h : a.map List.length = [p, q]) :
    ∃ x y, a = [x, y] ∧ x.length = p ∧ y.length = q := by
  match a, h with
  | [x, y], h => simp at h; exact ⟨x, y, rfl, h.1, h.2⟩

/-- a list is determined by pointwise lookups -/
theorem eq_map_range {β : Type} (xs : List β) (g : Nat → β) (m : Nat)
    (h : ∀ i, xs[i]? = if i < m then some (g i) else none) : xs = (List.range m).map g := by
  apply List.ext_getElem?
  intro i
  rw [h i, List.getElem?_map]
  by_cases hi : i < m
  · rw [if_pos hi, List.getElem?_range hi]; rfl
  · rw [if_neg hi, List.getElem?_eq_none (by simp; omega)]; rfl

theorem lt_of_getElem? {β : Type} {a : List β} {i : Nat} {r : β} (h : a[i]? = some r) :
    i < a.length := by
  obtain ⟨h1, _⟩ := List.getElem?_eq_some.mp h
  exact h1

theorem set_self_of_getElem? {β : Type} {a : List β} {i : Nat} {r : β} (h : a[i]? = some r) :
    a.set i r = a := by
  apply List.ext_getElem?
  intro k
  rw [List.getElem?_set]
  have := lt_of_getElem? h
  by_cases hk : i = k
  · subst hk; simp [this, h]
  · simp [hk]

theorem length_of_pointwise {β : Type} (xs cur : List β) (v : Nat → β) (j : Nat)
    (h : ∀ i, xs[i]? = if i < j then some (v i) else cur[i]?) (hj : j ≤ cur.length) :
    xs.length = cur.length := by
  apply le_antisymm
  · have h1 := h cur.length
    rw [if_neg (by omega), List.getElem?_eq_none (le_refl _)] at h1
    exact List.getElem?_eq_none_iff.mp h1
  · by_contra hc
    have h1 := h xs.length
    rw [List.getElem?_eq_none (le_refl _)] at h1
    by_cases h2 : xs.length < j
    · rw [if_pos h2] at h1; exact Option.noConfusion h1
    · rw [if_neg h2, List.getElem?_eq_getElem (by omega)] at h1; exact Option.noConfusion h1

theorem pointwise_step {β : Type} (xs cur : List β) (v : Nat → β) (j : Nat)
    (h : ∀ i, xs[i]? = if i < j then some (v i) else cur[i]?) (hj : j < cur.length) (i : Nat) :
    (xs.set j (v j))[i]? = if i < j + 1 then some (v i) else cur[i]? := by
  have hlen := length_of_pointwise xs cur v j h (by omega)
  rw [List.getElem?_set]
  by_cases hij : j = i
  · subst hij; simp [hlen, hj]
  · simp only [hij, if_false, h i]
    by_cases h1 : i < j
    · simp [h1, Nat.lt_succ_of_lt h1]
    · have : ¬ i < j + 1 := by omega
      simp [h1, this]

theorem pointwise_done {β : Type} (xs cur : List β) (v : Nat → β)
    (h : ∀ i, xs[i]? = if i < cur.length then some (v i) else cur[i]?) :
    xs = (List.range cur.length).map v := by
  apply eq_map_range
  intro i
  rw [h i]
  by_cases hi : i < cur.length
  · simp [hi]
  · simp only [hi, if_false]; exact List.getElem?_eq_none (by omega)

theorem callF_eq {β : Type} (F : List (Option (β → β))) (i : Nat) (f : β → β) (x : β)
    (h : F[i]? = some (some f)) : callF F i x = some (f x) := by
  simp [callF, h]

theorem set2_eq {β : Type} (a : List (List β)) (i j : Nat) (r : List β) (v : β)
    (hr : a[i]? = some r) (hj : j < r.length) : set2 a i j v = some (a.set i (r.set j v)) := by
  have hi : i < a.length := lt_of_getElem? hr
  simp [set2, set1, hr, hj, hi]

theorem forRange_eq_of_inv {σ : Type} (body : Nat → σ → Option σ) (Inv : Nat → σ → Prop)
    (hi : Nat) (s r : σ) (h0 : Inv 0 s)
    (hb : ∀ j t, j < hi → Inv j t → ∃ t', body j t = some t' ∧ Inv (j + 1) t')
    (hfin : ∀ t, Inv hi t → t = r) : forRange 0 hi body s = some r := by
  obtain ⟨t, ht, hI⟩ := forRange_inv body Inv hi s h0 hb
  rw [ht, hfin t hI]

/-- The body of the neuron loop of `Forward` at layer `l`. -/
theorem Forward_layer (s : FFN α) (l P Q : Nat) (prev cur : List α) (f : α → α)
    (hl : 1 ≤ l) (hprev : s.X[l - 1]? = some prev) (hcur : s.X[l]? = some cur)
    (hP : prev.length = P) (hQ : cur.length = Q)
    (hB : (s.B.map List.length)[l - 1]? = some Q)
    (hW : (s.W.map (List.map List.length))[l - 1]? = some (List.replicate P Q))
    (hF : s.F[0]? = some (some f)) :
    forRange 0 Q (fun neuron n =>
        (get2 n.B (l - 1) neuron).bind fun b =>
        (n.X[l - 1]?).bind fun xp =>
        (forRange 0 xp.length (fun prevNeuron x =>
          (get2 n.X (l - 1) prevNeuron).bind fun a =>
          (get3 n.W (l - 1) prevNeuron neuron).bind fun w =>
          some (x + a * w)) b).bind fun x =>
        (callF n.F 0 x).bind fun y =>
        (set2 n.X l neuron y).bind fun X' =>
        some { n with X := X' }) s =
      some { s with X := s.X.set l ((List.range Q).map fun j =>
        f (at2 s.B (l - 1) j + ∑ k ∈ Finset.range P, at1 prev k * at3 s.W (l - 1) k j)) } := by
  set v : Nat → α := fun j =>
    f (at2 s.B (l - 1) j + ∑ k ∈ Finset.range P, at1 prev k * at3 s.W (l - 1) k j) with hv
  have hne : l - 1 ≠ l := by omega
  have hlX := lt_of_getElem? hcur
  refine forRange_eq_of_inv _
    (fun j (t : FFN α) => ∃ xs : List α, t = { s with X := s.X.set l xs } ∧
      ∀ i, xs[i]? = if i < j then some (v i) else cur[i]?) Q s _
    ⟨cur, by rw [set_self_of_getElem? hcur], by simp⟩ ?_ ?_
  · rintro j t hj ⟨xs, rfl, hxs⟩
    have hlen := length_of_pointwise xs cur v j hxs (by omega)
    have hb := get2_eq_at2 s.B (l - 1) j Q hB hj
    have hprev' : (s.X.set l xs)[l - 1]? = some prev := by
      rw [List.getElem?_set_ne (Ne.symm hne)]; exact hprev
    have hcur' : (s.X.set l xs)[l]? = some xs := by
      rw [List.getElem?_set]; simp [hlX]
    have hsum : forRange 0 prev.length (fun prevNeuron x =>
        (get2 (s.X.set l xs) (l - 1) prevNeuron).bind fun a =>
        (get3 s.W (l - 1) prevNeuron j).bind fun w =>
        some (x + a * w)) (at2 s.B (l - 1) j) =
        some (at2 s.B (l - 1) j + ∑ k ∈ Finset.range P, at1 prev k * at3 s.W (l - 1) k j) := by
      rw [hP]
      apply forRange_sum
      intro k x hk
      have h3 := get3_eq_at3 s.W (l - 1) k j Q (List.replicate P Q) hW
        (by simp [List.getElem?_replicate, hk]) hj
      have h2 : get2 (s.X.set l xs) (l - 1) k = some (at1 prev k) := by
        simp [get2, hprev', at1, List.getElem?_eq_getElem (show k < prev.length by omega)]
      simp [h3, h2]
    refine ⟨{ s with X := s.X.set l (xs.set j (v j)) }, ?_, xs.set j (v j), rfl, ?_⟩
    · dsimp only
      simp only [hb, Option.some_bind, hprev', hsum, callF_eq _ _ _ _ hF]
      rw [set2_eq _ l j xs _ hcur' (by omega)]
      simp [hv]
    · exact pointwise_step xs cur v j hxs (by omega)
  · rintro t ⟨xs, rfl, hpt⟩
    have := pointwise_done xs cur v (by rw [hQ]; exact hpt)
    rw [this, hQ]

theorem forRange_step {σ : Type} (lo hi : Nat) (body : Nat → σ → Option σ) (s : σ)
    (h : lo < hi) :
    forRange lo hi body s = (body lo s).bind fun t => forRange (lo + 1) hi body t := by
  obtain ⟨k, rfl⟩ : ∃ k, hi = lo + 1 + k := ⟨hi - lo - 1, by omega⟩
  have h1 : lo + 1 + k - lo = k + 1 := by omega
  have h2 : lo + 1 + k - (lo + 1) = k := by omega
  simp only [forRange, h1, h2, loopFrom]

theorem forRange_done {σ : Type} (lo hi : Nat) (body : Nat → σ → Option σ) (s : σ)
    (h : hi ≤ lo) : forRange lo hi body s = some s := by
  have h1 : hi - lo = 0 := by omega
  simp only [forRange, h1, loopFrom]

theorem at1_map_range {β : Type} [Zero β] (g : Nat → β) (m k : Nat) (h : k < m) :
    at1 ((List.range m).map g) k = g k := by
  simp [at1, List.getElem?_map, List.getElem?_range h]

theorem Forward_eq (n : FFN α) (I H O : Nat) (f : α → α) (input : List α)
    (hs : Shaped n I H O) (hF : n.F[0]? = some (some f)) (hin : input.length = I) :
    Forward n input = some (forwardState n f input) := by
  obtain ⟨hI, hH, hO, hX, hE, hB, hW, hDW⟩ := hs
  subst hin
  obtain ⟨x0, x1, x2, hXe, h0, h1, h2⟩ := shape3 n.X _ H O hX
  unfold Forward
  simp only [hXe, set1, List.length_cons, Nat.zero_lt_succ, if_true, Option.some_bind,
    List.set_cons_zero, List.length_nil]
  rw [forRange_step 1 _ _ _ (by omega)]
  have e1 := Forward_layer { n with X := [input, x1, x2] } 1 input.length H input x1 f
    (le_refl 1) rfl rfl rfl h1 (by simp [hB]) (by simp [hW]) hF
  dsimp only at e1
  simp only [List.getElem?_cons_succ, List.getElem?_cons_zero, Option.some_bind, h1]
  rw [e1]
  simp only [Option.some_bind, List.set_cons_succ, List.set_cons_zero, Nat.reduceAdd,
    Nat.reduceSub]
  rw [forRange_step 2 _ _ _ (by omega)]
  have e2 := Forward_layer { n with X := [input, (List.range H).map fun j =>
        f (at2 n.B 0 j + ∑ k ∈ Finset.range input.length, at1 input k * at3 n.W 0 k j), x2] } 2 H O
    ((List.range H).map fun j =>
        f (at2 n.B 0 j + ∑ k ∈ Finset.range input.length, at1 input k * at3 n.W 0 k j)) x2 f (by omega)
    rfl rfl (by simp) h2 (by simp [hB]) (by simp [hW]) hF
  dsimp only at e2
  simp only [Nat.reduceSub] at e2
  simp only [List.getElem?_cons_succ, List.getElem?_cons_zero, Option.some_bind, h2]
  rw [e2]
  simp only [Option.some_bind]
  rw [forRange_done _ _ _ _ (by omega)]
  simp only [List.set_cons_succ, List.set_cons_zero, forwardState, hH, hO,
    Int.toNat_ofNat, hiddenOf, outputOf]
  congr 5
  apply List.map_congr_left
  intro j _
  simp only [outputOf, hiddenOf, hH, Int.toNat_ofNat]
  congr 2
  apply Finset.sum_congr rfl
  intro k hk
  rw [at1_map_range _ _ _ (Finset.mem_range.mp hk)]

theorem at1_eq {β : Type} [Zero β] (a : List β) (i : Nat) (h : i < a.length) :
    a[i]? = some (at1 a i) := by
  simp [at1, List.getElem?_eq_getElem h]

theorem get2_row {β : Type} (a : List (List β)) (i j : Nat) (r : List β) (h : a[i]? = some r) :
    get2 a i j = r[j]? := by
  simp [get2, h]

/-- The loop over the output neurons in `Backward` (nn.go 131-134). -/
theorem Backward_outErr (s : FFN α) (Q : Nat) (xl cur output : List α) (df : α → α)
    (hX : s.X[s.X.length - 1]? = some xl) (hE : s.E[s.E.length - 1]? = some cur)
    (hxl : xl.length = Q) (hcur : cur.length = Q) (hout : output.length = Q)
    (hF : s.F[1]? = some (some df)) :
    forRange 0 Q (fun neuron n =>
      (get2 n.X (n.X.length - 1) neuron).bind fun x =>
      (output[neuron]?).bind fun o =>
      (callF n.F 1 x).bind fun d =>
      (set2 n.E (n.E.length - 1) neuron ((o - x) * d)).bind fun E' =>
      some { n with E := E' }) s =
    some { s with E := s.E.set (s.E.length - 1) ((List.range Q).map fun j =>
      (at1 output j - at1 xl j) * df (at1 xl j)) } := by
  set v : Nat → α := fun j => (at1 output j - at1 xl j) * df (at1 xl j) with hv
  have hlE := lt_of_getElem? hE
  refine forRange_eq_of_inv _
    (fun j (t : FFN α) => ∃ xs : List α, t = { s with E := s.E.set (s.E.length - 1) xs } ∧
      ∀ i, xs[i]? = if i < j then some (v i) else cur[i]?) Q s _
    ⟨cur, by rw [set_self_of_getElem? hE], by simp⟩ ?_ ?_
  · rintro j t hj ⟨xs, rfl, hxs⟩
    have hlen := length_of_pointwise xs cur v j hxs (by omega)
    have hcur' : (s.E.set (s.E.length - 1) xs)[s.E.length - 1]? = some xs := by
      rw [List.getElem?_set]; simp [hlE]
    refine ⟨{ s with E := s.E.set (s.E.length - 1) (xs.set j (v j)) }, ?_, xs.set j (v j), rfl, ?_⟩
    · dsimp only
      rw [get2_row _ _ _ _ hX, at1_eq xl j (by omega), at1_eq output j (by omega)]
      simp only [Option.some_bind, callF_eq _ _ _ _ hF, List.length_set]
      rw [set2_eq _ _ j xs _ hcur' (by omega)]
      simp [hv]
    · exact pointwise_step xs cur v j hxs (by omega)
  · rintro t ⟨xs, rfl, hpt⟩
    have := pointwise_done xs cur v (by rw [hcur]; exact hpt)
    rw [this, hcur]

/-- The loop over the neurons of hidden layer `l` in `Backward` (nn.go 137-145). -/
theorem Backward_hidErr (s : FFN α) (l P Q : Nat) (xl cur enext : List α) (df : α → α)
    (hl : 1 ≤ l) (hX : s.X[l]? = some xl) (hxl : xl.length = P)
    (hE : s.E[l - 1]? = some cur) (hcur : cur.length = P)
    (hEn : s.E[l]? = some enext) (hen : enext.length = Q)
    (hW : (s.W.map (List.map List.length))[l]? = some (List.replicate P Q))
    (hF : s.F[1]? = some (some df)) :
    forRange 0 P (fun neuron n =>
      (get2 n.W l neuron).bind fun row =>
      (forRange 0 row.length (fun nextNeuron e =>
        (get3 n.W l neuron nextNeuron).bind fun w =>
        (get2 n.E l nextNeuron).bind fun en =>
        some (e + w * en)) 0).bind fun e =>
      (get2 n.X l neuron).bind fun x =>
      (callF n.F 1 x).bind fun d =>
      (set2 n.E (l - 1) neuron (e * d)).bind fun E' =>
      some { n with E := E' }) s =
    some { s with E := s.E.set (l - 1) ((List.range P).map fun j =>
      (∑ m ∈ Finset.range Q, at3 s.W l j m * at1 enext m) * df (at1 xl j)) } := by
  set v : Nat → α := fun j =>
    (∑ m ∈ Finset.range Q, at3 s.W l j m * at1 enext m) * df (at1 xl j) with hv
  have hne : l - 1 ≠ l := by omega
  have hlE := lt_of_getElem? hE
  refine forRange_eq_of_inv _
    (fun j (t : FFN α) => ∃ xs : List α, t = { s with E := s.E.set (l - 1) xs } ∧
      ∀ i, xs[i]? = if i < j then some (v i) else cur[i]?) P s _
    ⟨cur, by rw [set_self_of_getElem? hE], by simp⟩ ?_ ?_
  · rintro j t hj ⟨xs, rfl, hxs⟩
    have hlen := length_of_pointwise xs cur v j hxs (by omega)
    have hcur' : (s.E.set (l - 1) xs)[l - 1]? = some xs := by
      rw [List.getElem?_set]; simp [hlE]
    have hEn' : (s.E.set (l - 1) xs)[l]? = some enext := by
      rw [List.getElem?_set_ne hne]; exact hEn
    obtain ⟨wl, hwl, hwsh⟩ : ∃ wl, s.W[l]? = some wl ∧ wl.map List.length = List.replicate P Q := by
      rw [List.getElem?_map] at hW
      cases h : s.W[l]? with
      | none => simp [h] at hW
      | some wl => exact ⟨wl, rfl, by simpa [h] using hW⟩
    obtain ⟨row, hrow, hrl⟩ : ∃ row, wl[j]? = some row ∧ row.length = Q := by
      have h1 : (wl.map List.length)[j]? = some Q := by
        rw [hwsh, List.getElem?_replicate, if_pos hj]
      rw [List.getElem?_map] at h1
      cases h : wl[j]? with
      | none => simp [h] at h1
      | some row => exact ⟨row, rfl, by simpa [h] using h1⟩
    have hsum : forRange 0 row.length (fun nextNeuron e =>
        (get3 s.W l j nextNeuron).bind fun w =>
        (get2 (s.E.set (l - 1) xs) l nextNeuron).bind fun en =>
        some (e + w * en)) 0 =
        some (∑ m ∈ Finset.range Q, at3 s.W l j m * at1 enext m) := by
      rw [hrl, forRange_sum _ (fun m => at3 s.W l j m * at1 enext m) Q 0, zero_add]
      intro k x hk
      have h3 := get3_eq_at3 s.W l j k Q (List.replicate P Q) hW
        (by simp [List.getElem?_replicate, hj]) hk
      rw [h3, get2_row _ _ _ _ hEn', at1_eq enext k (by omega)]
      rfl
    refine ⟨{ s with E := s.E.set (l - 1) (xs.set j (v j)) }, ?_, xs.set j (v j), rfl, ?_⟩
    · dsimp only
      have hg : get2 s.W l j = some row := by simp [get2, hwl, hrow]
      rw [hg]
      simp only [Option.some_bind, hsum]
      rw [get2_row _ _ _ _ hX, at1_eq xl j (by omega)]
      simp only [Option.some_bind, callF_eq _ _ _ _ hF]
      rw [set2_eq _ _ j xs _ hcur' (by omega)]
      simp [hv]
    · exact pointwise_step xs cur v j hxs (by omega)
  · rintro t ⟨xs, rfl, hpt⟩
    have := pointwise_done xs cur v (by rw [hcur]; exact hpt)
    rw [this, hcur]

/-- The loop over the neurons of bias layer `l` in `Backward` (nn.go 159-162). -/
theorem Backward_bias (s : FFN α) (l Q : Nat) (bl el : List α) (speed : α)
    (hB : s.B[l]? = some bl) (hbl : bl.length = Q)
    (hE : s.E[l]? = some el) (hel : el.length = Q) :
    forRange 0 Q (fun nextNeuron n =>
      (get2 n.E l nextNeuron).bind fun en =>
      let db := speed * en
      (get2 n.B l nextNeuron).bind fun b =>
      (set2 n.B l nextNeuron (b + db)).bind fun B' =>
      some { n with B := B' }) s =
    some { s with B := s.B.set l ((List.range Q).map fun j =>
      at1 bl j + speed * at1 el j) } := by
  set v : Nat → α := fun j => at1 bl j + speed * at1 el j with hv
  have hlB := lt_of_getElem? hB
  refine forRange_eq_of_inv _
    (fun j (t : FFN α) => ∃ xs : List α, t = { s with B := s.B.set l xs } ∧
      ∀ i, xs[i]? = if i < j then some (v i) else bl[i]?) Q s _
    ⟨bl, by rw [set_self_of_getElem? hB], by simp⟩ ?_ ?_
  · rintro j t hj ⟨xs, rfl, hxs⟩
    have hlen := length_of_pointwise xs bl v j hxs (by omega)
    have hcur' : (s.B.set l xs)[l]? = some xs := by
      rw [List.getElem?_set]; simp [hlB]
    have hxj : xs[j]? = some (at1 bl j) := by
      rw [hxs j, if_neg (lt_irrefl j)]; exact at1_eq bl j (by omega)
    refine ⟨{ s with B := s.B.set l (xs.set j (v j)) }, ?_, xs.set j (v j), rfl, ?_⟩
    · dsimp only
      rw [get2_row _ _ _ _ hE, at1_eq el j (by omega), get2_row _ _ _ _ hcur', hxj]
      simp only [Option.some_bind]
      rw [set2_eq _ _ j xs _ hcur' (by omega)]
      simp [hv]
    · exact pointwise_step xs bl v j hxs (by omega)
  · rintro t ⟨xs, rfl, hpt⟩
    have := pointwise_done xs bl v (by rw [hbl]; exact hpt)
    rw [this, hbl]

theorem set3_eq {β : Type} (a : List (List (List β))) (i j k : Nat) (m : List (List β))
    (r : List β) (v : β) (hm : a[i]? = some m) (hr : m[j]? = some r) (hk : k < r.length) :
    set3 a i j k v = some (a.set i (m.set j (r.set k v))) := by
  have hi : i < a.length := lt_of_getElem? hm
  simp [set3, hm, set2_eq m j k r v hr hk, set1, hi]

theorem get3_row {β : Type} (a : List (List (List β))) (i j k : Nat) (m : List (List β))
    (r : List β) (hm : a[i]? = some m) (hr : m[j]? = some r) : get3 a i j k = r[k]? := by
  simp [get3, hm, hr]

theorem getElem?_set_self_of {β : Type} (a : List β) (i : Nat) (r v : β) (h : a[i]? = some r) :
    (a.set i v)[i]? = some v := by
  rw [List.getElem?_set]; simp [lt_of_getElem? h]

/-- The loop over the destination neurons for one source neuron `j` of connection layer `l`
in `Backward` (nn.go 150-154). -/
theorem Backward_weightRow (s : FFN α) (l j Q : Nat) (wl dl : List (List α))
    (wrow drow xl el : List α) (speed moment : α)
    (hW : s.W[l]? = some wl) (hwr : wl[j]? = some wrow) (hwl : wrow.length = Q)
    (hD : s.DW[l]? = some dl) (hdr : dl[j]? = some drow) (hdl : drow.length = Q)
    (hX : s.X[l]? = some xl) (hj : j < xl.length)
    (hE : s.E[l]? = some el) (hel : el.length = Q) :
    forRange 0 Q (fun nextNeuron n =>
      (get2 n.X l j).bind fun x =>
      (get2 n.E l nextNeuron).bind fun en =>
      (get3 n.DW l j nextNeuron).bind fun d =>
      let dw := speed * x * en + moment * d
      (set3 n.DW l j nextNeuron dw).bind fun DW' =>
      (get3 n.W l j nextNeuron).bind fun w =>
      (set3 n.W l j nextNeuron (w + dw)).bind fun W' =>
      some { n with DW := DW', W := W' }) s =
    some { s with
      DW := s.DW.set l (dl.set j ((List.range Q).map fun k =>
        speed * at1 xl j * at1 el k + moment * at1 drow k)),
      W := s.W.set l (wl.set j ((List.range Q).map fun k =>
        at1 wrow k + (speed * at1 xl j * at1 el k + moment * at1 drow k))) } := by
  set vd : Nat → α := fun k => speed * at1 xl j * at1 el k + moment * at1 drow k with hvd
  set vw : Nat → α := fun k =>
    at1 wrow k + (speed * at1 xl j * at1 el k + moment * at1 drow k) with hvw
  refine forRange_eq_of_inv _
    (fun k (t : FFN α) => ∃ ds ws : List α,
      t = { s with DW := s.DW.set l (dl.set j ds), W := s.W.set l (wl.set j ws) } ∧
      (∀ i, ds[i]? = if i < k then some (vd i) else drow[i]?) ∧
      (∀ i, ws[i]? = if i < k then some (vw i) else wrow[i]?)) Q s _
    ⟨drow, wrow, by
      rw [set_self_of_getElem? hdr, set_self_of_getElem? hwr, set_self_of_getElem? hD,
        set_self_of_getElem? hW], by simp, by simp⟩ ?_ ?_
  · rintro k t hk ⟨ds, ws, rfl, hds, hws⟩
    have hlend := length_of_pointwise ds drow vd k hds (by omega)
    have hlenw := length_of_pointwise ws wrow vw k hws (by omega)
    have hD' := getElem?_set_self_of s.DW l dl (dl.set j ds) hD
    have hW' := getElem?_set_self_of s.W l wl (wl.set j ws) hW
    have hdr' := getElem?_set_self_of dl j drow ds hdr
    have hwr' := getElem?_set_self_of wl j wrow ws hwr
    have hdk : ds[k]? = some (at1 drow k) := by
      rw [hds k, if_neg (lt_irrefl k)]; exact at1_eq drow k (by omega)
    have hwk : ws[k]? = some (at1 wrow k) := by
      rw [hws k, if_neg (lt_irrefl k)]; exact at1_eq wrow k (by omega)
    refine ⟨{ s with
        DW := s.DW.set l (dl.set j (ds.set k (vd k)))
        W := s.W.set l (wl.set j (ws.set k (vw k))) }, ?_, ds.set k (vd k), ws.set k (vw k),
      rfl, pointwise_step ds drow vd k hds (by omega),
      pointwise_step ws wrow vw k hws (by omega)⟩
    dsimp only
    rw [get2_row _ _ _ _ hX, at1_eq xl j hj, get2_row _ _ _ _ hE, at1_eq el k (by omega),
      get3_row _ _ _ _ _ _ hD' hdr', hdk]
    simp only [Option.some_bind]
    rw [set3_eq _ _ _ _ _ _ _ hD' hdr' (by omega), get3_row _ _ _ _ _ _ hW' hwr', hwk]
    simp only [Option.some_bind]
    rw [set3_eq _ _ _ _ _ _ _ hW' hwr' (by omega)]
    simp [hvd, hvw, List.set_set]
  · rintro t ⟨ds, ws, rfl, hds, hws⟩
    have e1 := pointwise_done ds drow vd (by rw [hdl]; exact hds)
    have e2 := pointwise_done ws wrow vw (by rw [hwl]; exact hws)
    rw [e1, e2, hdl, hwl]

theorem row_of_shape {β : Type} (m : List (List β)) (P Q j : Nat)
    (h : m.map List.length = List.replicate P Q) (hj : j < P) :
    ∃ row, m[j]? = some row ∧ row.length = Q := by
  have h1 : (m.map List.length)[j]? = some Q := by
    rw [h, List.getElem?_replicate, if_pos hj]
  rw [List.getElem?_map] at h1
  cases hr : m[j]? with
  | none => simp [hr] at h1
  | some row => exact ⟨row, rfl, by simpa [hr] using h1⟩

theorem at2_row {β : Type} [Zero β] (a : List (List β)) (i j : Nat) (r : List β)
    (h : a[i]? = some r) : at2 a i j = at1 r j := by
  simp [at2, at1, get2, h]

/-- The loop over the source neurons of connection layer `l` in `Backward`
(nn.go 149-155). -/
theorem Backward_weightLayer (s : FFN α) (l P Q : Nat) (wl dl : List (List α))
    (xl el : List α) (speed moment : α)
    (hW : s.W[l]? = some wl) (hwsh : wl.map List.length = List.replicate P Q)
    (hD : s.DW[l]? = some dl) (hdsh : dl.map List.length = List.replicate P Q)
    (hX : s.X[l]? = some xl) (hxl : xl.length = P)
    (hE : s.E[l]? = some el) (hel : el.length = Q) :
    forRange 0 P (fun neuron n =>
      (get2 n.W l neuron).bind fun row =>
      forRange 0 row.length (fun nextNeuron n =>
        (get2 n.X l neuron).bind fun x =>
        (get2 n.E l nextNeuron).bind fun en =>
        (get3 n.DW l neuron nextNeuron).bind fun d =>
        let dw := speed * x * en + moment * d
        (set3 n.DW l neuron nextNeuron dw).bind fun DW' =>
        (get3 n.W l neuron nextNeuron).bind fun w =>
        (set3 n.W l neuron nextNeuron (w + dw)).bind fun W' =>
        some { n with DW := DW', W := W' }) n) s =
    some { s with
      DW := s.DW.set l ((List.range P).map fun j => (List.range Q).map fun k =>
        speed * at1 xl j * at1 el k + moment * at2 dl j k)
      W := s.W.set l ((List.range P).map fun j => (List.range Q).map fun k =>
        at2 wl j k + (speed * at1 xl j * at1 el k + moment * at2 dl j k)) } := by
  set vd : Nat → List α := fun j => (List.range Q).map fun k =>
    speed * at1 xl j * at1 el k + moment * at2 dl j k with hvd
  set vw : Nat → List α := fun j => (List.range Q).map fun k =>
    at2 wl j k + (speed * at1 xl j * at1 el k + moment * at2 dl j k) with hvw
  have hPw : wl.length = P := by
    have := congrArg List.length hwsh; simpa using this
  have hPd : dl.length = P := by
    have := congrArg List.length hdsh; simpa using this
  refine forRange_eq_of_inv _
    (fun j (t : FFN α) => ∃ ds ws : List (List α),
      t = { s with DW := s.DW.set l ds, W := s.W.set l ws } ∧
      (∀ i, ds[i]? = if i < j then some (vd i) else dl[i]?) ∧
      (∀ i, ws[i]? = if i < j then some (vw i) else wl[i]?)) P s _
    ⟨dl, wl, by rw [set_self_of_getElem? hD, set_self_of_getElem? hW], by simp, by simp⟩ ?_ ?_
  · rintro j t hj ⟨ds, ws, rfl, hds, hws⟩
    obtain ⟨wrow, hwrow, hwl⟩ := row_of_shape wl P Q j hwsh hj
    obtain ⟨drow, hdrow, hdl⟩ := row_of_shape dl P Q j hdsh hj
    have hD' := getElem?_set_self_of s.DW l dl ds hD
    have hW' := getElem?_set_self_of s.W l wl ws hW
    have hdj : ds[j]? = some drow := by rw [hds j, if_neg (lt_irrefl j)]; exact hdrow
    have hwj : ws[j]? = some wrow := by rw [hws j, if_neg (lt_irrefl j)]; exact hwrow
    have key := Backward_weightRow { s with DW := s.DW.set l ds, W := s.W.set l ws } l j Q ws ds
      wrow drow xl el speed moment hW' hwj hwl hD' hdj hdl hX (by omega) hE hel
    refine ⟨{ s with
        DW := s.DW.set l (ds.set j (vd j))
        W := s.W.set l (ws.set j (vw j)) }, ?_, ds.set j (vd j), ws.set j (vw j),
      rfl, pointwise_step ds dl vd j hds (by omega),
      pointwise_step ws wl vw j hws (by omega)⟩
    dsimp only at key ⊢
    have hg : get2 (s.W.set l ws) l j = some wrow := by simp [get2, hW', hwj]
    rw [hg]
    simp only [Option.some_bind, hwl]
    rw [key]
    simp only [List.set_set, hvd, hvw, at2_row dl j _ drow hdrow, at2_row wl j _ wrow hwrow]
  · rintro t ⟨ds, ws, rfl, hds, hws⟩
    have e1 := pointwise_done ds dl vd (by rw [hPd]; exact hds)
    have e2 := pointwise_done ws wl vw (by rw [hPw]; exact hws)
    rw [e1, e2, hPd, hPw]

theorem map_eq_pair {β γ : Type} (g : β → γ) (a : List β) (p q : γ) (h : a.map g = [p, q]) :
    ∃ x y, a = [x, y] ∧ g x = p ∧ g y = q := by
  match a, h with
  | [x, y], h => simp at h; exact ⟨x, y, rfl, h.1, h.2⟩

theorem map_range_congr {β : Type} (g h : Nat → β) (m : Nat)
    (hh : ∀ i, i < m → g i = h i) : (List.range m).map g = (List.range m).map h := by
  apply List.map_congr_left
  intro i hi
  exact hh i (List.mem_range.mp hi)

theorem forDown_one {σ : Type} (body : Nat → σ → Option σ) (s : σ) :
    forDown body 1 s = body 1 s := by
  simp [forDown]

theorem Backward_eq (n : FFN α) (I H O : Nat) (df : α → α) (output : List α) (speed moment : α)
    (hs : Shaped n I H O) (hF : n.F[1]? = some (some df)) (hout : output.length = O) :
    Backward n output speed moment = some (backwardState n df output speed moment) := by
  obtain ⟨hI, hH, hO, hX, hE, hB, hW, hDW⟩ := hs
  obtain ⟨x0, x1, x2, hXe, h0, h1, h2⟩ := shape3 n.X I H O hX
  obtain ⟨e0, e1, hEe, he0, he1⟩ := shape2 n.E H O hE
  obtain ⟨b0, b1, hBe, hb0, hb1⟩ := shape2 n.B H O hB
  obtain ⟨w0, w1, hWe, hw0, hw1⟩ := map_eq_pair _ n.W _ _ hW
  obtain ⟨d0, d1, hDe, hd0, hd1⟩ := map_eq_pair _ n.DW _ _ hDW
  have f1 : ∀ j, errOf n df output 1 j = (at1 output j - at1 x2 j) * df (at1 x2 j) := by
    intro j; simp [errOf, errOut, hXe, at2, get2, at1]
  have f0 : ∀ j, errOf n df output 0 j =
      (∑ m ∈ Finset.range O, at3 n.W 1 j m * errOf n df output 1 m) * df (at1 x1 j) := by
    intro j; simp [errOf, errHid, hO, hXe, at2, get2, at1]
  have fd0 : ∀ j k, deltaOf n df output speed moment 0 j k =
      speed * at1 x0 j * errOf n df output 0 k + moment * at2 d0 j k := by
    intro j k; simp [deltaOf, hXe, hDe, at3, get3, at2, get2, at1]
  have fd1 : ∀ j k, deltaOf n df output speed moment 1 j k =
      speed * at1 x1 j * errOf n df output 1 k + moment * at2 d1 j k := by
    intro j k; simp [deltaOf, hXe, hDe, at3, get3, at2, get2, at1]
  have fw0 : ∀ j k, at3 n.W 0 j k = at2 w0 j k := by
    intro j k; simp [hWe, at3, get3, at2, get2]
  have fw1 : ∀ j k, at3 n.W 1 j k = at2 w1 j k := by
    intro j k; simp [hWe, at3, get3, at2, get2]
  have fb0 : ∀ j, at2 n.B 0 j = at1 b0 j := by
    intro j; simp [hBe, at2, get2, at1]
  have fb1 : ∀ j, at2 n.B 1 j = at1 b1 j := by
    intro j; simp [hBe, at2, get2, at1]
  obtain ⟨iN, hN, oN, X, E, B, W, DW, F⟩ := n
  dsimp only at hI hH hO hXe hEe hBe hWe hDe hF f1 f0 fd0 fd1 fw0 fw1 fb0 fb1
  subst hXe hEe hBe hWe hDe hI hH hO
  unfold Backward
  dsimp only
  -- output error signals
  have p1 := Backward_outErr
    { InputNeurons := I, HiddenNeurons := H, OutputNeurons := O, X := [x0, x1, x2],
      E := [e0, e1], B := [b0, b1], W := [w0, w1], DW := [d0, d1], F := F }
    O x2 e1 output df rfl rfl h2 he1 hout hF
  dsimp only at p1
  simp only [List.length_cons, List.length_nil, Nat.reduceAdd, Nat.reduceSub,
    List.getElem?_cons_succ, List.getElem?_cons_zero, Option.some_bind, h2] at p1 ⊢
  rw [p1]
  simp only [Option.some_bind, List.set_cons_succ, List.set_cons_zero, forDown_one,
    List.length_cons, List.length_nil, Nat.reduceAdd, Nat.reduceSub,
    List.getElem?_cons_succ, List.getElem?_cons_zero, h1]
  -- hidden error signals
  set E1 : List α := (List.range O).map fun j => (at1 output j - at1 x2 j) * df (at1 x2 j)
    with hE1
  have hE1l : E1.length = O := by simp [hE1]
  have p2 := Backward_hidErr
    { InputNeurons := I, HiddenNeurons := H, OutputNeurons := O, X := [x0, x1, x2],
      E := [e0, E1], B := [b0, b1], W := [w0, w1], DW := [d0, d1], F := F }
    1 H O x1 e0 E1 df (le_refl 1) rfl h1 rfl he0 rfl hE1l (by simp [hw1]) hF
  dsimp only at p2
  simp only [Nat.reduceSub] at p2
  rw [p2]
  simp only [Option.some_bind, List.set_cons_zero, List.length_cons, List.length_nil,
    Nat.reduceAdd]
  set E0 : List α := (List.range H).map fun j =>
    (∑ m ∈ Finset.range O, at3 [w0, w1] 1 j m * at1 E1 m) * df (at1 x1 j) with hE0
  have hE0l : E0.length = H := by simp [hE0]
  -- weights
  have hw0l : w0.length = I := by have := congrArg List.length hw0; simpa using this
  have hw1l : w1.length = H := by have := congrArg List.length hw1; simpa using this
  rw [forRange_step 0 _ _ _ (by omega)]
  have p3 := Backward_weightLayer
    { InputNeurons := I, HiddenNeurons := H, OutputNeurons := O, X := [x0, x1, x2],
      E := [E0, E1], B := [b0, b1], W := [w0, w1], DW := [d0, d1], F := F }
    0 I H w0 d0 x0 E0 speed moment rfl hw0 rfl hd0 rfl h0 rfl hE0l
  dsimp only at p3
  simp only [List.getElem?_cons_zero, Option.some_bind, hw0l]
  rw [p3]
  simp only [Option.some_bind, List.set_cons_zero, Nat.reduceAdd]
  rw [forRange_step 1 _ _ _ (by omega)]
  set D0 : List (List α) := (List.range I).map fun j => (List.range H).map fun k =>
    speed * at1 x0 j * at1 E0 k + moment * at2 d0 j k with hD0
  set W0 : List (List α) := (List.range I).map fun j => (List.range H).map fun k =>
    at2 w0 j k + (speed * at1 x0 j * at1 E0 k + moment * at2 d0 j k) with hW0
  have p4 := Backward_weightLayer
    { InputNeurons := I, HiddenNeurons := H, OutputNeurons := O, X := [x0, x1, x2],
      E := [E0, E1], B := [b0, b1], W := [W0, w1], DW := [D0, d1], F := F }
    1 H O w1 d1 x1 E1 speed moment rfl hw1 rfl hd1 rfl h1 rfl hE1l
  dsimp only at p4
  simp only [List.getElem?_cons_zero, List.getElem?_cons_succ, Option.some_bind, hw1l]
  rw [p4]
  simp only [Option.some_bind, List.set_cons_zero, List.set_cons_succ, Nat.reduceAdd]
  rw [forRange_done _ _ _ _ (by omega)]
  simp only [Option.some_bind, List.length_cons, List.length_nil, Nat.reduceAdd]
  -- biases
  rw [forRange_step 0 _ _ _ (by omega)]
  set D1 : List (List α) := (List.range H).map fun j => (List.range O).map fun k =>
    speed * at1 x1 j * at1 E1 k + moment * at2 d1 j k with hD1
  set W1 : List (List α) := (List.range H).map fun j => (List.range O).map fun k =>
    at2 w1 j k + (speed * at1 x1 j * at1 E1 k + moment * at2 d1 j k) with hW1
  have p5 := Backward_bias
    { InputNeurons := I, HiddenNeurons := H, OutputNeurons := O, X := [x0, x1, x2],
      E := [E0, E1], B := [b0, b1], W := [W0, W1], DW := [D0, D1], F := F }
    0 H b0 E0 speed rfl hb0 rfl hE0l
  dsimp only at p5
  simp only [List.getElem?_cons_zero, Option.some_bind, hb0]
  rw [p5]
  simp only [Option.some_bind, List.set_cons_zero, Nat.reduceAdd]
  rw [forRange_step 1 _ _ _ (by omega)]
  have p6 := Backward_bias
    { InputNeurons := I, HiddenNeurons := H, OutputNeurons := O, X := [x0, x1, x2],
      E := [E0, E1], B := [(List.range H).map fun j => at1 b0 j + speed * at1 E0 j, b1],
      W := [W0, W1], DW := [D0, D1], F := F }
    1 O b1 E1 speed rfl hb1 rfl hE1l
  dsimp only at p6
  simp only [List.getElem?_cons_zero, List.getElem?_cons_succ, Option.some_bind, hb1]
  rw [p6]
  simp only [Option.some_bind, List.set_cons_zero, List.set_cons_succ, Nat.reduceAdd]
  rw [forRange_done _ _ _ _ (by omega)]
  have hE1at : ∀ m, m < O → at1 E1 m = errOf
      { InputNeurons := I, HiddenNeurons := H, OutputNeurons := O, X := [x0, x1, x2],
        E := [e0, e1], B := [b0, b1], W := [w0, w1], DW := [d0, d1], F := F } df output 1 m :=
    fun m hm => by rw [hE1, at1_map_range _ _ _ hm, f1]
  have hE0at : ∀ m, m < H → at1 E0 m = errOf
      { InputNeurons := I, HiddenNeurons := H, OutputNeurons := O, X := [x0, x1, x2],
        E := [e0, e1], B := [b0, b1], W := [w0, w1], DW := [d0, d1], F := F } df output 0 m := by
    intro m hm
    rw [hE0, at1_map_range _ _ _ hm, f0]
    congr 1
    apply Finset.sum_congr rfl
    intro k hk
    rw [hE1at k (Finset.mem_range.mp hk)]
  simp only [backwardState, Int.toNat_ofNat, Option.some.injEq, FFN.mk.injEq, true_and,
    List.cons.injEq, and_true, table]
  refine ⟨⟨?_, ?_⟩, ⟨?_, ?_⟩, ⟨?_, ?_⟩, ?_, ?_⟩
  · rw [hE0]
    apply map_range_congr
    intro i hi
    have := hE0at i hi
    rw [hE0, at1_map_range _ _ _ hi] at this
    exact this
  · rw [hE1]
    apply map_range_congr
    intro i hi
    have := hE1at i hi
    rw [hE1, at1_map_range _ _ _ hi] at this
    exact this
  · exact map_range_congr _ _ H fun j hj => by rw [fb0, hE0at j hj]
  · exact map_range_congr _ _ O fun j hj => by rw [fb1, hE1at j hj]
  · exact map_range_congr _ _ I fun j _ => map_range_congr _ _ H fun k hk => by
      rw [fw0, fd0, hE0at k hk]
  · exact map_range_congr _ _ H fun j _ => map_range_congr _ _ O fun k hk => by
      rw [fw1, fd1, hE1at k hk]
  · exact map_range_congr _ _ I fun j _ => map_range_congr _ _ H fun k hk => by
      rw [fd0, hE0at k hk]
  · exact map_range_congr _ _ H fun j _ => map_range_congr _ _ O fun k hk => by
      rw [fd1, hE1at k hk]

theorem forwardState_twice (n : FFN α) (f : α → α) (a b : List α) :
    forwardState (forwardState n f a) f b = forwardState n f b := rfl

theorem forwardState_shaped (n : FFN α) (I H O : Nat) (f : α → α) (input : List α)
    (hs : Shaped n I H O) (hin : input.length = I) : Shaped (forwardState n f input) I H O := by
  obtain ⟨hI, hH, hO, hX, hE, hB, hW, hDW⟩ := hs
  refine ⟨hI, hH, hO, ?_, hE, hB, hW, hDW⟩
  simp [forwardState, hin, hH, hO]

theorem table_shape {β : Type} (P Q : Nat) (g : Nat → Nat → β) :
    (table P Q g).map List.length = List.replicate P Q := by
  apply List.ext_getElem?
  intro i
  simp only [table, List.map_map, List.getElem?_map, List.getElem?_replicate]
  by_cases hi : i < P
  · simp [hi, List.getElem?_range hi]
  · simp [hi, List.getElem?_eq_none (show (List.range P).length ≤ i by simp; omega)]

theorem backwardState_shaped (n : FFN α) (I H O : Nat) (df : α → α) (output : List α)
    (speed moment : α) (hs : Shaped n I H O) :
    Shaped (backwardState n df output speed moment) I H O := by
  obtain ⟨hI, hH, hO, hX, hE, hB, hW, hDW⟩ := hs
  refine ⟨hI, hH, hO, hX, ?_, ?_, ?_, ?_⟩ <;>
    simp [backwardState, hI, hH, hO, table_shape]

theorem rateState_shaped (n : FFN α) (I H O : Nat) (f : α → α) (inputs outputs : List (List α))
    (hs : Shaped n I H O) (hin : ∀ s, s < outputs.length → (rowAt inputs s).length = I) :
    Shaped (rateState n f inputs outputs) I H O := by
  unfold rateState
  split_ifs with h
  · exact hs
  · exact forwardState_shaped n I H O f _ hs (hin _ (by omega))

theorem rowAt_eq {β : Type} (a : List (List β)) (i : Nat) (h : i < a.length) :
    a[i]? = some (rowAt a i) := by
  simp [rowAt, List.getElem?_eq_getElem h]

/-- The method `Rate` in closed form, for a well-formed network and a dataset of vectors of the right
lengths. -/
theorem Rate_eq (n : FFN α) (I H O : Nat) (f : α → α) (inputs outputs : List (List α))
    (hs : Shaped n I H O) (hF : n.F[0]? = some (some f))
    (hlen : outputs.length ≤ inputs.length)
    (hin : ∀ s, s < outputs.length → (rowAt inputs s).length = I)
    (hout : ∀ s, s < outputs.length → (rowAt outputs s).length = O) :
    Rate n inputs outputs =
      some (rateOf n f inputs outputs, rateState n f inputs outputs) := by
  have hO := hs.2.2.1
  have hH := hs.2.1
  unfold Rate
  have key : forRange 0 outputs.length (fun set (st : α × FFN α) =>
      (inputs[set]?).bind fun inp =>
      (Forward st.2 inp).bind fun n =>
      (n.X[n.X.length - 1]?).bind fun xlast =>
      (forRange 0 xlast.length (fun neuron e =>
        (get2 n.X (n.X.length - 1) neuron).bind fun x =>
        (get2 outputs set neuron).bind fun o =>
        some (e + (x - o) ^ 2)) 0).bind fun e =>
      some (st.1 + e, n)) (0, n) =
      some (∑ s ∈ Finset.range outputs.length, sqErr n f inputs outputs s,
        rateState n f inputs outputs) := by
    refine forRange_eq_of_inv _
      (fun s (st : α × FFN α) => st.1 = ∑ s' ∈ Finset.range s, sqErr n f inputs outputs s' ∧
        st.2 = if s = 0 then n else forwardState n f (rowAt inputs (s - 1)))
      outputs.length (0, n) _ ⟨by simp, by simp⟩ ?_ ?_
    · rintro s ⟨r, m⟩ hsl ⟨hr, hm⟩
      dsimp only at hr hm ⊢
      have hms : Shaped m I H O := by
        rw [hm]; split_ifs with h0
        · exact hs
        · exact forwardState_shaped n I H O f _ hs (hin _ (by omega))
      have hmF : m.F[0]? = some (some f) := by
        rw [hm]; split_ifs <;> exact hF
      have hfs : forwardState m f (rowAt inputs s) = forwardState n f (rowAt inputs s) := by
        rw [hm]; split_ifs <;> rfl
      rw [rowAt_eq inputs s (by omega)]
      simp only [Option.some_bind]
      rw [Forward_eq m I H O f _ hms hmF (hin s hsl), hfs]
      simp only [Option.some_bind]
      have hX : (forwardState n f (rowAt inputs s)).X =
          [rowAt inputs s, (List.range H).map (hiddenOf n f (rowAt inputs s)),
            (List.range O).map (outputOf n f (rowAt inputs s))] := by
        simp [forwardState, hH, hO]
      simp only [hX, List.length_cons, List.length_nil, Nat.reduceAdd, Nat.reduceSub,
        List.getElem?_cons_succ, List.getElem?_cons_zero, Option.some_bind, List.length_map,
        List.length_range]
      rw [forRange_sum _ (fun j => (outputOf n f (rowAt inputs s) j - at2 outputs s j) ^ 2) O 0]
      · refine ⟨_, rfl, ?_, ?_⟩
        · dsimp only
          rw [hr, Finset.sum_range_succ, zero_add]
          simp [sqErr, hO]
        · simp
      · intro k x hk
        have h2 : get2 outputs s k = some (at2 outputs s k) :=
          get2_eq_at2 outputs s k O (by
            rw [List.getElem?_map, rowAt_eq outputs s hsl]; simp [hout s hsl]) hk
        have h3 : get2 [rowAt inputs s, (List.range H).map (hiddenOf n f (rowAt inputs s)),
            (List.range O).map (outputOf n f (rowAt inputs s))] 2 k =
            some (outputOf n f (rowAt inputs s) k) := by
          simp [get2, List.getElem?_range hk]
        rw [h2, h3]
        rfl
    · rintro ⟨r, m⟩ ⟨hr, hm⟩
      dsimp only at hr hm
      rw [hr, hm]
      rfl
  rw [key]
  rfl

/-! ## Claims C9, C10, C7: validation and the empty dataset -/

/-- Claim C9: whenever the datasets differ in length, or `speed <= 0`, or `moment < 0`, or
`rate < 0`, or `epoch <= 0`, `Train` returns an error together with rate `0` and epoch `0`,
and the network is exactly what it was before the call (no logging call is made either). -/
theorem Train_rejects_before_mutating (fuel : Nat) (n : FFN α) (inputs outputs : List (List α))
    (speed moment rate : α) (epoch : Int) (log : Bool)
    (h : inputs.length ≠ outputs.length ∨ speed ≤ 0 ∨ moment < 0 ∨ rate < 0 ∨ epoch ≤ 0) :
    ∃ err, Train fuel n inputs outputs speed moment rate epoch log =
      Outcome.returned 0 0 (some err) n [] := by
  unfold Train
  split_ifs with h1 h2 h3 h4 h5
  · exact ⟨_, rfl⟩
  · exact ⟨_, rfl⟩
  · exact ⟨_, rfl⟩
  · exact ⟨_, rfl⟩
  · exact ⟨_, rfl⟩
  · rcases h with h | h | h | h | h <;> contradiction

theorem Train_rejects_before_mutating_witness :
    (([[0]] : List (List ℚ)).length ≠ ([] : List (List ℚ)).length ∨ (0 : ℚ) ≤ 0 ∨ (0 : ℚ) < 0 ∨
      (0 : ℚ) < 0 ∨ (0 : Int) ≤ 0) ∧
    ∃ err, Train 5 net111 [[0]] [] 0 0 0 0 false = Outcome.returned 0 0 (some err) net111 [] :=
  ⟨Or.inl (by decide), Train_rejects_before_mutating 5 net111 [[0]] [] 0 0 0 0 false
    (Or.inl (by decide))⟩

/-- Claim C10, counterexample: with datasets of lengths 1 and 0 and `speed = 0` as the only
numeric parameter out of range, `Train` returns the dataset error, not the speed error. -/
theorem Train_speed_error_masked_by_dataset :
    (0 : ℚ) ≤ 0 ∧ ¬ ((0 : ℚ) < 0) ∧ ¬ ((1 : Int) ≤ 0) ∧
    Train 5 net111 [[0]] [] 0 0 0 1 false =
      Outcome.returned 0 0 (some TrainError.InvalidDataset) net111 [] ∧
    TrainError.InvalidDataset ≠ TrainError.InvalidSpeed := by
  refine ⟨le_refl _, lt_irrefl _, by decide, ?_, by decide⟩
  simp [Train]

/-- Claim C10, amended: when the dataset lengths differ `Train` fails with `InvalidDataset`
whatever the numeric parameters are; when the lengths are equal and exactly one of the four
numeric parameters is out of range, the error is that parameter's own kind, whatever the
datasets contain. -/
theorem Train_error_kind (fuel : Nat) (n : FFN α) (inputs outputs : List (List α))
    (speed moment rate : α) (epoch : Int) (log : Bool) :
    (inputs.length ≠ outputs.length →
      Train fuel n inputs outputs speed moment rate epoch log =
        Outcome.returned 0 0 (some TrainError.InvalidDataset) n []) ∧
    (inputs.length = outputs.length → speed ≤ 0 → 0 ≤ moment → 0 ≤ rate → 0 < epoch →
      Train fuel n inputs outputs speed moment rate epoch log =
        Outcome.returned 0 0 (some TrainError.InvalidSpeed) n []) ∧
    (inputs.length = outputs.length → 0 < speed → moment < 0 → 0 ≤ rate → 0 < epoch →
      Train fuel n inputs outputs speed moment rate epoch log =
        Outcome.returned 0 0 (some TrainError.InvalidMoment) n []) ∧
    (inputs.length = outputs.length → 0 < speed → 0 ≤ moment → rate < 0 → 0 < epoch →
      Train fuel n inputs outputs speed moment rate epoch log =
        Outcome.returned 0 0 (some TrainError.InvalidRate) n []) ∧
    (inputs.length = outputs.length → 0 < speed → 0 ≤ moment → 0 ≤ rate → epoch ≤ 0 →
      Train fuel n inputs outputs speed moment rate epoch log =
        Outcome.returned 0 0 (some TrainError.InvalidEpochBudget) n []) := by
  unfold Train
  refine ⟨?_, ?_, ?_, ?_, ?_⟩
  · intro h; simp [h]
  · intro h h1 _ _ _; simp [h, h1]
  · intro h h1 h2 _ _; simp [h, not_le.mpr h1, h2]
  · intro h h1 h2 h3 _; simp [h, not_le.mpr h1, not_lt.mpr h2, h3]
  · intro h h1 h2 h3 h4; simp [h, not_le.mpr h1, not_lt.mpr h2, not_lt.mpr h3, h4]

theorem Train_error_kind_witness :
    Train 5 net111 [[0]] [] 0 0 0 1 false =
      Outcome.returned 0 0 (some TrainError.InvalidDataset) net111 [] ∧
    Train 5 net111 [[0]] [[1]] 0 0 0 1 false =
      Outcome.returned 0 0 (some TrainError.InvalidSpeed) net111 [] ∧
    Train 5 net111 [[0]] [[1]] 1 (-1) 0 1 false =
      Outcome.returned 0 0 (some TrainError.InvalidMoment) net111 [] ∧
    Train 5 net111 [[0]] [[1]] 1 0 (-1) 1 false =
      Outcome.returned 0 0 (some TrainError.InvalidRate) net111 [] ∧
    Train 5 net111 [[0]] [[1]] 1 0 0 0 false =
      Outcome.returned 0 0 (some TrainError.InvalidEpochBudget) net111 [] :=
  ⟨(Train_error_kind 5 net111 [[0]] [] 0 0 0 1 false).1 (by decide),
   (Train_error_kind 5 net111 [[0]] [[1]] 0 0 0 1 false).2.1 rfl (le_refl _) (le_refl _)
     (le_refl _) (by decide),
   (Train_error_kind 5 net111 [[0]] [[1]] 1 (-1) 0 1 false).2.2.1 rfl (by norm_num)
     (by norm_num) (le_refl _) (by decide),
   (Train_error_kind 5 net111 [[0]] [[1]] 1 0 (-1) 1 false).2.2.2.1 rfl (by norm_num)
     (le_refl _) (by norm_num) (by decide),
   (Train_error_kind 5 net111 [[0]] [[1]] 1 0 0 0 false).2.2.2.2 rfl (by norm_num)
     (le_refl _) (le_refl _) (by decide)⟩

theorem TrainEpochs_empty (speed moment rate : α) (epoch : Int) (log : Bool) :
    ∀ (fuel : Nat) (ce : Int) (n : FFN α) (cr : α) (tr : List (Int × α)),
      TrainEpochs [] [] speed moment rate epoch log fuel ce n cr tr = Outcome.running := by
  intro fuel
  induction fuel with
  | zero => intro ce n cr tr; rfl
  | succ k ih =>
    intro ce n cr tr
    simp only [TrainEpochs, List.length_nil, TrainSets]
    exact ih _ _ _ _

/-- Claim C7, at the failing input: with empty input and output datasets and valid
parameters (`speed = 1/5`, `moment = 0`, `rate = 0`, `epoch = 1`) `Train` is still running
after any number of epochs: the two `return` statements are inside the loop over the samples,
which has no iteration. -/
theorem Train_empty_dataset_never_returns (fuel : Nat) :
    Train fuel net111 [] [] (1 / 5) 0 0 1 false = Outcome.running := by
  have h1 : ¬ ((1 / 5 : ℚ) ≤ 0) := by norm_num
  simp only [Train, List.length_nil, ne_eq, not_true_eq_false, if_false, h1, lt_irrefl]
  simp only [show ¬ ((1 : Int) ≤ 0) by decide, if_false]
  exact TrainEpochs_empty _ _ _ _ _ _ _ _ _ _

theorem wrapInt_id (x : Int) (h0 : 0 ≤ x) (h1 : x ≤ maxInt) : wrapInt x = x := by
  unfold wrapInt
  unfold maxInt at h1
  omega

theorem wrapInt_le (x : Int) : wrapInt x ≤ maxInt := by
  unfold wrapInt maxInt
  omega

theorem afterUpdates_succ (n : FFN α) (inputs outputs : List (List α)) (speed moment : α)
    (k : Nat) (cr : α) (m : FFN α)
    (h : afterUpdates n inputs outputs speed moment k = some (cr, m)) :
    afterUpdates n inputs outputs speed moment (k + 1) =
      sampleUpdate m inputs outputs speed moment (k % inputs.length) := by
  simp [afterUpdates, h]

theorem TrainSets_next (n0 : FFN α) (inputs outputs : List (List α)) (speed moment rate : α)
    (epoch ce : Int) (base : Nat) (hbase : base % inputs.length = 0) (hce : ¬ ce > epoch) :
    ∀ (k set : Nat) (m : FFN α) (cr : α), set + k = inputs.length →
      afterUpdates n0 inputs outputs speed moment (base + set) = some (cr, m) →
      (∀ i, set ≤ i → i < inputs.length → ∃ r m',
        afterUpdates n0 inputs outputs speed moment (base + i + 1) = some (r, m') ∧ rate < r) →
      ∃ r m', afterUpdates n0 inputs outputs speed moment (base + inputs.length) = some (r, m') ∧
        TrainSets inputs outputs speed moment rate epoch ce set k m cr = Step.next m' r := by
  intro k
  induction k with
  | zero =>
    intro set m cr hset hm _
    have : set = inputs.length := by omega
    subst this
    exact ⟨cr, m, hm, rfl⟩
  | succ k ih =>
    intro set m cr hset hm hstay
    have hlt : set < inputs.length := by omega
    obtain ⟨r, m', hr, hrate⟩ := hstay set (le_refl _) hlt
    have hmod : (base + set) % inputs.length = set := by
      rw [Nat.add_mod, hbase, zero_add, Nat.mod_mod, Nat.mod_eq_of_lt hlt]
    have hsu := afterUpdates_succ n0 inputs outputs speed moment (base + set) cr m hm
    rw [hmod, hr] at hsu
    obtain ⟨r2, m2, h2, ht⟩ := ih (set + 1) m' r (by omega) (by rw [← add_assoc]; exact hr)
      (fun i hi hiN => hstay i (by omega) hiN)
    refine ⟨r2, m2, h2, ?_⟩
    simp only [TrainSets, ← hsu, not_le.mpr hrate, if_false, hce]
    exact ht

theorem TrainSets_budget (inputs outputs : List (List α)) (speed moment rate : α)
    (epoch ce : Int) (hce : ce > epoch) (k : Nat) (m m' : FFN α) (cr r : α)
    (hsu : sampleUpdate m inputs outputs speed moment 0 = some (r, m')) (hrate : rate < r) :
    TrainSets inputs outputs speed moment rate epoch ce 0 (k + 1) m cr =
      Step.stop r ce (some TrainError.EpochBudgetExceeded) m' := by
  simp only [TrainSets, hsu, not_le.mpr hrate, if_false, hce, if_true]

theorem TrainEpochs_budget (n0 : FFN α) (inputs outputs : List (List α))
    (speed moment rate : α) (epoch : Int) (log : Bool) (E : Nat) (hE : epoch = E)
    (hmax : epoch < maxInt) (hne : 0 < inputs.length)
    (hstay : ∀ k, k ≤ (E + 1) * inputs.length → ∃ r m,
      afterUpdates n0 inputs outputs speed moment (k + 1) = some (r, m) ∧ rate < r) :
    ∀ (d c fuel : Nat) (m : FFN α) (cr : α) (tr : List (Int × α)), c + d = E + 1 →
      afterUpdates n0 inputs outputs speed moment (c * inputs.length) = some (cr, m) →
      d + 1 ≤ fuel →
      ∃ r m' tr', afterUpdates n0 inputs outputs speed moment ((E + 1) * inputs.length + 1) =
          some (r, m') ∧
        TrainEpochs inputs outputs speed moment rate epoch log fuel (c : Int) m cr tr =
          Outcome.returned r (epoch + 1) (some TrainError.EpochBudgetExceeded) m' tr' := by
  intro d
  induction d with
  | zero =>
    intro c fuel m cr tr hc hm hfuel
    obtain ⟨fuel, rfl⟩ : ∃ f, fuel = f + 1 := ⟨fuel - 1, by omega⟩
    obtain ⟨N, hN⟩ : ∃ N, inputs.length = N + 1 := ⟨inputs.length - 1, by omega⟩
    have hcE : c = E + 1 := by omega
    subst hcE
    obtain ⟨r, m', hr, hrate⟩ := hstay ((E + 1) * inputs.length) (le_refl _)
    have hsu := afterUpdates_succ n0 inputs outputs speed moment _ cr m hm
    rw [Nat.mul_mod_left, hr] at hsu
    refine ⟨r, m', tr, hr, ?_⟩
    have hce : ((E + 1 : Nat) : Int) > epoch := by rw [hE]; push_cast; omega
    simp only [TrainEpochs, hN]
    rw [TrainSets_budget inputs outputs speed moment rate epoch _ hce N m m' cr r hsu.symm hrate]
    simp [hE]
  | succ d ih =>
    intro c fuel m cr tr hc hm hfuel
    obtain ⟨fuel, rfl⟩ : ∃ f, fuel = f + 1 := ⟨fuel - 1, by omega⟩
    have hce : ¬ ((c : Int) > epoch) := by rw [hE]; omega
    obtain ⟨r, m', hr, ht⟩ := TrainSets_next n0 inputs outputs speed moment rate epoch (c : Int)
      (c * inputs.length) (Nat.mul_mod_left _ _) hce inputs.length 0 m cr (by omega)
      (by simpa using hm)
      (fun i _ hi => hstay (c * inputs.length + i) (by
        have : c * inputs.length + inputs.length ≤ (E + 1) * inputs.length := by
          have : c + 1 ≤ E + 1 := by omega
          calc c * inputs.length + inputs.length = (c + 1) * inputs.length := by ring
            _ ≤ (E + 1) * inputs.length := Nat.mul_le_mul_right _ this
        omega))
    have hw : wrapInt ((c : Int) + 1) = ((c + 1 : Nat) : Int) := by
      rw [wrapInt_id _ (by omega) (by rw [hE] at hmax; omega)]; push_cast; rfl
    have hm' : afterUpdates n0 inputs outputs speed moment ((c + 1) * inputs.length) =
        some (r, m') := by
      have hmul : (c + 1) * inputs.length = c * inputs.length + inputs.length := by ring
      rw [hmul]; exact hr
    obtain ⟨r2, m2, tr2, h2, ht2⟩ := ih (c + 1) fuel m' r
      (if log then tr ++ [((c : Int), r)] else tr) (by omega) hm' (by omega)
    refine ⟨r2, m2, tr2, h2, ?_⟩
    simp only [TrainEpochs, ht, hw]
    exact ht2

/-- Claim C8, amended: for a valid call of `Train` with a non-empty dataset of `N` samples
and an epoch budget below the largest `int`, if every sample update up to number
`(epoch+1)*N + 1` returns a rate strictly above the target rate, then `Train` (given fuel for
`epoch + 2` epochs) performs exactly `(epoch+1)*N + 1` sample updates and returns
`EpochBudgetExceeded` with the epoch index `epoch + 1`, the rate of the last update and the
network that update left. -/
theorem Train_budget_exceeded (n : FFN α) (inputs outputs : List (List α))
    (speed moment rate : α) (epoch : Int) (log : Bool)
    (hlen : inputs.length = outputs.length) (hne : 0 < inputs.length)
    (hsp : 0 < speed) (hmo : 0 ≤ moment) (hra : 0 ≤ rate) (hep : 0 < epoch)
    (hmax : epoch < maxInt)
    (hstay : ∀ k, k ≤ (epoch.toNat + 1) * inputs.length → ∃ r m,
      afterUpdates n inputs outputs speed moment (k + 1) = some (r, m) ∧ rate < r) :
    ∃ r m, afterUpdates n inputs outputs speed moment
        ((epoch.toNat + 1) * inputs.length + 1) = some (r, m) ∧
      ∀ fuel, epoch.toNat + 2 ≤ fuel → ∃ logged,
        Train fuel n inputs outputs speed moment rate epoch log =
          Outcome.returned r (epoch + 1) (some TrainError.EpochBudgetExceeded) m logged := by
  have hE : epoch = (epoch.toNat : Int) := (Int.toNat_of_nonneg (le_of_lt hep)).symm
  obtain ⟨r, m, hr, _⟩ := hstay ((epoch.toNat + 1) * inputs.length) (le_refl _)
  refine ⟨r, m, hr, ?_⟩
  intro fuel hfuel
  obtain ⟨r', m', tr', hr', ht⟩ := TrainEpochs_budget n inputs outputs speed moment rate epoch
    log epoch.toNat hE hmax hne hstay (epoch.toNat + 1) 0 fuel n 0 [] (by omega)
    (by simp [afterUpdates]) (by omega)
  rw [hr] at hr'
  obtain ⟨rfl, rfl⟩ := Prod.mk.inj (Option.some.inj hr')
  refine ⟨tr', ?_⟩
  unfold Train
  simp only [hlen, ne_eq, not_true_eq_false, if_false, not_le.mpr hsp, not_lt.mpr hmo,
    not_lt.mpr hra, not_le.mpr hep]
  simpa using ht

theorem stuckNet_shaped : Shaped stuckNet 1 1 1 := by decide

theorem stuckNet_forward : forwardState stuckNet (fun _ => 0) [0] = stuckNet := by
  simp [forwardState, stuckNet, List.range_succ, hiddenOf, outputOf]

theorem stuckNet_backward :
    backwardState stuckNet (fun _ => 0) [1] 1 0 = stuckNet := by
  simp [backwardState, stuckNet, List.range_succ, errOf, errHid, errOut, deltaOf, table, at3,
    get3, at2, get2]

theorem stuckNet_update : sampleUpdate stuckNet [[0]] [[1]] 1 0 0 = some (1, stuckNet) := by
  unfold sampleUpdate
  simp only [List.getElem?_cons_zero, Option.some_bind]
  rw [Forward_eq stuckNet 1 1 1 (fun _ => 0) [0] stuckNet_shaped rfl rfl, stuckNet_forward]
  simp only [Option.some_bind]
  rw [Backward_eq stuckNet 1 1 1 (fun _ => 0) [1] 1 0 stuckNet_shaped rfl rfl,
    stuckNet_backward]
  simp only [Option.some_bind]
  rw [Rate_eq stuckNet 1 1 1 (fun _ => 0) [[0]] [[1]] stuckNet_shaped rfl (le_refl _)
    (by intro s hs; simp at hs; subst hs; rfl) (by intro s hs; simp at hs; subst hs; rfl)]
  have h1 : rateOf stuckNet (fun _ => 0) [[0]] [[1]] = 1 := by
    simp [rateOf, sqErr, outputOf, stuckNet, at2, get2]
  have h2 : rateState stuckNet (fun _ => 0) [[0]] [[1]] = stuckNet := by
    simp [rateState, rowAt, stuckNet_forward]
  rw [h1, h2]

theorem stuckNet_after (k : Nat) :
    afterUpdates stuckNet [[0]] [[1]] 1 0 (k + 1) = some (1, stuckNet) := by
  induction k with
  | zero => simp [afterUpdates, stuckNet_update]
  | succ k ih =>
    rw [afterUpdates_succ _ _ _ _ _ _ _ _ ih]
    simp only [List.length_cons, List.length_nil, Nat.zero_add, Nat.mod_one]
    exact stuckNet_update

theorem stuckNet_epochs (log : Bool) :
    ∀ (fuel : Nat) (ce : Int) (cr : ℚ) (tr : List (Int × ℚ)), ce ≤ maxInt →
      TrainEpochs [[0]] [[1]] 1 0 0 maxInt log fuel ce stuckNet cr tr = Outcome.running := by
  intro fuel
  induction fuel with
  | zero => intro ce cr tr _; rfl
  | succ k ih =>
    intro ce cr tr hce
    have h1 : ¬ ((1 : ℚ) ≤ 0) := by norm_num
    simp only [TrainEpochs, List.length_cons, List.length_nil, Nat.zero_add, TrainSets,
      stuckNet_update, h1, if_false, not_lt.mpr hce, gt_iff_lt]
    exact ih _ _ _ (wrapInt_le _)

/-- Claim C8, counterexample: with the epoch budget `maxInt`, on a network that cannot learn
(every sample update leaves it unchanged and returns the rate `1 > 0`), `Train` never
returns: the counter `currentEpoch` never exceeds the budget. -/
theorem Train_budget_not_exceeded_at_maxInt :
    (∀ k, afterUpdates stuckNet [[0]] [[1]] 1 0 (k + 1) = some (1, stuckNet)) ∧ (0 : ℚ) < 1 ∧
    ∀ fuel, Train fuel stuckNet [[0]] [[1]] 1 0 0 maxInt false = Outcome.running := by
  refine ⟨stuckNet_after, by norm_num, ?_⟩
  intro fuel
  have h1 : ¬ ((1 : ℚ) ≤ 0) := by norm_num
  have h2 : ¬ (maxInt ≤ 0) := by unfold maxInt; omega
  simp only [Train, List.length_cons, List.length_nil, ne_eq, not_true_eq_false, if_false, h1,
    lt_irrefl, h2]
  exact stuckNet_epochs false fuel 0 0 [] (by unfold maxInt; omega)

theorem Train_budget_exceeded_witness :
    ∃ r m, afterUpdates stuckNet [[0]] [[1]] 1 0 ((Int.toNat 1 + 1) * [[(0 : ℚ)]].length + 1) =
        some (r, m) ∧
      ∀ fuel, Int.toNat 1 + 2 ≤ fuel → ∃ logged,
        Train fuel stuckNet [[0]] [[1]] 1 0 0 1 true =
          Outcome.returned r (1 + 1) (some TrainError.EpochBudgetExceeded) m logged :=
  Train_budget_exceeded stuckNet [[0]] [[1]] 1 0 0 1 true rfl (by decide) (by norm_num)
    (le_refl _) (le_refl _) (by decide) (by decide)
    (fun k _ => ⟨1, stuckNet, stuckNet_after k, by norm_num⟩)

theorem getElem?_map_range {β : Type} (g : Nat → β) (m j : Nat) (h : j < m) :
    ((List.range m).map g)[j]? = some (g j) := by
  rw [List.getElem?_map, List.getElem?_range h]; rfl

theorem get3_table {β : Type} (P Q : Nat) (g : Nat → Nat → β) (j k : Nat) (hj : j < P)
    (hk : k < Q) : ((table P Q g)[j]?).bind (fun r => r[k]?) = some (g j k) := by
  unfold table
  rw [getElem?_map_range _ _ _ hj, Option.some_bind, getElem?_map_range _ _ _ hk]

/-! ## Claims C1 to C5: the numeric operations -/

/-- Claim C1: for a network well-formed for the topology `I`, `H`, `O`, whose activation
function `F[0]` is `f`, and an input of length `I`, `Forward` returns, layer 0 is the input,
hidden activation `j` is `f (B[0][j] + Σ_k input[k] * W[0][k][j])`, and output activation `j`
is `f (B[1][j] + Σ_k X[1][k] * W[1][k][j])` with `X[1]` the new hidden activations. -/
theorem Forward_computes_activations (n : FFN α) (I H O : Nat) (f : α → α) (input : List α)
    (hs : Shaped n I H O) (hF : n.F[0]? = some (some f)) (hin : input.length = I) :
    ∃ n', Forward n input = some n' ∧ n'.X[0]? = some input ∧
      (∀ j, j < H → get2 n'.X 1 j =
        some (f (at2 n.B 0 j + ∑ k ∈ Finset.range I, at1 input k * at3 n.W 0 k j))) ∧
      (∀ j, j < O → get2 n'.X 2 j =
        some (f (at2 n.B 1 j + ∑ k ∈ Finset.range H, at2 n'.X 1 k * at3 n.W 1 k j))) := by
  have hH := hs.2.1
  have hO := hs.2.2.1
  refine ⟨_, Forward_eq n I H O f input hs hF hin, ?_, ?_, ?_⟩
  · simp [forwardState]
  · intro j hj
    simp [forwardState, get2, hH, getElem?_map_range _ _ _ hj, hiddenOf, hin]
  · intro j hj
    simp only [forwardState, get2, hH, hO, Int.toNat_ofNat, List.getElem?_cons_succ,
      List.getElem?_cons_zero, Option.some_bind, getElem?_map_range _ _ _ hj, outputOf,
      Option.some.injEq, at2]
    congr 2
    apply Finset.sum_congr rfl
    intro k hk
    rw [getElem?_map_range _ _ _ (Finset.mem_range.mp hk)]
    rfl

theorem Forward_computes_activations_witness :
    ∃ n', Forward net111 [1] = some n' ∧ n'.X[0]? = some [1] ∧
      (∀ j, j < 1 → get2 n'.X 1 j =
        some ((fun x : ℚ => x) (at2 net111.B 0 j +
          ∑ k ∈ Finset.range 1, at1 [1] k * at3 net111.W 0 k j))) ∧
      (∀ j, j < 1 → get2 n'.X 2 j =
        some ((fun x : ℚ => x) (at2 net111.B 1 j +
          ∑ k ∈ Finset.range 1, at2 n'.X 1 k * at3 net111.W 1 k j))) :=
  Forward_computes_activations net111 1 1 1 (fun x => x) [1] (by decide) rfl rfl

/-- Claim C2: for a well-formed network whose derivative function `F[1]` is `df` and a target
of length `O`, `Backward` returns, output error `j` is
`(target[j] - X[2][j]) * df (X[2][j])`, and hidden error `j` is
`(Σ_m W[1][j][m] * E[1][m]) * df (X[1][j])` with `W[1]` the weights before the call and
`E[1]` the new output errors. -/
theorem Backward_computes_errors (n : FFN α) (I H O : Nat) (df : α → α) (output : List α)
    (speed moment : α) (hs : Shaped n I H O) (hF : n.F[1]? = some (some df))
    (hout : output.length = O) :
    ∃ n', Backward n output speed moment = some n' ∧
      (∀ j, j < O → get2 n'.E 1 j =
        some ((at1 output j - at2 n.X 2 j) * df (at2 n.X 2 j))) ∧
      (∀ j, j < H → get2 n'.E 0 j =
        some ((∑ m ∈ Finset.range O, at3 n.W 1 j m * at2 n'.E 1 m) * df (at2 n.X 1 j))) := by
  have hH := hs.2.1
  have hO := hs.2.2.1
  refine ⟨_, Backward_eq n I H O df output speed moment hs hF hout, ?_, ?_⟩
  · intro j hj
    simp [backwardState, get2, hO, getElem?_map_range _ _ _ hj, errOf, errOut]
  · intro j hj
    simp only [backwardState, get2, hH, hO, Int.toNat_ofNat, List.getElem?_cons_succ,
      List.getElem?_cons_zero, Option.some_bind, getElem?_map_range _ _ _ hj, errOf, errHid,
      Option.some.injEq, at2, if_true]
    congr 1
    apply Finset.sum_congr rfl
    intro k hk
    rw [getElem?_map_range _ _ _ (Finset.mem_range.mp hk)]
    simp [errOf]

theorem Backward_computes_errors_witness :
    ∃ n', Backward net111 [1] (1 / 5) (1 / 20) = some n' ∧
      (∀ j, j < 1 → get2 n'.E 1 j =
        some ((at1 [1] j - at2 net111.X 2 j) * (fun _ : ℚ => (1 : ℚ)) (at2 net111.X 2 j))) ∧
      (∀ j, j < 1 → get2 n'.E 0 j =
        some ((∑ m ∈ Finset.range 1, at3 net111.W 1 j m * at2 n'.E 1 m) *
          (fun _ : ℚ => (1 : ℚ)) (at2 net111.X 1 j))) :=
  Backward_computes_errors net111 1 1 1 (fun _ => 1) [1] (1 / 5) (1 / 20) (by decide) rfl rfl

/-- Claim C3: for a well-formed network and a target of length `O`, `Backward` returns and,
for every connection `l`, `j`, `k`, the new weight delta is
`speed * X[l][j] * E'[l][k] + moment * DW[l][j][k]` (`E'` the error signals after the call,
`DW` the deltas before it) and the new weight is the old weight plus the new delta. -/
theorem Backward_delta_rule (n : FFN α) (I H O : Nat) (df : α → α) (output : List α)
    (speed moment : α) (hs : Shaped n I H O) (hF : n.F[1]? = some (some df))
    (hout : output.length = O) :
    ∃ n', Backward n output speed moment = some n' ∧
      ∀ l j k, (l = 0 ∧ j < I ∧ k < H) ∨ (l = 1 ∧ j < H ∧ k < O) →
        get3 n'.DW l j k =
          some (speed * at2 n.X l j * at2 n'.E l k + moment * at3 n.DW l j k) ∧
        get3 n'.W l j k = some (at3 n.W l j k + at3 n'.DW l j k) := by
  have hI := hs.1
  have hH := hs.2.1
  have hO := hs.2.2.1
  refine ⟨_, Backward_eq n I H O df output speed moment hs hF hout, ?_⟩
  rintro l j k (⟨rfl, hj, hk⟩ | ⟨rfl, hj, hk⟩)
  · simp only [backwardState, get3, at3, at2, get2, hI, hH, hO, Int.toNat_ofNat,
      List.getElem?_cons_zero, Option.some_bind, get3_table _ _ _ j k hj hk,
      getElem?_map_range _ _ _ hk, Option.getD_some, deltaOf]
    exact ⟨trivial, trivial⟩
  · simp only [backwardState, get3, at3, at2, get2, hI, hH, hO, Int.toNat_ofNat,
      List.getElem?_cons_zero, List.getElem?_cons_succ, Option.some_bind,
      get3_table _ _ _ j k hj hk, getElem?_map_range _ _ _ hk, Option.getD_some, deltaOf]
    exact ⟨trivial, trivial⟩

theorem Backward_delta_rule_witness :
    ∃ n', Backward net111 [1] (1 / 5) (1 / 20) = some n' ∧
      ∀ l j k, (l = 0 ∧ j < 1 ∧ k < 1) ∨ (l = 1 ∧ j < 1 ∧ k < 1) →
        get3 n'.DW l j k =
          some (1 / 5 * at2 net111.X l j * at2 n'.E l k + 1 / 20 * at3 net111.DW l j k) ∧
        get3 n'.W l j k = some (at3 net111.W l j k + at3 n'.DW l j k) :=
  Backward_delta_rule net111 1 1 1 (fun _ => 1) [1] (1 / 5) (1 / 20) (by decide) rfl rfl

/-- Claim C4: for a well-formed network and a target of length `O`, `Backward` returns and
every new bias is `B[l][j] + speed * E'[l][j]` (`E'` the error signals after the call);
a call with another momentum `moment'` on the same network with other stored weight deltas
`dw'` (of the right shape) leaves the same biases. -/
theorem Backward_bias_update (n : FFN α) (I H O : Nat) (df : α → α) (output : List α)
    (speed moment moment' : α) (dw' : List (List (List α))) (hs : Shaped n I H O)
    (hF : n.F[1]? = some (some df)) (hout : output.length = O)
    (hdw : dw'.map (List.map List.length) = [List.replicate I H, List.replicate H O]) :
    ∃ n' n'', Backward n output speed moment = some n' ∧
      (∀ l j, (l = 0 ∧ j < H) ∨ (l = 1 ∧ j < O) →
        get2 n'.B l j = some (at2 n.B l j + speed * at2 n'.E l j)) ∧
      Backward { n with DW := dw' } output speed moment' = some n'' ∧ n''.B = n'.B := by
  have hH := hs.2.1
  have hO := hs.2.2.1
  have hs' : Shaped { n with DW := dw' } I H O :=
    ⟨hs.1, hs.2.1, hs.2.2.1, hs.2.2.2.1, hs.2.2.2.2.1, hs.2.2.2.2.2.1, hs.2.2.2.2.2.2.1, hdw⟩
  refine ⟨_, _, Backward_eq n I H O df output speed moment hs hF hout, ?_,
    Backward_eq { n with DW := dw' } I H O df output speed moment' hs' hF hout, rfl⟩
  rintro l j (⟨rfl, hj⟩ | ⟨rfl, hj⟩)
  · simp only [backwardState, at2, get2, hH, hO, Int.toNat_ofNat,
      List.getElem?_cons_zero, Option.some_bind, getElem?_map_range _ _ _ hj, Option.getD_some]
  · simp only [backwardState, at2, get2, hH, hO, Int.toNat_ofNat,
      List.getElem?_cons_zero, List.getElem?_cons_succ, Option.some_bind,
      getElem?_map_range _ _ _ hj, Option.getD_some]

theorem Backward_bias_update_witness :
    ∃ n' n'', Backward net111 [1] (1 / 5) (1 / 20) = some n' ∧
      (∀ l j, (l = 0 ∧ j < 1) ∨ (l = 1 ∧ j < 1) →
        get2 n'.B l j = some (at2 net111.B l j + 1 / 5 * at2 n'.E l j)) ∧
      Backward { net111 with DW := [[[7]], [[9]]] } [1] (1 / 5) 3 = some n'' ∧ n''.B = n'.B :=
  Backward_bias_update net111 1 1 1 (fun _ => 1) [1] (1 / 5) (1 / 20) 3 [[[7]], [[9]]]
    (by decide) rfl rfl (by decide)

theorem rowAt_mem {β : Type} (a : List (List β)) (i : Nat) (h : i < a.length) :
    rowAt a i ∈ a := by
  have := rowAt_eq a i h
  exact List.getElem?_mem this

/-- Claim C5: for a well-formed network and a non-empty dataset of `N` pairs of vectors of the
right lengths, `Rate` returns `(1/N) * Σ_s Σ_j (o_s[j] - outputs[s][j])^2`, where `o_s` is the
output layer that `Read` (that is `Forward`) yields for `inputs[s]` on the network as it is
before the call; biases, weights and weight deltas are unchanged. -/
theorem Rate_is_mean_squared_error (n : FFN α) (I H O : Nat) (f : α → α)
    (inputs outputs : List (List α)) (hs : Shaped n I H O) (hF : n.F[0]? = some (some f))
    (hlen : inputs.length = outputs.length) (hne : 0 < outputs.length)
    (hin : ∀ v ∈ inputs, v.length = I) (hout : ∀ v ∈ outputs, v.length = O) :
    ∃ (r : α) (n' : FFN α) (o : Nat → List α), Rate n inputs outputs = some (r, n') ∧
      (∀ s, s < outputs.length → ∃ m, Read n (rowAt inputs s) = some (o s, m)) ∧
      r = 1 / (outputs.length : α) * ∑ s ∈ Finset.range outputs.length,
        ∑ j ∈ Finset.range O, (at1 (o s) j - at2 outputs s j) ^ 2 ∧
      n'.B = n.B ∧ n'.W = n.W ∧ n'.DW = n.DW := by
  have hO := hs.2.2.1
  have _ := hne
  have hin' : ∀ s, s < outputs.length → (rowAt inputs s).length = I :=
    fun s h => hin _ (rowAt_mem inputs s (by omega))
  have hout' : ∀ s, s < outputs.length → (rowAt outputs s).length = O :=
    fun s h => hout _ (rowAt_mem outputs s h)
  refine ⟨_, _, fun s => (List.range O).map (outputOf n f (rowAt inputs s)),
    Rate_eq n I H O f inputs outputs hs hF (by omega) hin' hout', ?_, ?_, ?_, ?_, ?_⟩
  · intro s hsl
    refine ⟨forwardState n f (rowAt inputs s), ?_⟩
    unfold Read
    rw [Forward_eq n I H O f _ hs hF (hin' s hsl)]
    simp [forwardState, hO]
  · unfold rateOf sqErr
    rw [div_eq_mul_one_div, mul_comm, hO, Int.toNat_ofNat]
    congr 1
    apply Finset.sum_congr rfl
    intro s _
    apply Finset.sum_congr rfl
    intro j hj
    rw [at1_map_range _ _ _ (Finset.mem_range.mp hj)]
  · unfold rateState; split_ifs <;> rfl
  · unfold rateState; split_ifs <;> rfl
  · unfold rateState; split_ifs <;> rfl

theorem Rate_is_mean_squared_error_witness :
    ∃ (r : ℚ) (n' : FFN ℚ) (o : Nat → List ℚ), Rate net111 [[1], [2]] [[3], [4]] = some (r, n') ∧
      (∀ s, s < [[(3 : ℚ)], [4]].length → ∃ m, Read net111 (rowAt [[1], [2]] s) = some (o s, m)) ∧
      r = 1 / ([[(3 : ℚ)], [4]].length : ℚ) * ∑ s ∈ Finset.range [[(3 : ℚ)], [4]].length,
        ∑ j ∈ Finset.range 1, (at1 (o s) j - at2 [[3], [4]] s j) ^ 2 ∧
      n'.B = net111.B ∧ n'.W = net111.W ∧ n'.DW = net111.DW :=
  Rate_is_mean_squared_error net111 1 1 1 (fun x => x) [[1], [2]] [[3], [4]] (by decide) rfl rfl
    (by decide) (by simp) (by simp)

theorem Both_mono {σ : Type} (R R' : σ → σ → Prop) (h : ∀ a b, R a b → R' a b)
    (x y : Option σ) (hxy : Both R x y) : Both R' x y := by
  cases x <;> cases y <;> simp only [Both] at hxy ⊢
  exact h _ _ hxy

theorem loopFrom_rel {σ : Type} (body : Nat → σ → Option σ) (R : Nat → σ → σ → Prop) :
    ∀ (k i : Nat) (s t : σ), R i s t →
      (∀ j a b, i ≤ j → j < i + k → R j a b → Both (R (j + 1)) (body j a) (body j b)) →
      Both (R (i + k)) (loopFrom body i k s) (loopFrom body i k t) := by
  intro k
  induction k with
  | zero => intro i s t h _; exact h
  | succ k ih =>
    intro i s t h hb
    have h1 := hb i s t (le_refl i) (by omega) h
    simp only [loopFrom]
    cases hx : body i s <;> cases hy : body i t <;>
      simp only [hx, hy, Both, Option.none_bind, Option.some_bind] at h1 ⊢
    have := ih (i + 1) _ _ h1 (fun j a b h2 h3 hR => hb j a b (by omega) (by omega) hR)
    have e : i + (k + 1) = i + 1 + k := by omega
    rw [e]
    exact this

theorem shape_getElem? {β : Type} (a b : List (List β)) (l : Nat) (r : List β)
    (h : a.map List.length = b.map List.length) (hr : a[l]? = some r) :
    ∃ r', b[l]? = some r' ∧ r'.length = r.length := by
  have h1 : (a.map List.length)[l]? = some r.length := by simp [hr]
  rw [h, List.getElem?_map] at h1
  cases hb : b[l]? with
  | none => simp [hb] at h1
  | some r' => exact ⟨r', rfl, by simpa [hb] using h1⟩

theorem shape_set {β : Type} (a : List (List β)) (l : Nat) (r r' : List β)
    (hr : a[l]? = some r) (hl : r'.length = r.length) :
    (a.set l r').map List.length = a.map List.length := by
  apply List.ext_getElem?
  intro i
  simp only [List.getElem?_map, List.getElem?_set]
  by_cases h : l = i
  · subst h; simp [lt_of_getElem? hr, hr, hl]
  · simp [h]

/-- The neuron loop of `Forward` at layer `l` run on two networks that differ only in the
activations, have the same shape and agree on the layers below `l`: both runs panic, or both
return, in states that agree also on layer `l`. -/
theorem Forward_layer_rel (s : FFN α) (l Q : Nat) (sh : List Nat) (hl : 1 ≤ l)
    (A B : List (List α)) (hA : A.map List.length = sh) (hB : B.map List.length = sh)
    (hQ : sh[l]? = some Q) (hlow : ∀ l', l' < l → A[l']? = B[l']?) :
    Both (fun a b : FFN α => ∃ A' B', a = { s with X := A' } ∧ b = { s with X := B' } ∧
        A'.map List.length = sh ∧ B'.map List.length = sh ∧ ∀ l', l' < l + 1 → A'[l']? = B'[l']?)
      (forRange 0 Q (fun neuron n =>
        (get2 n.B (l - 1) neuron).bind fun b =>
        (n.X[l - 1]?).bind fun xp =>
        (forRange 0 xp.length (fun prevNeuron x =>
          (get2 n.X (l - 1) prevNeuron).bind fun a =>
          (get3 n.W (l - 1) prevNeuron neuron).bind fun w =>
          some (x + a * w)) b).bind fun x =>
        (callF n.F 0 x).bind fun y =>
        (set2 n.X l neuron y).bind fun X' =>
        some { n with X := X' }) { s with X := A })
      (forRange 0 Q (fun neuron n =>
        (get2 n.B (l - 1) neuron).bind fun b =>
        (n.X[l - 1]?).bind fun xp =>
        (forRange 0 xp.length (fun prevNeuron x =>
          (get2 n.X (l - 1) prevNeuron).bind fun a =>
          (get3 n.W (l - 1) prevNeuron neuron).bind fun w =>
          some (x + a * w)) b).bind fun x =>
        (callF n.F 0 x).bind fun y =>
        (set2 n.X l neuron y).bind fun X' =>
        some { n with X := X' }) { s with X := B }) := by
  have key := loopFrom_rel (fun neuron (n : FFN α) =>
        (get2 n.B (l - 1) neuron).bind fun b =>
        (n.X[l - 1]?).bind fun xp =>
        (forRange 0 xp.length (fun prevNeuron x =>
          (get2 n.X (l - 1) prevNeuron).bind fun a =>
          (get3 n.W (l - 1) prevNeuron neuron).bind fun w =>
          some (x + a * w)) b).bind fun x =>
        (callF n.F 0 x).bind fun y =>
        (set2 n.X l neuron y).bind fun X' =>
        some { n with X := X' })
    (fun j a b => ∃ A' B', a = { s with X := A' } ∧ b = { s with X := B' } ∧
        A'.map List.length = sh ∧ B'.map List.length = sh ∧
        (∀ l', l' < l → A'[l']? = B'[l']?) ∧ ∀ i, i < j → get2 A' l i = get2 B' l i)
    Q 0 { s with X := A } { s with X := B }
    ⟨A, B, rfl, rfl, hA, hB, hlow, fun i hi => absurd hi (Nat.not_lt_zero i)⟩ ?_
  · simp only [forRange, Nat.sub_zero]
    simp only [Nat.zero_add] at key
    refine Both_mono _ _ ?_ _ _ key
    rintro a b ⟨A', B', rfl, rfl, hA', hB', hlow', hrow⟩
    refine ⟨A', B', rfl, rfl, hA', hB', ?_⟩
    intro l' hl'
    rcases Nat.lt_or_ge l' l with h | h
    · exact hlow' l' h
    · have hll : l' = l := by omega
      subst hll
      have h1 : (A'.map List.length)[l']? = some Q := by rw [hA']; exact hQ
      have h2 : (B'.map List.length)[l']? = some Q := by rw [hB']; exact hQ
      rw [List.getElem?_map] at h1 h2
      cases hra : A'[l']? with
      | none => simp [hra] at h1
      | some ra =>
        cases hrb : B'[l']? with
        | none => simp [hrb] at h2
        | some rb =>
          simp only [hra, hrb, Option.map_some', Option.some.injEq] at h1 h2
          congr 1
          apply List.ext_getElem?
          intro i
          by_cases hi : i < Q
          · have := hrow i hi
            simpa [get2, hra, hrb] using this
          · rw [List.getElem?_eq_none (by omega), List.getElem?_eq_none (by omega)]
  · rintro j a b _ hj ⟨A', B', rfl, rfl, hA', hB', hlow', hrow⟩
    simp only [Nat.zero_add] at hj
    dsimp only
    have hprev : A'[l - 1]? = B'[l - 1]? := hlow' (l - 1) (by omega)
    have hfun : (fun prevNeuron (x : α) =>
          (get2 A' (l - 1) prevNeuron).bind fun a =>
          (get3 s.W (l - 1) prevNeuron j).bind fun w => some (x + a * w)) =
        (fun prevNeuron (x : α) =>
          (get2 B' (l - 1) prevNeuron).bind fun a =>
          (get3 s.W (l - 1) prevNeuron j).bind fun w => some (x + a * w)) := by
      funext k x
      simp only [get2, hprev]
    rw [hfun, hprev]
    cases get2 s.B (l - 1) j with
    | none => exact trivial
    | some b0 =>
      simp only [Option.some_bind]
      cases B'[l - 1]? with
      | none => exact trivial
      | some xp =>
        simp only [Option.some_bind]
        cases forRange 0 xp.length (fun prevNeuron (x : α) =>
          (get2 B' (l - 1) prevNeuron).bind fun a =>
          (get3 s.W (l - 1) prevNeuron j).bind fun w => some (x + a * w)) b0 with
        | none => exact trivial
        | some x =>
          simp only [Option.some_bind]
          cases callF s.F 0 x with
          | none => exact trivial
          | some y =>
            simp only [Option.some_bind]
            have h1 : (A'.map List.length)[l]? = some Q := by rw [hA']; exact hQ
            have h2 : (B'.map List.length)[l]? = some Q := by rw [hB']; exact hQ
            rw [List.getElem?_map] at h1 h2
            cases hra : A'[l]? with
            | none => simp [hra] at h1
            | some ra =>
              cases hrb : B'[l]? with
              | none => simp [hrb] at h2
              | some rb =>
                simp only [hra, hrb, Option.map_some', Option.some.injEq] at h1 h2
                rw [set2_eq A' l j ra y hra (by omega), set2_eq B' l j rb y hrb (by omega)]
                simp only [Option.some_bind]
                refine ⟨_, _, rfl, rfl, ?_, ?_, ?_, ?_⟩
                · rw [shape_set A' l ra _ hra (by simp), hA']
                · rw [shape_set B' l rb _ hrb (by simp), hB']
                · intro l' hl'
                  rw [List.getElem?_set_ne (by omega), List.getElem?_set_ne (by omega)]
                  exact hlow' l' hl'
                · intro i hi
                  simp only [get2, getElem?_set_self_of A' l ra _ hra,
                    getElem?_set_self_of B' l rb _ hrb, Option.some_bind, List.getElem?_set]
                  by_cases hji : j = i
                  · subst hji; simp [h1, h2, hj]
                  · have := hrow i (by omega)
                    simpa [get2, hra, hrb, hji] using this

/-- The method `Forward` run on two networks that differ only in the activations and have the same
shape from layer 1 on: both runs panic, or both return the same network, which differs from
the initial ones only in the activations and has their shape from layer 1 on. -/
theorem Forward_rel (s : FFN α) (A B : List (List α)) (input : List α)
    (hAB : A.length = B.length) (htail : A.tail.map List.length = B.tail.map List.length) :
    Both (fun a b : FFN α => a = b ∧ ∃ A', a = { s with X := A' } ∧ A'.length = A.length ∧
        A'.tail.map List.length = A.tail.map List.length)
      (Forward { s with X := A } input) (Forward { s with X := B } input) := by
  unfold Forward
  dsimp only
  cases A with
  | nil =>
    have hB : B = [] := List.length_eq_zero.mp hAB.symm
    subst hB
    simp [set1, Both]
  | cons a0 A1 =>
    cases B with
    | nil => simp at hAB
    | cons b0 B1 =>
      simp only [List.tail_cons] at htail
      have hlen : A1.length = B1.length := by simpa using hAB
      simp only [set1, List.length_cons, Nat.zero_lt_succ, if_true, Option.some_bind,
        List.set_cons_zero, forRange, Nat.add_sub_cancel, ← hlen]
      have key := loopFrom_rel (fun layer (n : FFN α) =>
          (n.X[layer]?).bind fun xl =>
          loopFrom (fun neuron n =>
            (get2 n.B (layer - 1) neuron).bind fun b =>
            (n.X[layer - 1]?).bind fun xp =>
            (loopFrom (fun prevNeuron x =>
              (get2 n.X (layer - 1) prevNeuron).bind fun a =>
              (get3 n.W (layer - 1) prevNeuron neuron).bind fun w =>
              some (x + a * w)) 0 (xp.length - 0) b).bind fun x =>
            (callF n.F 0 x).bind fun y =>
            (set2 n.X layer neuron y).bind fun X' =>
            some { n with X := X' }) 0 (xl.length - 0) n)
        (fun l a b => ∃ A' B', a = { s with X := A' } ∧ b = { s with X := B' } ∧
          A'.map List.length = input.length :: A1.map List.length ∧
          B'.map List.length = input.length :: A1.map List.length ∧
          ∀ l', l' < l → A'[l']? = B'[l']?)
        A1.length 1 { s with X := input :: A1 } { s with X := input :: B1 }
        ⟨_, _, rfl, rfl, by simp, by simp [htail], by
          intro l' hl'
          have : l' = 0 := by omega
          subst this; simp⟩ ?_
      · refine Both_mono _ _ ?_ _ _ key
        rintro a b ⟨A', B', rfl, rfl, hA', hB', hrows⟩
        have hlA : A'.length = A1.length + 1 := by
          have := congrArg List.length hA'; simpa using this
        have hlB : B'.length = A1.length + 1 := by
          have := congrArg List.length hB'; simpa using this
        have hEq : A' = B' := by
          apply List.ext_getElem?
          intro i
          by_cases hi : i < 1 + A1.length
          · exact hrows i hi
          · rw [List.getElem?_eq_none (by omega), List.getElem?_eq_none (by omega)]
        subst hEq
        refine ⟨rfl, A', rfl, by simp [hlA], ?_⟩
        have := congrArg List.tail hA'
        simpa using this
      · rintro l a b hl1 hl2 ⟨A', B', rfl, rfl, hA', hB', hrows⟩
        dsimp only
        have hlA : A'.length = A1.length + 1 := by
          have := congrArg List.length hA'; simpa using this
        have hlB : B'.length = A1.length + 1 := by
          have := congrArg List.length hB'; simpa using this
        have hra := List.getElem?_eq_getElem (show l < A'.length by omega)
        have hrb := List.getElem?_eq_getElem (show l < B'.length by omega)
        have hQ : (input.length :: A1.map List.length)[l]? = some (A'[l]).length := by
          rw [← hA', List.getElem?_map, hra]; rfl
        have hQb : (B'[l]).length = (A'[l]).length := by
          have h2 : (B'.map List.length)[l]? = some (A'[l]).length := by rw [hB']; exact hQ
          rw [List.getElem?_map, hrb] at h2
          simpa using h2
        rw [hra, hrb]
        simp only [Option.some_bind, hQb]
        have := Forward_layer_rel s l (A'[l]).length _ hl1 A' B' hA' hB' hQ hrows
        simpa only [forRange] using this

theorem Forward_congr (s : FFN α) (A B : List (List α)) (input : List α)
    (hAB : A.length = B.length) (htail : A.tail.map List.length = B.tail.map List.length) :
    Forward { s with X := A } input = Forward { s with X := B } input := by
  have := Forward_rel s A B input hAB htail
  cases h1 : Forward { s with X := A } input <;> cases h2 : Forward { s with X := B } input <;>
    simp only [h1, h2, Both] at this ⊢
  rw [this.1]

theorem Forward_frame (s n' : FFN α) (input : List α) (h : Forward s input = some n') :
    ∃ A', n' = { s with X := A' } ∧ A'.length = s.X.length ∧
      A'.tail.map List.length = s.X.tail.map List.length := by
  have := Forward_rel s s.X s.X input rfl rfl
  have e : ({ s with X := s.X } : FFN α) = s := rfl
  rw [e, h] at this
  simp only [Both] at this
  exact this.2

theorem loopFrom_some_inv {σ : Type} (body : Nat → σ → Option σ) (Inv : σ → Prop)
    (hb : ∀ j t t', Inv t → body j t = some t' → Inv t') :
    ∀ (k i : Nat) (s s' : σ), Inv s → loopFrom body i k s = some s' → Inv s' := by
  intro k
  induction k with
  | zero =>
    intro i s s' h hs
    simp only [loopFrom, Option.some.injEq] at hs
    rw [← hs]; exact h
  | succ k ih =>
    intro i s s' h hs
    simp only [loopFrom] at hs
    cases hx : body i s with
    | none => simp [hx] at hs
    | some t =>
      rw [hx, Option.some_bind] at hs
      exact ih (i + 1) t s' (hb i s t h hx) hs

/-- The method `Rate` changes nothing but the activations, and keeps their shape from layer 1 on. -/
theorem Rate_frame (s n' : FFN α) (inputs outputs : List (List α)) (r : α)
    (h : Rate s inputs outputs = some (r, n')) :
    ∃ A', n' = { s with X := A' } ∧ A'.length = s.X.length ∧
      A'.tail.map List.length = s.X.tail.map List.length := by
  unfold Rate at h
  obtain ⟨st, hst, hr⟩ := Option.bind_eq_some.mp h
  simp only [Option.some.injEq, Prod.mk.injEq] at hr
  rw [← hr.2]
  refine loopFrom_some_inv _
    (fun st : α × FFN α => ∃ A', st.2 = { s with X := A' } ∧ A'.length = s.X.length ∧
      A'.tail.map List.length = s.X.tail.map List.length) ?_ _ 0 (0, s) st
    ⟨s.X, rfl, rfl, rfl⟩ hst
  rintro j ⟨r0, m⟩ ⟨r1, m'⟩ ⟨A', hm, hl, ht⟩ hbody
  dsimp only at hm hbody ⊢
  obtain ⟨inp, _, h1⟩ := Option.bind_eq_some.mp hbody
  obtain ⟨m1, hf, h2⟩ := Option.bind_eq_some.mp h1
  obtain ⟨xl, _, h3⟩ := Option.bind_eq_some.mp h2
  obtain ⟨e, _, h4⟩ := Option.bind_eq_some.mp h3
  simp only [Option.some.injEq, Prod.mk.injEq] at h4
  obtain ⟨A'', hm1, hl1, ht1⟩ := Forward_frame m m1 inp hf
  rw [← h4.2, hm1, hm]
  exact ⟨A'', rfl, by rw [hl1, hm, hl], by rw [ht1, hm, ht]⟩

/-- The value of `Rate` does not depend on the activations the network holds. -/
theorem Rate_congr (s : FFN α) (A B : List (List α)) (inputs outputs : List (List α))
    (hAB : A.length = B.length) (htail : A.tail.map List.length = B.tail.map List.length) :
    (Rate { s with X := A } inputs outputs).map Prod.fst =
      (Rate { s with X := B } inputs outputs).map Prod.fst := by
  unfold Rate
  rcases Nat.eq_zero_or_pos outputs.length with h0 | h0
  · rw [forRange_done _ _ _ _ (by omega), forRange_done _ _ _ _ (by omega)]
    rfl
  · rw [forRange_step 0 _ _ _ h0, forRange_step 0 _ _ _ h0]
    dsimp only
    simp only [Forward_congr s A B _ hAB htail]

/-- Evaluating `Rate` again on the network it leaves gives the same value. -/
theorem Rate_again (s n' : FFN α) (inputs outputs : List (List α)) (r : α)
    (h : Rate s inputs outputs = some (r, n')) :
    ∃ n'', Rate n' inputs outputs = some (r, n'') := by
  obtain ⟨A', hn, hl, ht⟩ := Rate_frame s n' inputs outputs r h
  have h1 := Rate_congr s A' s.X inputs outputs hl ht
  have e : ({ s with X := s.X } : FFN α) = s := rfl
  rw [e, h, ← hn] at h1
  cases h2 : Rate n' inputs outputs with
  | none => simp [h2] at h1
  | some p =>
    obtain ⟨r', n''⟩ := p
    simp only [h2, Option.map_some', Option.some.injEq] at h1
    exact ⟨n'', by rw [h1]⟩

theorem TrainSets_success (inputs outputs : List (List α)) (speed moment rate : α)
    (epoch ce : Int) (r : α) (e : Int) (n' : FFN α) :
    ∀ (k set : Nat) (m : FFN α) (cr : α), set + k = inputs.length →
      TrainSets inputs outputs speed moment rate epoch ce set k m cr = Step.stop r e none n' →
      r ≤ rate ∧ ∃ m0 set', set' < inputs.length ∧
        sampleUpdate m0 inputs outputs speed moment set' = some (r, n') := by
  intro k
  induction k with
  | zero => intro set m cr _ h; simp [TrainSets] at h
  | succ k ih =>
    intro set m cr hset h
    simp only [TrainSets] at h
    cases hsu : sampleUpdate m inputs outputs speed moment set with
    | none => simp [hsu] at h
    | some p =>
      obtain ⟨r1, m1⟩ := p
      simp only [hsu] at h
      by_cases h1 : r1 ≤ rate
      · simp only [h1, if_true, Step.stop.injEq, true_and] at h
        obtain ⟨rfl, _, rfl⟩ := h
        exact ⟨h1, m, set, by omega, hsu⟩
      · simp only [h1, if_false] at h
        by_cases h2 : ce > epoch
        · simp [h2] at h
        · simp only [h2, if_false] at h
          exact ih (set + 1) m1 r1 (by omega) h

theorem TrainEpochs_success (inputs outputs : List (List α)) (speed moment rate : α)
    (epoch : Int) (log : Bool) (r : α) (e : Int) (n' : FFN α) (logged : List (Int × α)) :
    ∀ (fuel : Nat) (ce : Int) (m : FFN α) (cr : α) (tr : List (Int × α)),
      TrainEpochs inputs outputs speed moment rate epoch log fuel ce m cr tr =
        Outcome.returned r e none n' logged →
      r ≤ rate ∧ ∃ m0 set', set' < inputs.length ∧
        sampleUpdate m0 inputs outputs speed moment set' = some (r, n') := by
  intro fuel
  induction fuel with
  | zero => intro ce m cr tr h; simp [TrainEpochs] at h
  | succ fuel ih =>
    intro ce m cr tr h
    simp only [TrainEpochs] at h
    cases hts : TrainSets inputs outputs speed moment rate epoch ce 0 inputs.length m cr with
    | panic => simp [hts] at h
    | next m1 r1 =>
      simp only [hts] at h
      exact ih _ _ _ _ h
    | stop r1 e1 err1 m1 =>
      simp only [hts, Outcome.returned.injEq] at h
      obtain ⟨rfl, rfl, rfl, rfl, _⟩ := h
      exact TrainSets_success inputs outputs speed moment rate epoch ce r1 e1 m1
        inputs.length 0 m cr (by omega) hts

/-- Claim C6: if `Train` returns no error, then the returned rate is at most the target
rate; the last sample update (`Forward` on a sample, `Backward` on its target, then `Rate`
over the whole dataset) yielded exactly the returned rate and the network that `Train`
leaves behind; and `Rate` over the whole dataset evaluated again on that network returns the
same rate. -/
theorem Train_success_postcondition (fuel : Nat) (n : FFN α) (inputs outputs : List (List α))
    (speed moment rate : α) (epoch : Int) (log : Bool) (r : α) (e : Int) (n' : FFN α)
    (logged : List (Int × α))
    (h : Train fuel n inputs outputs speed moment rate epoch log =
      Outcome.returned r e none n' logged) :
    r ≤ rate ∧
    (∃ (m : FFN α) (set : Nat) (inp out : List α) (m1 m2 : FFN α),
      inputs[set]? = some inp ∧ outputs[set]? = some out ∧
      Forward m inp = some m1 ∧ Backward m1 out speed moment = some m2 ∧
      Rate m2 inputs outputs = some (r, n')) ∧
    ∃ n'', Rate n' inputs outputs = some (r, n'') := by
  unfold Train at h
  split_ifs at h
  all_goals try (simp at h)
  obtain ⟨h1, m0, set, _, hsu⟩ := TrainEpochs_success inputs outputs speed moment rate epoch
    log r e n' logged fuel 0 n 0 [] h
  unfold sampleUpdate at hsu
  obtain ⟨inp, hinp, h2⟩ := Option.bind_eq_some.mp hsu
  obtain ⟨m1, hm1, h3⟩ := Option.bind_eq_some.mp h2
  obtain ⟨out, hout, h4⟩ := Option.bind_eq_some.mp h3
  obtain ⟨m2, hm2, h5⟩ := Option.bind_eq_some.mp h4
  exact ⟨h1, ⟨m0, set, inp, out, m1, m2, hinp, hout, hm1, hm2, h5⟩,
    Rate_again m2 n' inputs outputs r h5⟩

theorem net111_shaped : Shaped net111 1 1 1 := by decide

theorem net111_update :
    sampleUpdate net111 [[1]] [[1]] (1 / 5) 0 0 = some (16 / 25, trained111) := by
  unfold sampleUpdate
  simp only [List.getElem?_cons_zero, Option.some_bind]
  rw [Forward_eq net111 1 1 1 (fun x => x) [1] net111_shaped rfl rfl]
  simp only [Option.some_bind]
  have hs1 : Shaped (forwardState net111 (fun x => x) [1]) 1 1 1 :=
    forwardState_shaped net111 1 1 1 _ _ net111_shaped rfl
  rw [Backward_eq _ 1 1 1 (fun _ => 1) [1] (1 / 5) 0 hs1 rfl rfl]
  simp only [Option.some_bind]
  have hs2 := backwardState_shaped _ 1 1 1 (fun _ : ℚ => (1 : ℚ)) [1] (1 / 5) 0 hs1
  rw [Rate_eq _ 1 1 1 (fun x => x) [[1]] [[1]] hs2 rfl (le_refl _)
    (by intro s hs; simp at hs; subst hs; rfl) (by intro s hs; simp at hs; subst hs; rfl)]
  have hb : backwardState (forwardState net111 (fun x => x) [1]) (fun _ => 1) [1] (1 / 5) 0 =
      { trained111 with X := [[1], [0], [0]] } := by
    simp [backwardState, forwardState, net111, trained111, List.range_succ, errOf, errHid,
      errOut, deltaOf, table, at3, get3, at2, get2, at1, hiddenOf, outputOf]
  rw [hb]
  have h1 : rateOf { trained111 with X := [[1], [0], [0]] } (fun x => x) [[1]] [[1]] =
      16 / 25 := by
    simp [rateOf, sqErr, outputOf, hiddenOf, trained111, at3, get3, at2, get2, at1, rowAt]
    norm_num
  have h2 : rateState { trained111 with X := [[1], [0], [0]] } (fun x => x) [[1]] [[1]] =
      trained111 := by
    simp [rateState, rowAt, forwardState, trained111, List.range_succ, outputOf, hiddenOf,
      at3, get3, at2, get2, at1]
  rw [h1, h2]

theorem net111_train :
    Train 1 net111 [[1]] [[1]] (1 / 5) 0 100 100000 false =
      Outcome.returned (16 / 25) 0 none trained111 [] := by
  have h1 : ¬ ((1 / 5 : ℚ) ≤ 0) := by norm_num
  have h2 : ¬ ((100 : ℚ) < 0) := by norm_num
  have h3 : (16 / 25 : ℚ) ≤ 100 := by norm_num
  simp only [Train, List.length_cons, List.length_nil, ne_eq, not_true_eq_false, if_false, h1,
    lt_irrefl, h2, TrainEpochs, TrainSets, Nat.zero_add, net111_update, h3, if_true]
  simp

theorem Train_success_postcondition_witness :
    (16 / 25 : ℚ) ≤ 100 ∧
    (∃ (m : FFN ℚ) (set : Nat) (inp out : List ℚ) (m1 m2 : FFN ℚ),
      ([[1]] : List (List ℚ))[set]? = some inp ∧
      ([[1]] : List (List ℚ))[set]? = some out ∧
      Forward m inp = some m1 ∧ Backward m1 out (1 / 5) 0 = some m2 ∧
      Rate m2 [[1]] [[1]] = some (16 / 25, trained111)) ∧
    ∃ n'', Rate trained111 [[1]] [[1]] = some (16 / 25, n'') :=
  Train_success_postcondition 1 net111 [[1]] [[1]] (1 / 5) 0 100 100000 false (16 / 25) 0
    trained111 [] net111_train

/-! ## When `Train` returns -/

theorem TrainSets_first (n0 : FFN α) (inputs outputs : List (List α)) (speed moment rate : α)
    (epoch ce : Int) (base s0 : Nat) (r0 : α) (m0 : FFN α)
    (hbase : base % inputs.length = 0) (hs0 : s0 < inputs.length)
    (hr0 : afterUpdates n0 inputs outputs speed moment (base + s0 + 1) = some (r0, m0))
    (hle : r0 ≤ rate) :
    ∀ (k set : Nat) (m : FFN α) (cr : α), set + k = inputs.length → set ≤ s0 →
      afterUpdates n0 inputs outputs speed moment (base + set) = some (cr, m) →
      (∀ i, set ≤ i → i < s0 → ¬ ce > epoch ∧ ∃ r m',
        afterUpdates n0 inputs outputs speed moment (base + i + 1) = some (r, m') ∧ rate < r) →
      TrainSets inputs outputs speed moment rate epoch ce set k m cr =
        Step.stop r0 ce none m0 := by
  intro k
  induction k with
  | zero => intro set m cr hset hle' _ _; omega
  | succ k ih =>
    intro set m cr hset hset' hm hstay
    have hlt : set < inputs.length := by omega
    have hmod : (base + set) % inputs.length = set := by
      rw [Nat.add_mod, hbase, zero_add, Nat.mod_mod, Nat.mod_eq_of_lt hlt]
    have hsu := afterUpdates_succ n0 inputs outputs speed moment (base + set) cr m hm
    rw [hmod] at hsu
    rcases Nat.eq_or_lt_of_le hset' with heq | hlt'
    · subst heq
      rw [hr0] at hsu
      simp only [TrainSets, ← hsu, hle, if_true]
    · obtain ⟨hce', r, m', hr, hrate⟩ := hstay set (le_refl _) hlt'
      rw [hr] at hsu
      simp only [TrainSets, ← hsu, not_le.mpr hrate, if_false, hce']
      exact ih (set + 1) m' r (by omega) (by omega) (by rw [← add_assoc]; exact hr)
        (fun i hi hi' => hstay i (by omega) hi')

theorem TrainEpochs_first (n0 : FFN α) (inputs outputs : List (List α))
    (speed moment rate : α) (epoch : Int) (log : Bool) (E : Nat) (hE : epoch = E)
    (hmax : epoch < maxInt) (c0 s0 : Nat) (hs0 : s0 < inputs.length)
    (hc0 : c0 ≤ E ∨ (c0 = E + 1 ∧ s0 = 0)) (r0 : α) (m0 : FFN α)
    (hr0 : afterUpdates n0 inputs outputs speed moment (c0 * inputs.length + s0 + 1) =
      some (r0, m0))
    (hle : r0 ≤ rate)
    (hstay : ∀ k, k < c0 * inputs.length + s0 → ∃ r m,
      afterUpdates n0 inputs outputs speed moment (k + 1) = some (r, m) ∧ rate < r) :
    ∀ (d c fuel : Nat) (m : FFN α) (cr : α) (tr : List (Int × α)), c + d = c0 →
      afterUpdates n0 inputs outputs speed moment (c * inputs.length) = some (cr, m) →
      d + 1 ≤ fuel →
      ∃ tr', TrainEpochs inputs outputs speed moment rate epoch log fuel (c : Int) m cr tr =
        Outcome.returned r0 (c0 : Int) none m0 tr' := by
  intro d
  induction d with
  | zero =>
    intro c fuel m cr tr hc hm hfuel
    obtain ⟨fuel, rfl⟩ : ∃ f, fuel = f + 1 := ⟨fuel - 1, by omega⟩
    have hcc : c = c0 := by omega
    subst hcc
    have ht := TrainSets_first n0 inputs outputs speed moment rate epoch (c : Int)
      (c * inputs.length) s0 r0 m0 (Nat.mul_mod_left _ _) hs0 hr0 hle inputs.length 0 m cr
      (by omega) (by omega) (by simpa using hm)
      (fun i _ hi => ⟨by rw [hE]; omega, hstay (c * inputs.length + i) (by omega)⟩)
    exact ⟨tr, by simp only [TrainEpochs, ht]⟩
  | succ d ih =>
    intro c fuel m cr tr hc hm hfuel
    obtain ⟨fuel, rfl⟩ : ∃ f, fuel = f + 1 := ⟨fuel - 1, by omega⟩
    have hcE : c ≤ E := by omega
    have hce : ¬ ((c : Int) > epoch) := by rw [hE]; omega
    have hcd : c + 1 + d = c0 := by omega
    have hfuel' : d + 1 ≤ fuel := by omega
    have hw : wrapInt ((c : Int) + 1) = ((c + 1 : Nat) : Int) := by
      rw [wrapInt_id _ (by omega) (by rw [hE] at hmax; omega)]; push_cast; rfl
    have hmul : (c + 1) * inputs.length = c * inputs.length + inputs.length := by ring
    have hbound : ∀ i, i < inputs.length → c * inputs.length + i < c0 * inputs.length + s0 := by
      intro i hi
      have h1 : (c + 1) * inputs.length ≤ c0 * inputs.length :=
        Nat.mul_le_mul_right _ (by omega)
      rw [hmul] at h1
      exact Nat.lt_of_lt_of_le (Nat.add_lt_add_left hi _) (Nat.le_trans h1 (Nat.le_add_right _ _))
    obtain ⟨r, m', hr, ht⟩ := TrainSets_next n0 inputs outputs speed moment rate epoch (c : Int)
      (c * inputs.length) (Nat.mul_mod_left _ _) hce inputs.length 0 m cr (Nat.zero_add _)
      hm (fun i _ hi => hstay (c * inputs.length + i) (hbound i hi))
    have hm' : afterUpdates n0 inputs outputs speed moment ((c + 1) * inputs.length) =
        some (r, m') :=
      (congrArg (afterUpdates n0 inputs outputs speed moment) hmul).trans hr
    obtain ⟨tr2, ht2⟩ := ih (c + 1) fuel m' r
      (if log then tr ++ [((c : Int), r)] else tr) hcd hm' hfuel'
    refine ⟨tr2, ?_⟩
    simp only [TrainEpochs, ht, hw]
    exact ht2

/-- A valid call of `Train` with a non-empty dataset and an epoch budget below the largest
`int` returns success at the first sample update whose rate is at most the target rate,
provided that update is among the first `(epoch+1)*N + 1`. -/
theorem Train_first_success (n : FFN α) (inputs outputs : List (List α))
    (speed moment rate : α) (epoch : Int) (log : Bool)
    (hlen : inputs.length = outputs.length) (hne : 0 < inputs.length)
    (hsp : 0 < speed) (hmo : 0 ≤ moment) (hra : 0 ≤ rate) (hep : 0 < epoch)
    (hmax : epoch < maxInt) (k0 : Nat) (hk0 : k0 ≤ (epoch.toNat + 1) * inputs.length)
    (r0 : α) (m0 : FFN α)
    (hr0 : afterUpdates n inputs outputs speed moment (k0 + 1) = some (r0, m0))
    (hle : r0 ≤ rate)
    (hstay : ∀ k, k < k0 → ∃ r m,
      afterUpdates n inputs outputs speed moment (k + 1) = some (r, m) ∧ rate < r) :
    ∀ fuel, k0 / inputs.length + 1 ≤ fuel → ∃ logged,
      Train fuel n inputs outputs speed moment rate epoch log =
        Outcome.returned r0 ((k0 / inputs.length : Nat) : Int) none m0 logged := by
  have hE : epoch = (epoch.toNat : Int) := (Int.toNat_of_nonneg (le_of_lt hep)).symm
  have hk : k0 / inputs.length * inputs.length + k0 % inputs.length = k0 :=
    Nat.div_add_mod' k0 inputs.length
  have hs0 : k0 % inputs.length < inputs.length := Nat.mod_lt _ hne
  have hc0 : k0 / inputs.length ≤ epoch.toNat ∨
      (k0 / inputs.length = epoch.toNat + 1 ∧ k0 % inputs.length = 0) := by
    have h1 : k0 / inputs.length ≤ epoch.toNat + 1 :=
      Nat.div_le_of_le_mul (by rw [Nat.mul_comm]; exact hk0)
    rcases Nat.lt_or_ge (k0 / inputs.length) (epoch.toNat + 1) with h | h
    · left; omega
    · right
      have h2 : k0 / inputs.length = epoch.toNat + 1 := by omega
      refine ⟨h2, ?_⟩
      rw [h2] at hk
      omega
  intro fuel hfuel
  obtain ⟨tr', ht⟩ := TrainEpochs_first n inputs outputs speed moment rate epoch log
    epoch.toNat hE hmax (k0 / inputs.length) (k0 % inputs.length) hs0 hc0 r0 m0
    ((congrArg (fun x => afterUpdates n inputs outputs speed moment (x + 1)) hk).trans hr0) hle
    (fun k hk' => hstay k (by omega))
    (k0 / inputs.length) 0 fuel n 0 [] (by omega) (by simp [afterUpdates]) hfuel
  refine ⟨tr', ?_⟩
  unfold Train
  rw [if_neg (not_not.mpr hlen)]
  simp only [if_false, not_le.mpr hsp, not_lt.mpr hmo, not_lt.mpr hra, not_le.mpr hep]
  simpa using ht

/-- A valid call of `Train` with a non-empty dataset and an epoch budget below the largest
`int`, none of whose first `(epoch+1)*N + 1` sample updates panics, returns: with success or
with `EpochBudgetExceeded`. -/
theorem Train_returns (n : FFN α) (inputs outputs : List (List α))
    (speed moment rate : α) (epoch : Int) (log : Bool)
    (hlen : inputs.length = outputs.length) (hne : 0 < inputs.length)
    (hsp : 0 < speed) (hmo : 0 ≤ moment) (hra : 0 ≤ rate) (hep : 0 < epoch)
    (hmax : epoch < maxInt)
    (hok : ∀ k, k ≤ (epoch.toNat + 1) * inputs.length → ∃ r m,
      afterUpdates n inputs outputs speed moment (k + 1) = some (r, m)) :
    ∃ fuel r e err m logged,
      Train fuel n inputs outputs speed moment rate epoch log =
        Outcome.returned r e err m logged ∧
      (err = none ∨ err = some TrainError.EpochBudgetExceeded) := by
  classical
  by_cases hex : ∃ k, k ≤ (epoch.toNat + 1) * inputs.length ∧ ∃ r m,
      afterUpdates n inputs outputs speed moment (k + 1) = some (r, m) ∧ r ≤ rate
  · obtain ⟨hk0, r0, m0, hr0, hle⟩ := Nat.find_spec hex
    have hmin : ∀ k, k < Nat.find hex → ∃ r m,
        afterUpdates n inputs outputs speed moment (k + 1) = some (r, m) ∧ rate < r := by
      intro k hk
      obtain ⟨r, m, hr⟩ := hok k (by omega)
      refine ⟨r, m, hr, ?_⟩
      by_contra hc
      exact Nat.find_min hex hk ⟨by omega, r, m, hr, not_lt.mp hc⟩
    obtain ⟨logged, ht⟩ := Train_first_success n inputs outputs speed moment rate epoch log
      hlen hne hsp hmo hra hep hmax (Nat.find hex) hk0 r0 m0 hr0 hle hmin _ (le_refl _)
    exact ⟨_, _, _, _, _, _, ht, Or.inl rfl⟩
  · have hstay : ∀ k, k ≤ (epoch.toNat + 1) * inputs.length → ∃ r m,
        afterUpdates n inputs outputs speed moment (k + 1) = some (r, m) ∧ rate < r := by
      intro k hk
      obtain ⟨r, m, hr⟩ := hok k hk
      refine ⟨r, m, hr, ?_⟩
      by_contra hc
      exact hex ⟨k, hk, r, m, hr, not_lt.mp hc⟩
    have hE : epoch = (epoch.toNat : Int) := (Int.toNat_of_nonneg (le_of_lt hep)).symm
    obtain ⟨r', m', tr', _, ht⟩ := TrainEpochs_budget n inputs outputs speed moment rate epoch
      log epoch.toNat hE hmax hne hstay (epoch.toNat + 1) 0 (epoch.toNat + 2) n 0 []
      (by omega) (by simp [afterUpdates]) (by omega)
    refine ⟨epoch.toNat + 2, r', epoch + 1, _, m', tr', ?_, Or.inr rfl⟩
    unfold Train
    simp only [hlen, ne_eq, not_true_eq_false, if_false, not_le.mpr hsp, not_lt.mpr hmo,
      not_lt.mpr hra, not_le.mpr hep]
    simpa using ht

/-! ## Claims C11, C13, C14: construction -/

/-- The network that `NewFFN` builds once its arguments are accepted and the activation
pair is chosen. -/
theorem NewFFN_ok (exp : α → α) (rnd : Nat → α) (i o h : Int)
    (f : Option (List (Option (α → α)))) (hi : 1 ≤ i) (ho : 1 ≤ o) (hh : 1 ≤ h)
    (hf : ∀ l, f = some l → l.length = 2) :
    ∃ n, NewFFN exp rnd i o h f = Except.ok n ∧
      n.InputNeurons = i ∧ n.HiddenNeurons = h ∧ n.OutputNeurons = o ∧
      Shaped n i.toNat h.toNat o.toNat ∧
      n.F = activationPair exp f := by
  have h4 : ¬ (f.isSome ∧ (f.getD []).length ≠ 2) := by
    rintro ⟨h1, h2⟩
    cases f with
    | none => simp at h1
    | some l => exact h2 (by simpa using hf l rfl)
  unfold NewFFN
  rw [if_neg (not_lt.mpr hi), if_neg (not_lt.mpr ho), if_neg (not_lt.mpr hh), if_neg h4]
  refine ⟨_, rfl, rfl, rfl, rfl, ?_, rfl⟩
  refine ⟨?_, ?_, ?_, ?_, ?_, ?_, ?_, ?_⟩
  · exact (Int.toNat_of_nonneg (le_trans zero_le_one hi)).symm
  · exact (Int.toNat_of_nonneg (le_trans zero_le_one hh)).symm
  · exact (Int.toNat_of_nonneg (le_trans zero_le_one ho)).symm
  · simp
  · simp
  · simp
  · simp [table_shape]
  · simp [table_shape]

/-- Claim C11: `NewFFN` returns an error when some neuron count is less than 1 or the
activation list is supplied with a length other than 2, and in every other case returns a
network whose `InputNeurons`, `HiddenNeurons` and `OutputNeurons` are the first, third and
second argument. -/
theorem NewFFN_fails_exactly_on_invalid_arguments (exp : α → α) (rnd : Nat → α)
    (inputNeurons outputNeurons hiddenNeurons : Int) (f : Option (List (Option (α → α)))) :
    ((inputNeurons < 1 ∨ outputNeurons < 1 ∨ hiddenNeurons < 1 ∨
        ∃ l, f = some l ∧ l.length ≠ 2) →
      ∃ e, NewFFN exp rnd inputNeurons outputNeurons hiddenNeurons f = Except.error e) ∧
    (¬ (inputNeurons < 1 ∨ outputNeurons < 1 ∨ hiddenNeurons < 1 ∨
        ∃ l, f = some l ∧ l.length ≠ 2) →
      ∃ n, NewFFN exp rnd inputNeurons outputNeurons hiddenNeurons f = Except.ok n ∧
        n.InputNeurons = inputNeurons ∧ n.HiddenNeurons = hiddenNeurons ∧
        n.OutputNeurons = outputNeurons) := by
  constructor
  · intro hbad
    unfold NewFFN
    by_cases h1 : inputNeurons < 1
    · exact ⟨_, by rw [if_pos h1]⟩
    rw [if_neg h1]
    by_cases h2 : outputNeurons < 1
    · exact ⟨_, by rw [if_pos h2]⟩
    rw [if_neg h2]
    by_cases h3 : hiddenNeurons < 1
    · exact ⟨_, by rw [if_pos h3]⟩
    rw [if_neg h3]
    have h4 : f.isSome ∧ (f.getD []).length ≠ 2 := by
      rcases hbad with h | h | h | ⟨l, rfl, hl⟩
      · exact absurd h h1
      · exact absurd h h2
      · exact absurd h h3
      · exact ⟨rfl, by simpa using hl⟩
    exact ⟨_, by rw [if_pos h4]⟩
  · intro hgood
    simp only [not_or, not_lt, not_exists, not_and, not_not] at hgood
    obtain ⟨n, hn, h1, h2, h3, _⟩ := NewFFN_ok exp rnd inputNeurons outputNeurons
      hiddenNeurons f hgood.1 hgood.2.1 hgood.2.2.1 hgood.2.2.2
    exact ⟨n, hn, h1, h2, h3⟩

theorem NewFFN_fails_exactly_on_invalid_arguments_witness :
    (∃ e, NewFFN (fun _ => (1 : ℚ)) (fun _ => 0) 3 0 0 none = Except.error e) ∧
    (∃ n, NewFFN (fun _ => (1 : ℚ)) (fun _ => 0) 3 2 1 none = Except.ok n ∧
      n.InputNeurons = 3 ∧ n.HiddenNeurons = 1 ∧ n.OutputNeurons = 2) :=
  ⟨(NewFFN_fails_exactly_on_invalid_arguments (fun _ => (1 : ℚ)) (fun _ => 0) 3 0 0 none).1
      (Or.inr (Or.inl (by decide))),
   (NewFFN_fails_exactly_on_invalid_arguments (fun _ => (1 : ℚ)) (fun _ => 0) 3 2 1 none).2
      (by simp)⟩

/-- Claim C13: for a valid topology, when no activation list is supplied, or a supplied
2-element list has its first or its second slot unset, `NewFFN` returns a network whose
pair is `DefaultF`, `DefaultDF`; when both slots are set it returns a network with exactly
the supplied pair. -/
theorem NewFFN_default_substitution (exp : α → α) (rnd : Nat → α)
    (inputNeurons outputNeurons hiddenNeurons : Int) (f : Option (List (Option (α → α))))
    (hi : 1 ≤ inputNeurons) (ho : 1 ≤ outputNeurons) (hh : 1 ≤ hiddenNeurons) :
    ((f = none ∨ ∃ a b, f = some [a, b] ∧ (a = none ∨ b = none)) →
      ∃ n, NewFFN exp rnd inputNeurons outputNeurons hiddenNeurons f = Except.ok n ∧
        n.F = [some (DefaultF exp), some DefaultDF]) ∧
    (∀ a b, f = some [some a, some b] →
      ∃ n, NewFFN exp rnd inputNeurons outputNeurons hiddenNeurons f = Except.ok n ∧
        n.F = [some a, some b]) := by
  constructor
  · rintro (rfl | ⟨a, b, rfl, hab⟩)
    · obtain ⟨n, hn, _, _, _, _, hF⟩ := NewFFN_ok exp rnd inputNeurons outputNeurons
        hiddenNeurons none hi ho hh (by simp)
      exact ⟨n, hn, by rw [hF]; simp [activationPair, isNilAt]⟩
    · obtain ⟨n, hn, _, _, _, _, hF⟩ := NewFFN_ok exp rnd inputNeurons outputNeurons
        hiddenNeurons (some [a, b]) hi ho hh (by simp)
      refine ⟨n, hn, ?_⟩
      rw [hF]
      rcases hab with rfl | rfl
      · simp [activationPair, isNilAt]
      · cases a <;> simp [activationPair, isNilAt]
  · rintro a b rfl
    obtain ⟨n, hn, _, _, _, _, hF⟩ := NewFFN_ok exp rnd inputNeurons outputNeurons
      hiddenNeurons (some [some a, some b]) hi ho hh (by simp)
    exact ⟨n, hn, by rw [hF]; simp [activationPair, isNilAt]⟩

theorem NewFFN_default_substitution_witness :
    (∃ n, NewFFN (fun _ => (1 : ℚ)) (fun _ => 0) 2 1 4 (some [some (fun x : ℚ => x), none]) =
        Except.ok n ∧
      n.F = [some (DefaultF fun _ => (1 : ℚ)), some DefaultDF]) ∧
    (∃ n, NewFFN (fun _ => (1 : ℚ)) (fun _ => 0) 2 1 4
          (some [some (fun x : ℚ => x), some (fun _ : ℚ => (1 : ℚ))]) = Except.ok n ∧
      n.F = [some (fun x : ℚ => x), some (fun _ : ℚ => (1 : ℚ))]) :=
  ⟨(NewFFN_default_substitution (fun _ => (1 : ℚ)) (fun _ => 0) 2 1 4
      (some [some (fun x : ℚ => x), none]) (by decide) (by decide) (by decide)).1
      (Or.inr ⟨_, _, rfl, Or.inr rfl⟩),
   (NewFFN_default_substitution (fun _ => (1 : ℚ)) (fun _ => 0) 2 1 4
      (some [some (fun x : ℚ => x), some (fun _ : ℚ => (1 : ℚ))]) (by decide) (by decide)
      (by decide)).2 _ _ rfl⟩

/-- Claim C14, counterexample: for the topology 1-1-1 and a 2-element list whose first slot
is set and whose second slot is unset, `NewFFN` returns a network, not an error. -/
theorem NewFFN_accepts_partial_pair :
    ∃ n, NewFFN (fun _ => (1 : ℚ)) (fun _ => 0) 1 1 1 (some [some (fun x : ℚ => x), none]) =
      Except.ok n :=
  (NewFFN_ok (fun _ => (1 : ℚ)) (fun _ => 0) 1 1 1 (some [some (fun x : ℚ => x), none])
    (by decide) (by decide) (by decide) (by simp)).imp fun _ h => h.1

/-- Claim C14, amended: for a valid topology and a supplied 2-element activation list in
which exactly one of the two slots is set, `NewFFN` returns no error: it returns a network
that uses `DefaultF` and `DefaultDF`, the one supplied function being discarded. -/
theorem NewFFN_partial_pair_falls_back (exp : α → α) (rnd : Nat → α)
    (inputNeurons outputNeurons hiddenNeurons : Int) (a b : Option (α → α))
    (hi : 1 ≤ inputNeurons) (ho : 1 ≤ outputNeurons) (hh : 1 ≤ hiddenNeurons)
    (hab : (a.isSome ∧ b = none) ∨ (a = none ∧ b.isSome)) :
    ∃ n, NewFFN exp rnd inputNeurons outputNeurons hiddenNeurons (some [a, b]) = Except.ok n ∧
      n.F = [some (DefaultF exp), some DefaultDF] := by
  obtain ⟨n, hn, _, _, _, _, hF⟩ := NewFFN_ok exp rnd inputNeurons outputNeurons
    hiddenNeurons (some [a, b]) hi ho hh (by simp)
  refine ⟨n, hn, ?_⟩
  rw [hF]
  rcases hab with ⟨_, rfl⟩ | ⟨rfl, _⟩
  · cases a <;> simp [activationPair, isNilAt]
  · simp [activationPair, isNilAt]

theorem NewFFN_partial_pair_falls_back_witness :
    ∃ n, NewFFN (fun _ => (1 : ℚ)) (fun _ => 0) 1 1 1 (some [some (fun x : ℚ => x), none]) =
        Except.ok n ∧
      n.F = [some (DefaultF fun _ => (1 : ℚ)), some DefaultDF] :=
  NewFFN_partial_pair_falls_back (fun _ => (1 : ℚ)) (fun _ => 0) 1 1 1
    (some (fun x : ℚ => x)) none (by decide) (by decide) (by decide) (Or.inl ⟨rfl, rfl⟩)

/-! ## Claim C20: the default activation pair -/

theorem DefaultF_pos (exp : α → α) (hexp : ∀ y, 0 < exp y) (x : α) : 0 < DefaultF exp x := by
  unfold DefaultF
  have := hexp (-x)
  positivity

theorem DefaultF_lt_one (exp : α → α) (hexp : ∀ y, 0 < exp y) (x : α) :
    DefaultF exp x < 1 := by
  unfold DefaultF
  have h := hexp (-x)
  rw [div_lt_one (by linarith)]
  linarith

/-- Claim C20: for every real `x`, the function `DefaultF` (with the real exponential for
`math.Exp`) has at `x` the derivative `DefaultDF (DefaultF x)`, and `0 < DefaultF x < 1`. -/
theorem DefaultDF_is_derivative_through_output (x : ℝ) :
    HasDerivAt (DefaultF Real.exp) (DefaultDF (DefaultF Real.exp x)) x ∧
      0 < DefaultF Real.exp x ∧ DefaultF Real.exp x < 1 := by
  refine ⟨?_, DefaultF_pos Real.exp Real.exp_pos x, DefaultF_lt_one Real.exp Real.exp_pos x⟩
  have hpos : (1 : ℝ) + Real.exp (-x) ≠ 0 := by positivity
  have h1 : HasDerivAt (fun y : ℝ => Real.exp (-y)) (-Real.exp (-x)) x := by
    have := (Real.hasDerivAt_exp (-x)).comp x (hasDerivAt_neg x)
    simpa [Function.comp] using this
  have h2 : HasDerivAt (fun y : ℝ => 1 + Real.exp (-y)) (-Real.exp (-x)) x :=
    h1.const_add 1
  have h3 := (hasDerivAt_const x (1 : ℝ)).div h2 hpos
  have e : DefaultDF (DefaultF Real.exp x) =
      (0 * (1 + Real.exp (-x)) - 1 * -Real.exp (-x)) / (1 + Real.exp (-x)) ^ 2 := by
    unfold DefaultDF DefaultF
    field_simp
    ring
  rw [e]
  exact h3

/-! ## Claims C15, C16, C19: reading and persistence -/

/-- The method `Read` in closed form. -/
theorem Read_eq (n : FFN α) (I H O : Nat) (f : α → α) (input : List α)
    (hs : Shaped n I H O) (hF : n.F[0]? = some (some f)) (hin : input.length = I) :
    Read n input =
      some ((List.range O).map (outputOf n f input), forwardState n f input) := by
  unfold Read
  rw [Forward_eq n I H O f input hs hF hin]
  simp [forwardState, hs.2.2.1]

/-- Claim C15: for a well-formed network and an input of length `InputNeurons`, two calls
of `Read` with that input in a row return the same output vector, and leave biases, weights
and weight deltas as they were. -/
theorem Read_twice_same_output (n : FFN α) (I H O : Nat) (f : α → α) (input : List α)
    (hs : Shaped n I H O) (hF : n.F[0]? = some (some f)) (hin : input.length = I) :
    ∃ out n1 n2, Read n input = some (out, n1) ∧ Read n1 input = some (out, n2) ∧
      n1.B = n.B ∧ n1.W = n.W ∧ n1.DW = n.DW ∧ n2.B = n.B ∧ n2.W = n.W ∧ n2.DW = n.DW := by
  have hs1 := forwardState_shaped n I H O f input hs hin
  refine ⟨(List.range O).map (outputOf n f input), forwardState n f input,
    forwardState n f input, Read_eq n I H O f input hs hF hin, ?_, rfl, rfl, rfl, rfl, rfl, rfl⟩
  rw [Read_eq (forwardState n f input) I H O f input hs1 hF hin]
  rfl

theorem Read_twice_same_output_witness :
    ∃ out n1 n2, Read net121 [3] = some (out, n1) ∧ Read n1 [3] = some (out, n2) ∧
      n1.B = net121.B ∧ n1.W = net121.W ∧ n1.DW = net121.DW ∧
      n2.B = net121.B ∧ n2.W = net121.W ∧ n2.DW = net121.DW :=
  Read_twice_same_output net121 1 2 1 (fun x => x) [3] (by decide) rfl rfl

/-- When `json.Marshal` succeeds, the file can be written and `json.Unmarshal` reads the
record back from the text, `Dump` followed by `FromFile` restores topology, biases, weights
and weight deltas and keeps the rest of the loading network. -/
theorem Dump_FromFile_of_codec {β : Type} (encode : Record α → Option β)
    (decode : β → Option (Option (Record α))) (m n : FFN α) (filename : String)
    (fs : Files β) (b : β) (henc : encode (toRecord m) = some b)
    (hdec : decode b = some (some (toRecord m))) (hw : fs.writable filename = true) :
    (Dump encode m filename fs).2 = none ∧
    ∃ n', FromFile decode n filename (Dump encode m filename fs).1 = some (Except.ok n') ∧
      n'.InputNeurons = m.InputNeurons ∧ n'.HiddenNeurons = m.HiddenNeurons ∧
      n'.OutputNeurons = m.OutputNeurons ∧ n'.B = m.B ∧ n'.W = m.W ∧ n'.DW = m.DW ∧
      n'.F = n.F ∧ n'.X = n.X ∧ n'.E = n.E := by
  unfold Dump
  simp only [hw, if_true, henc]
  refine ⟨trivial, ?_⟩
  unfold FromFile
  simp only [if_true, hdec]
  exact ⟨_, rfl, rfl, rfl, rfl, rfl, rfl, rfl, rfl, rfl, rfl⟩

/-- Claim C16, at the failing input: the well-formed 1-1-1 network `nanNet` has the weight
`W[0][0][0] = NaN`, so `json.Marshal` fails on it.  `Dump` nevertheless returns no error and
leaves a file without bytes, and `FromFile` of that file fails for every loading network,
whatever `json.Unmarshal` does on texts. -/
theorem Dump_hides_marshal_failure :
    WellFormed nanNet ∧ marshal (toRecord nanNet) = none ∧
    (Dump marshal nanNet dumpName emptyFiles).2 = none ∧
    (Dump marshal nanNet dumpName emptyFiles).1.content dumpName = some Bytes.empty ∧
    ∀ (decode : Record F64 → Option (Option (Record F64))) (n : FFN F64),
      FromFile decode n dumpName (Dump marshal nanNet dumpName emptyFiles).1 =
        some (Except.error PersistError.ParseError) := by
  refine ⟨by decide, rfl, rfl, rfl, ?_⟩
  intro decode n
  rfl

/-- Claim C19, at the failing input: the 1-2-1 network `net121` loads the record dumped from
the 1-1-1 network `net111` (both well-formed).  The load succeeds and sets the topology
1-1-1, but the activation and error arrays keep the old lengths, so the network is not
well-formed, and `Forward` with an input of the new length 1 panics (it reads `B[0][1]`). -/
theorem FromFile_keeps_stale_activations :
    WellFormed net121 ∧ WellFormed net111 ∧
    ∃ n', FromFile (fun r => some (some r)) net121 dumpName
        (Dump (fun r => some r) net111 dumpName emptyFiles).1 = some (Except.ok n') ∧
      n'.InputNeurons = 1 ∧ n'.HiddenNeurons = 1 ∧ n'.OutputNeurons = 1 ∧
      n'.X.map List.length = [1, 2, 1] ∧ ¬ WellFormed n' ∧ Forward n' [0] = none := by
  refine ⟨by decide, by decide, _, rfl, rfl, rfl, rfl, by decide, by decide, ?_⟩
  simp [Forward, forRange, loopFrom, set1, set2, get2, get3, callF, net121, net111, toRecord]

/-! ## Claim C12: the shape invariant -/

theorem Shaped.kept {n n' : FFN α} {I H O : Nat} (h : Shaped n I H O) (h' : Shaped n' I H O) :
    Kept n n' :=
  ⟨h'.wellFormed, h'.1.trans h.1.symm, h'.2.1.trans h.2.1.symm, h'.2.2.1.trans h.2.2.1.symm⟩

/-- One sample update of `Train` on a well-formed network with an activation pair returns a
well-formed network with the same topology and pair. -/
theorem sampleUpdate_shaped (n : FFN α) (I H O : Nat) (f df : α → α)
    (inputs outputs : List (List α)) (speed moment : α) (set : Nat)
    (hs : Shaped n I H O) (hF0 : n.F[0]? = some (some f)) (hF1 : n.F[1]? = some (some df))
    (hlen : inputs.length = outputs.length)
    (hin : ∀ inp ∈ inputs, inp.length = I) (hout : ∀ out ∈ outputs, out.length = O)
    (hset : set < inputs.length) :
    ∃ r n', sampleUpdate n inputs outputs speed moment set = some (r, n') ∧
      Shaped n' I H O ∧ n'.F = n.F := by
  have hset' : set < outputs.length := hlen ▸ hset
  have hI := hin _ (rowAt_mem inputs set hset)
  have hO := hout _ (rowAt_mem outputs set hset')
  have hs1 := forwardState_shaped n I H O f (rowAt inputs set) hs hI
  have hs2 := backwardState_shaped (forwardState n f (rowAt inputs set)) I H O df
    (rowAt outputs set) speed moment hs1
  have hR := Rate_eq (backwardState (forwardState n f (rowAt inputs set)) df
    (rowAt outputs set) speed moment) I H O f inputs outputs hs2 hF0 (le_of_eq hlen.symm)
    (fun s h => hin _ (rowAt_mem inputs s (hlen ▸ h)))
    (fun s h => hout _ (rowAt_mem outputs s h))
  refine ⟨rateOf (backwardState (forwardState n f (rowAt inputs set)) df
      (rowAt outputs set) speed moment) f inputs outputs,
    rateState (backwardState (forwardState n f (rowAt inputs set)) df
      (rowAt outputs set) speed moment) f inputs outputs, ?_,
    rateState_shaped _ I H O f inputs outputs hs2
      (fun s h => hin _ (rowAt_mem inputs s (hlen ▸ h))), ?_⟩
  · unfold sampleUpdate
    rw [rowAt_eq inputs set hset, Option.some_bind, Forward_eq n I H O f _ hs hF0 hI,
      Option.some_bind, rowAt_eq outputs set hset', Option.some_bind,
      Backward_eq _ I H O df _ speed moment hs1 hF1 hO, Option.some_bind]
    exact hR
  · unfold rateState
    split_ifs <;> rfl

theorem TrainSets_shaped (I H O : Nat) (f df : α → α) (inputs outputs : List (List α))
    (speed moment rate : α) (epoch currentEpoch : Int)
    (hlen : inputs.length = outputs.length)
    (hin : ∀ inp ∈ inputs, inp.length = I) (hout : ∀ out ∈ outputs, out.length = O)
    (k : Nat) : ∀ (set : Nat) (n : FFN α) (r : α), set + k ≤ inputs.length →
      Shaped n I H O ∧ n.F[0]? = some (some f) ∧ n.F[1]? = some (some df) →
      (TrainSets inputs outputs speed moment rate epoch currentEpoch set k n r).All
        (fun n' => Shaped n' I H O ∧ n'.F[0]? = some (some f) ∧ n'.F[1]? = some (some df)) := by
  induction k with
  | zero =>
    intro set n r _ hn
    exact hn
  | succ k ih =>
    intro set n r hk hn
    obtain ⟨r', n', hu, hs', hF'⟩ := sampleUpdate_shaped n I H O f df inputs outputs speed
      moment set hn.1 hn.2.1 hn.2.2 hlen hin hout (by omega)
    have hn' : Shaped n' I H O ∧ n'.F[0]? = some (some f) ∧ n'.F[1]? = some (some df) :=
      ⟨hs', hF' ▸ hn.2.1, hF' ▸ hn.2.2⟩
    unfold TrainSets
    rw [hu]
    dsimp only
    split_ifs
    · exact hn'
    · exact hn'
    · exact ih (set + 1) n' r' (by omega) hn'

theorem TrainEpochs_shaped (I H O : Nat) (f df : α → α) (inputs outputs : List (List α))
    (speed moment rate : α) (epoch : Int) (log : Bool)
    (hlen : inputs.length = outputs.length)
    (hin : ∀ inp ∈ inputs, inp.length = I) (hout : ∀ out ∈ outputs, out.length = O)
    (fuel : Nat) : ∀ (currentEpoch : Int) (n : FFN α) (r : α) (logged : List (Int × α)),
      Shaped n I H O ∧ n.F[0]? = some (some f) ∧ n.F[1]? = some (some df) →
      (TrainEpochs inputs outputs speed moment rate epoch log fuel currentEpoch n r logged).All
        (fun n' => Shaped n' I H O ∧ n'.F[0]? = some (some f) ∧ n'.F[1]? = some (some df)) := by
  induction fuel with
  | zero =>
    intro _ _ _ _ _
    trivial
  | succ fuel ih =>
    intro currentEpoch n r logged hn
    have h := TrainSets_shaped I H O f df inputs outputs speed moment rate epoch currentEpoch
      hlen hin hout inputs.length 0 n r (by omega) hn
    unfold TrainEpochs
    cases hT : TrainSets inputs outputs speed moment rate epoch currentEpoch 0 inputs.length n r with
    | panic => rw [hT] at h; exact h.elim
    | stop r' e err n' => rw [hT] at h; exact h
    | next n' r' => rw [hT] at h; exact ih _ n' r' _ h

/-- The method `Train` on a well-formed network with an activation pair and datasets of
right-length vectors never panics, and when it returns it leaves a well-formed network of
the same topology and pair. -/
theorem Train_shaped (fuel : Nat) (n : FFN α) (I H O : Nat) (f df : α → α)
    (inputs outputs : List (List α)) (speed moment rate : α) (epoch : Int) (log : Bool)
    (hn : Shaped n I H O ∧ n.F[0]? = some (some f) ∧ n.F[1]? = some (some df))
    (hin : ∀ inp ∈ inputs, inp.length = I) (hout : ∀ out ∈ outputs, out.length = O) :
    (Train fuel n inputs outputs speed moment rate epoch log).All
      (fun n' => Shaped n' I H O ∧ n'.F[0]? = some (some f) ∧ n'.F[1]? = some (some df)) := by
  unfold Train
  split_ifs with h1 h2 h3 h4 h5
  · exact hn
  · exact hn
  · exact hn
  · exact hn
  · exact hn
  · exact TrainEpochs_shaped I H O f df inputs outputs speed moment rate epoch log
      (not_not.mp h1) hin hout fuel 0 n 0 [] hn

theorem Outcome.All_mono {P Q : FFN α → Prop} (h : ∀ n, P n → Q n) (o : Outcome α)
    (ho : o.All P) : o.All Q := by
  cases o with
  | returned r e err n l => exact h n ho
  | panicked => exact ho
  | running => trivial

theorem NewFFN_wellFormed (exp : α → α) (rnd : Nat → α) (i o h : Int)
    (f : Option (List (Option (α → α)))) (n : FFN α)
    (hn : NewFFN exp rnd i o h f = Except.ok n) :
    WellFormed n ∧ n.InputNeurons = i ∧ n.HiddenNeurons = h ∧ n.OutputNeurons = o ∧
      (∃ a b, n.F = [some a, some b]) := by
  have hi : 1 ≤ i := by
    by_contra hc
    rw [NewFFN, if_pos (not_le.mp hc)] at hn
    cases hn
  have ho : 1 ≤ o := by
    by_contra hc
    rw [NewFFN, if_neg (not_lt.mpr hi), if_pos (not_le.mp hc)] at hn
    cases hn
  have hh : 1 ≤ h := by
    by_contra hc
    rw [NewFFN, if_neg (not_lt.mpr hi), if_neg (not_lt.mpr ho), if_pos (not_le.mp hc)] at hn
    cases hn
  have hf : ∀ l, f = some l → l.length = 2 := by
    intro l hl
    by_contra hc
    have h4 : f.isSome ∧ (f.getD []).length ≠ 2 := by
      subst hl
      exact ⟨rfl, by simpa using hc⟩
    rw [NewFFN, if_neg (not_lt.mpr hi), if_neg (not_lt.mpr ho), if_neg (not_lt.mpr hh),
      if_pos h4] at hn
    cases hn
  obtain ⟨m, hm, h1, h2, h3, hs, hF⟩ := NewFFN_ok exp rnd i o h f hi ho hh hf
  rw [hn] at hm
  cases hm
  refine ⟨hs.wellFormed, h1, h2, h3, ?_⟩
  rw [hF]
  unfold activationPair
  cases f with
  | none => exact ⟨DefaultF exp, DefaultDF, by simp [isNilAt]⟩
  | some l =>
    have hl := hf l rfl
    match l, hl with
    | [a, b], _ =>
      cases a with
      | none => exact ⟨DefaultF exp, DefaultDF, by simp [isNilAt]⟩
      | some a =>
        cases b with
        | none => exact ⟨DefaultF exp, DefaultDF, by simp [isNilAt]⟩
        | some b => exact ⟨a, b, by simp [isNilAt]⟩

/-- Claim C12: every network returned by a successful `NewFFN` is well-formed (and has an
activation pair); and on a well-formed network with an activation pair, `Forward` with an
input of length `InputNeurons`, `Backward` with a target of length `OutputNeurons`, `Rate`
and `Train` with datasets of such vectors, and `Read`, run without a panic and leave a
well-formed network with the same topology (for `Train`: whenever it returns). -/
theorem shape_invariant_kept (n : FFN α) (f df : α → α) (hn : WellFormed n)
    (hF0 : n.F[0]? = some (some f)) (hF1 : n.F[1]? = some (some df)) :
    (∀ (exp : α → α) (rnd : Nat → α) (i o h : Int) (g : Option (List (Option (α → α))))
        (m : FFN α), NewFFN exp rnd i o h g = Except.ok m →
        WellFormed m ∧ ∃ a b, m.F = [some a, some b]) ∧
    (∀ input : List α, (input.length : Int) = n.InputNeurons →
      ∃ n', Forward n input = some n' ∧ Kept n n') ∧
    (∀ (target : List α) (speed moment : α), (target.length : Int) = n.OutputNeurons →
      ∃ n', Backward n target speed moment = some n' ∧ Kept n n') ∧
    (∀ inputs outputs : List (List α), inputs.length = outputs.length →
      (∀ inp ∈ inputs, (inp.length : Int) = n.InputNeurons) →
      (∀ out ∈ outputs, (out.length : Int) = n.OutputNeurons) →
      ∃ r n', Rate n inputs outputs = some (r, n') ∧ Kept n n') ∧
    (∀ input : List α, (input.length : Int) = n.InputNeurons →
      ∃ out n', Read n input = some (out, n') ∧ Kept n n') ∧
    (∀ (fuel : Nat) (inputs outputs : List (List α)) (speed moment rate : α) (epoch : Int)
        (log : Bool),
      (∀ inp ∈ inputs, (inp.length : Int) = n.InputNeurons) →
      (∀ out ∈ outputs, (out.length : Int) = n.OutputNeurons) →
      (Train fuel n inputs outputs speed moment rate epoch log).All (Kept n)) := by
  have hs : Shaped n n.InputNeurons.toNat n.HiddenNeurons.toNat n.OutputNeurons.toNat := hn
  have cI : ∀ l : List α, (l.length : Int) = n.InputNeurons → l.length = n.InputNeurons.toNat :=
    fun l h => by rw [← h]; rfl
  have cO : ∀ l : List α, (l.length : Int) = n.OutputNeurons →
      l.length = n.OutputNeurons.toNat := fun l h => by rw [← h]; rfl
  refine ⟨?_, ?_, ?_, ?_, ?_, ?_⟩
  · intro exp rnd i o h g m hm
    have := NewFFN_wellFormed exp rnd i o h g m hm
    exact ⟨this.1, this.2.2.2.2⟩
  · intro input hin
    exact ⟨_, Forward_eq n _ _ _ f input hs hF0 (cI _ hin),
      hs.kept (forwardState_shaped n _ _ _ f input hs (cI _ hin))⟩
  · intro target speed moment hout
    exact ⟨_, Backward_eq n _ _ _ df target speed moment hs hF1 (cO _ hout),
      hs.kept (backwardState_shaped n _ _ _ df target speed moment hs)⟩
  · intro inputs outputs hlen hin hout
    have hin' : ∀ s, s < outputs.length → (rowAt inputs s).length = n.InputNeurons.toNat :=
      fun s h => cI _ (hin _ (rowAt_mem inputs s (hlen ▸ h)))
    exact ⟨_, _, Rate_eq n _ _ _ f inputs outputs hs hF0 (le_of_eq hlen.symm) hin'
      (fun s h => cO _ (hout _ (rowAt_mem outputs s h))),
      hs.kept (rateState_shaped n _ _ _ f inputs outputs hs hin')⟩
  · intro input hin
    exact ⟨_, _, Read_eq n _ _ _ f input hs hF0 (cI _ hin),
      hs.kept (forwardState_shaped n _ _ _ f input hs (cI _ hin))⟩
  · intro fuel inputs outputs speed moment rate epoch log hin hout
    exact Outcome.All_mono (fun n' h => hs.kept h.1) _
      (Train_shaped fuel n _ _ _ f df inputs outputs speed moment rate epoch log
        ⟨hs, hF0, hF1⟩ (fun inp h => cI _ (hin inp h)) (fun out h => cO _ (hout out h)))

theorem shape_invariant_kept_witness :
    WellFormed net121 ∧ (∃ n', Forward net121 [3] = some n' ∧ Kept net121 n') ∧
      (∃ n', Backward net121 [1] 1 0 = some n' ∧ Kept net121 n') ∧
      (∃ out n', Read net121 [3] = some (out, n') ∧ Kept net121 n') ∧
      (Train 5 net121 [[3]] [[1]] 1 0 0 2 true).All (Kept net121) :=
  ⟨by decide,
    (shape_invariant_kept net121 (fun x => x) (fun _ => 1) (by decide) rfl rfl).2.1 [3] rfl,
    (shape_invariant_kept net121 (fun x => x) (fun _ => 1) (by decide) rfl rfl).2.2.1
      [1] 1 0 rfl,
    (shape_invariant_kept net121 (fun x => x) (fun _ => 1) (by decide) rfl rfl).2.2.2.2.1
      [3] rfl,
    (shape_invariant_kept net121 (fun x => x) (fun _ => 1) (by decide) rfl rfl).2.2.2.2.2
      5 [[3]] [[1]] 1 0 0 2 true (by simp [net121]) (by simp [net121])⟩

/-! ## Claim C17: a target rate of at least the output width -/

theorem at2_unit (a : List (List α)) (i j : Nat)
    (h : ∀ row ∈ a, ∀ y ∈ row, 0 ≤ y ∧ y ≤ 1) : 0 ≤ at2 a i j ∧ at2 a i j ≤ 1 := by
  unfold at2 get2
  cases hr : a[i]? with
  | none => simp
  | some row =>
    cases hy : row[j]? with
    | none => simp [hy]
    | some y =>
      simp only [Option.some_bind, hy, Option.getD_some]
      exact h row (List.getElem?_mem hr) y (List.getElem?_mem hy)

/-- With an activation function whose values lie in `[0, 1]` and targets in `[0, 1]`, the
mean squared error is at most the output width. -/
theorem rateOf_le_width (n : FFN α) (f : α → α) (inputs outputs : List (List α))
    (hf : ∀ x, 0 ≤ f x ∧ f x ≤ 1) (htar : ∀ out ∈ outputs, ∀ y ∈ out, 0 ≤ y ∧ y ≤ 1) :
    rateOf n f inputs outputs ≤ (n.OutputNeurons.toNat : α) := by
  have hsq : ∀ s, sqErr n f inputs outputs s ≤ (n.OutputNeurons.toNat : α) := by
    intro s
    unfold sqErr
    calc ∑ j ∈ Finset.range n.OutputNeurons.toNat,
          (outputOf n f (rowAt inputs s) j - at2 outputs s j) ^ 2
        ≤ ∑ _j ∈ Finset.range n.OutputNeurons.toNat, (1 : α) := by
          apply Finset.sum_le_sum
          intro j _
          have h1 := hf (at2 n.B 1 j + ∑ k ∈ Finset.range n.HiddenNeurons.toNat,
            hiddenOf n f (rowAt inputs s) k * at3 n.W 1 k j)
          have h2 := at2_unit outputs s j htar
          have h3 : outputOf n f (rowAt inputs s) j = f (at2 n.B 1 j +
            ∑ k ∈ Finset.range n.HiddenNeurons.toNat,
              hiddenOf n f (rowAt inputs s) k * at3 n.W 1 k j) := rfl
          rw [h3]
          have h4 : |f (at2 n.B 1 j + ∑ k ∈ Finset.range n.HiddenNeurons.toNat,
              hiddenOf n f (rowAt inputs s) k * at3 n.W 1 k j) - at2 outputs s j| ≤ 1 := by
            rw [abs_le]
            constructor <;> linarith [h1.1, h1.2, h2.1, h2.2]
          have h5 := (sq_le_one_iff_abs_le_one _).mpr h4
          exact h5
      _ = (n.OutputNeurons.toNat : α) := by simp
  unfold rateOf
  by_cases h0 : outputs.length = 0
  · simp [h0]
  · have hpos : (0 : α) < (outputs.length : α) := by
      exact_mod_cast Nat.pos_of_ne_zero h0
    rw [div_le_iff₀ hpos]
    calc ∑ s ∈ Finset.range outputs.length, sqErr n f inputs outputs s
        ≤ ∑ _s ∈ Finset.range outputs.length, (n.OutputNeurons.toNat : α) :=
          Finset.sum_le_sum fun s _ => hsq s
      _ = (n.OutputNeurons.toNat : α) * (outputs.length : α) := by
          simp [mul_comm]

/-- The values of `DefaultF` lie in `[0, 1]` when `exp` has no negative value. -/
theorem DefaultF_unit (exp : α → α) (hexp : ∀ y, 0 ≤ exp y) (x : α) :
    0 ≤ DefaultF exp x ∧ DefaultF exp x ≤ 1 := by
  have h := hexp (-x)
  unfold DefaultF
  exact ⟨div_nonneg zero_le_one (by linarith), (div_le_one (by linarith)).mpr (by linarith)⟩

/-- Claim C17 (amended): in exact arithmetic (the scalars form a linearly ordered field, so
no value is NaN or an infinity) and with an exponential function that has no negative
value, on a well-formed network with the default sigmoid pair, for a non-empty
dataset of right-length vectors with targets in `[0, 1]`, valid `speed`, `moment` and
`epoch`, and a target rate of at least the output width, `Train` returns success with epoch
index 0 after exactly one sample update (that of sample 0), whose rate is within the
target, and without calling the logging function. -/
theorem Train_wide_rate_met_at_once (exp : α → α) (hexp : ∀ x, 0 ≤ exp x) (fuel : Nat)
    (n : FFN α) (I H O : Nat) (inputs outputs : List (List α)) (speed moment rate : α)
    (epoch : Int) (log : Bool)
    (hs : Shaped n I H O) (hF : n.F = [some (DefaultF exp), some DefaultDF])
    (hne : inputs ≠ []) (hlen : inputs.length = outputs.length)
    (hin : ∀ inp ∈ inputs, inp.length = I) (hout : ∀ out ∈ outputs, out.length = O)
    (htar : ∀ out ∈ outputs, ∀ y ∈ out, 0 ≤ y ∧ y ≤ 1)
    (hspeed : 0 < speed) (hmoment : 0 ≤ moment) (hepoch : 0 < epoch)
    (hrate : (O : α) ≤ rate) :
    ∃ r n', sampleUpdate n inputs outputs speed moment 0 = some (r, n') ∧ r ≤ rate ∧
      Train (fuel + 1) n inputs outputs speed moment rate epoch log =
        Outcome.returned r 0 none n' [] := by
  have hF0 : n.F[0]? = some (some (DefaultF exp)) := by rw [hF]; rfl
  have hF1 : n.F[1]? = some (some DefaultDF) := by rw [hF]; rfl
  have hpos : 0 < inputs.length := List.length_pos.mpr hne
  have hpos' : 0 < outputs.length := hlen ▸ hpos
  have hI := hin _ (rowAt_mem inputs 0 hpos)
  have hO := hout _ (rowAt_mem outputs 0 hpos')
  have hs1 := forwardState_shaped n I H O (DefaultF exp) (rowAt inputs 0) hs hI
  have hs2 := backwardState_shaped (forwardState n (DefaultF exp) (rowAt inputs 0)) I H O
    DefaultDF (rowAt outputs 0) speed moment hs1
  have hR := Rate_eq (backwardState (forwardState n (DefaultF exp) (rowAt inputs 0)) DefaultDF
    (rowAt outputs 0) speed moment) I H O (DefaultF exp) inputs outputs hs2 hF0
    (le_of_eq hlen.symm)
    (fun s h => hin _ (rowAt_mem inputs s (hlen ▸ h)))
    (fun s h => hout _ (rowAt_mem outputs s h))
  have hu : sampleUpdate n inputs outputs speed moment 0 =
      some (rateOf (backwardState (forwardState n (DefaultF exp) (rowAt inputs 0)) DefaultDF
        (rowAt outputs 0) speed moment) (DefaultF exp) inputs outputs,
      rateState (backwardState (forwardState n (DefaultF exp) (rowAt inputs 0)) DefaultDF
        (rowAt outputs 0) speed moment) (DefaultF exp) inputs outputs) := by
    unfold sampleUpdate
    rw [rowAt_eq inputs 0 hpos, Option.some_bind,
      Forward_eq n I H O (DefaultF exp) _ hs hF0 hI,
      Option.some_bind, rowAt_eq outputs 0 hpos', Option.some_bind,
      Backward_eq _ I H O DefaultDF _ speed moment hs1 hF1 hO, Option.some_bind]
    exact hR
  have hle : rateOf (backwardState (forwardState n (DefaultF exp) (rowAt inputs 0)) DefaultDF
      (rowAt outputs 0) speed moment) (DefaultF exp) inputs outputs ≤ rate := by
    refine le_trans (rateOf_le_width _ (DefaultF exp) inputs outputs
      (DefaultF_unit exp hexp) htar) ?_
    have hOO : (backwardState (forwardState n (DefaultF exp) (rowAt inputs 0)) DefaultDF
        (rowAt outputs 0) speed moment).OutputNeurons.toNat = O := by
      rw [hs2.2.2.1]; rfl
    rw [hOO]
    exact hrate
  refine ⟨_, _, hu, hle, ?_⟩
  obtain ⟨k, hk⟩ := Nat.exists_eq_succ_of_ne_zero (Nat.pos_iff_ne_zero.mp hpos)
  unfold Train
  rw [if_neg (not_not.mpr hlen), if_neg (not_le.mpr hspeed), if_neg (not_lt.mpr hmoment),
    if_neg (not_lt.mpr (le_trans (Nat.cast_nonneg O) hrate)), if_neg (not_le.mpr hepoch)]
  unfold TrainEpochs
  rw [hk]
  unfold TrainSets
  rw [hu]
  dsimp only
  rw [if_pos hle]

theorem Train_wide_rate_met_at_once_witness :
    ∃ (r : ℝ) (n' : FFN ℝ),
      sampleUpdate (sigmoid111 Real.exp) [[1]] [[1]] (1 / 5) 0 0 = some (r, n') ∧ r ≤ 100 ∧
      Train 1 (sigmoid111 Real.exp) [[1]] [[1]] (1 / 5) 0 100 100000 false =
        Outcome.returned r 0 none n' [] :=
  Train_wide_rate_met_at_once Real.exp (fun x => (Real.exp_pos x).le) 0 (sigmoid111 Real.exp)
    1 1 1 [[1]] [[1]]
    (1 / 5) 0 100 100000 false ⟨rfl, rfl, rfl, rfl, rfl, rfl, rfl, rfl⟩ rfl (by simp) rfl
    (by simp) (by simp) (by simp) (by norm_num) le_rfl (by decide) (by norm_num)

/-! ## Claim C17: a run over the model of `float64` -/

/-- One sample update of `Train` on a 1-1-1 network with the one-sample dataset
`[i] → [t]`, over any scalar type: the loops of `Forward`, `Backward` and `Rate` unrolled. -/
theorem sampleUpdate_111 {β : Type} [Zero β] [Add β] [Sub β] [Mul β] [Div β] [NatCast β]
    [Pow β ℕ] (f df : β → β) (x0 x1 x2 e0 e1 b0 b1 w0 w1 d0 d1 i t speed moment : β) :
    sampleUpdate (mk111 f df x0 x1 x2 e0 e1 b0 b1 w0 w1 d0 d1) [[i]] [[t]] speed moment 0 =
      (let h := f (b0 + i * w0)
       let o := f (b1 + h * w1)
       let E1 := (t - o) * df o
       let E0 := (0 + w1 * E1) * df h
       let D0 := speed * i * E0 + moment * d0
       let D1 := speed * h * E1 + moment * d1
       let h' := f (b0 + speed * E0 + i * (w0 + D0))
       let o' := f (b1 + speed * E1 + h' * (w1 + D1))
       some ((0 + (0 + (o' - t) ^ 2)) / ((1 : Nat) : β),
         mk111 f df i h' o' E0 E1 (b0 + speed * E0) (b1 + speed * E1) (w0 + D0) (w1 + D1)
           D0 D1)) := rfl

/-! The operations of `F64` unfolded. -/

theorem F64.add_def (a b : F64) : a + b = F64.add a b := rfl
theorem F64.sub_def (a b : F64) : a - b = F64.add a (F64.neg b) := rfl
theorem F64.mul_def (a b : F64) : a * b = F64.mul a b := rfl
theorem F64.div_def (a b : F64) : a / b = F64.div a b := rfl
theorem F64.neg_def (a : F64) : -a = F64.neg a := rfl
theorem F64.pow_def (a : F64) (n : Nat) : a ^ n = F64.pow a n := rfl
theorem F64.zero_def : (0 : F64) = F64.fin 0 := rfl
theorem F64.one_def : (1 : F64) = F64.fin 1 := rfl
theorem F64.le_def (a b : F64) : (a ≤ b) = (F64.le a b = true) := rfl
theorem F64.lt_def (a b : F64) : (a < b) = (F64.lt a b = true) := rfl
theorem F64.natCast_def (n : Nat) : ((n : Nat) : F64) = F64.fin n := rfl

theorem F64.limit_gt : (1000 : ℚ) < F64.limit := by unfold F64.limit; norm_num

theorem F64.ofRat_small (q : ℚ) (h1 : q ≤ 1000) (h2 : -1000 ≤ q) : F64.ofRat q = F64.fin q := by
  have := F64.limit_gt
  unfold F64.ofRat
  rw [if_neg (by linarith), if_neg (by linarith)]

/-- The first sample update on `saturated111`, for any large value `B` whose square
overflows: the input weight and its delta become NaN, and so does the rate. -/
theorem saturated_update (e : ℚ → F64) (B : ℚ) (h0 : 1000 ≤ B) (h1 : B < F64.limit)
    (h2 : F64.limit ≤ B * B) (f df : F64 → F64) (hf : f = DefaultF (F64.exp e))
    (hdf : df = DefaultDF) (x0 x1 x2 e0 e1 : F64) :
    sampleUpdate (mk111 f df x0 x1 x2 e0 e1 0 (F64.fin 1000) 1 0 0 0)
        [[F64.fin B]] [[1]] (F64.fin B) 0 0 =
      some (F64.nan, mk111 f df (F64.fin B) F64.nan F64.nan 0 0 0 (F64.fin 1000) F64.nan 0
        F64.nan 0) := by
  have hB : F64.ofRat B = F64.fin B := by
    unfold F64.ofRat
    rw [if_neg (by linarith), if_neg (by linarith)]
  have hBB : F64.ofRat (B * B) = F64.pinf := by
    unfold F64.ofRat
    rw [if_pos h2]
  have z0 : F64.ofRat 0 = F64.fin 0 := F64.ofRat_small 0 (by norm_num) (by norm_num)
  have z1 : F64.ofRat 1 = F64.fin 1 := F64.ofRat_small 1 (by norm_num) (by norm_num)
  have z2 : F64.ofRat 1000 = F64.fin 1000 := F64.ofRat_small 1000 (by norm_num) (by norm_num)
  have hB0 : ¬ B = 0 := by linarith
  have hB1 : -B ≤ -1000 := by linarith
  rw [sampleUpdate_111]
  subst hf hdf
  simp [DefaultF, DefaultDF, F64.exp, F64.add_def, F64.sub_def, F64.mul_def, F64.div_def,
    F64.neg_def, F64.zero_def, F64.one_def, F64.pow_def, F64.natCast_def, F64.pow,
    F64.infMul, F64.add, F64.mul, F64.div, F64.neg, hB, hBB, z0, z1, z2, hB0, hB1]


/-! NaN is absorbing. -/

theorem F64.nan_add (a : F64) : F64.nan + a = F64.nan := rfl
theorem F64.add_nan (a : F64) : a + F64.nan = F64.nan := by cases a <;> rfl
theorem F64.nan_sub (a : F64) : F64.nan - a = F64.nan := rfl
theorem F64.sub_nan (a : F64) : a - F64.nan = F64.nan := by cases a <;> rfl
theorem F64.nan_mul (a : F64) : F64.nan * a = F64.nan := rfl
theorem F64.mul_nan (a : F64) : a * F64.nan = F64.nan := by cases a <;> rfl
theorem F64.nan_div (a : F64) : F64.nan / a = F64.nan := rfl
theorem F64.div_nan (a : F64) : a / F64.nan = F64.nan := by cases a <;> rfl
theorem F64.neg_nan : -F64.nan = F64.nan := rfl
theorem F64.nan_sq : F64.nan ^ 2 = F64.nan := rfl
theorem F64.exp_nan (e : ℚ → F64) : F64.exp e F64.nan = F64.nan := rfl

/-- A sample update on a 1-1-1 network whose input weight is NaN leaves every number of the
network NaN and returns the rate NaN. -/
theorem poisoned_update (e : ℚ → F64) (f df : F64 → F64)
    (hf : f = DefaultF (F64.exp e)) (hdf : df = DefaultDF)
    (x0 x1 x2 e0 e1 b0 b1 w1 d0 d1 i t speed moment : F64) :
    sampleUpdate (mk111 f df x0 x1 x2 e0 e1 b0 b1 F64.nan w1 d0 d1) [[i]] [[t]] speed moment 0 =
      some (F64.nan, mk111 f df i F64.nan F64.nan F64.nan F64.nan F64.nan F64.nan
        F64.nan F64.nan F64.nan F64.nan) := by
  rw [sampleUpdate_111]
  subst hf hdf
  simp only [DefaultF, DefaultDF, F64.nan_add, F64.add_nan, F64.nan_sub, F64.sub_nan,
    F64.nan_mul, F64.mul_nan, F64.nan_div, F64.div_nan, F64.neg_nan, F64.nan_sq, F64.exp_nan]

/-- The run of `Train` behind the counterexample to claim C17, for any large value `B`
whose square overflows. -/
theorem saturated_train (e : ℚ → F64) (B : ℚ) (h0 : 1000 ≤ B) (h1 : B < F64.limit)
    (h2 : F64.limit ≤ B * B) (fuel : Nat) (log : Bool) :
    ∃ n' logged, Train (fuel + 3) (saturated111 e) [[F64.fin B]] [[1]] (F64.fin B) 0 1 1 log =
      Outcome.returned F64.nan 2 (some TrainError.EpochBudgetExceeded) n' logged := by
  have hs : saturated111 e =
      mk111 (DefaultF (F64.exp e)) DefaultDF 0 0 0 0 0 0 (F64.fin 1000) 1 0 0 0 := rfl
  have u1 := saturated_update e B h0 h1 h2 _ _ rfl rfl 0 0 0 0 0
  have u2 := fun x0 x1 x2 e0 e1 b0 b1 w1 d0 d1 => poisoned_update e _ _ rfl rfl
    x0 x1 x2 e0 e1 b0 b1 w1 d0 d1 (F64.fin B) 1 (F64.fin B) 0
  have c1 : ¬ (F64.fin B ≤ (0 : F64)) := by
    simp [F64.le_def, F64.le, F64.zero_def]; linarith
  have c2 : ¬ ((0 : F64) < 0) := by decide
  have c3 : ¬ ((1 : F64) < 0) := by decide
  have c4 : ¬ (F64.nan ≤ (1 : F64)) := by decide
  refine ⟨mk111 (DefaultF (F64.exp e)) DefaultDF (F64.fin B) F64.nan F64.nan F64.nan F64.nan
    F64.nan F64.nan F64.nan F64.nan F64.nan F64.nan,
    if log then [(0, F64.nan), (1, F64.nan)] else [], ?_⟩
  rw [hs]
  have w1 : wrapInt (0 + 1) = 1 := by decide
  have w2 : wrapInt (1 + 1) = 2 := by decide
  have g1 : ¬ ((0 : Int) > 1) := by decide
  have g2 : ¬ ((1 : Int) > 1) := by decide
  have g3 : (2 : Int) > 1 := by decide
  have g0 : ¬ ((1 : Int) ≤ 0) := by decide
  unfold Train
  rw [if_neg (by simp), if_neg c1, if_neg c2, if_neg c3, if_neg g0]
  rw [show fuel + 3 = (fuel + 2) + 1 from rfl, TrainEpochs]
  simp only [List.length_cons, List.length_nil, Nat.zero_add, TrainSets, u1, c4, if_false, g1]
  rw [show fuel + 2 = (fuel + 1) + 1 from rfl, TrainEpochs]
  simp only [List.length_cons, List.length_nil, Nat.zero_add, TrainSets, u2, c4, if_false, g2,
    w1]
  rw [TrainEpochs]
  simp only [List.length_cons, List.length_nil, Nat.zero_add, TrainSets, u2, c4, if_false, g3,
    w2, if_true]
  cases log <;> rfl

/-- Claim C17, counterexample: over the model `F64` of `float64`, take the well-formed
1-1-1 network `saturated111` with the default sigmoid pair (for any values of `math.Exp` on
ordinary arguments), the dataset `[2^1000] → [1]` with its target in `[0, 1]`, the speed
`2^1000 > 0`, the moment `0`, the target rate `1 = OutputNeurons` and the epoch budget `1`.
Both neurons are saturated, so both error signals are `0`, while `speed * X[0][0]` overflows
to `+Inf`; the weight delta `+Inf * 0` is NaN, the rate computed after the first sample
update is NaN, the test `currentRate <= rate` fails from then on, and `Train` returns
`EpochBudgetExceeded` with the epoch index `2` and the rate NaN. -/
theorem Train_wide_rate_lost_to_NaN :
    (∀ e, WellFormed (saturated111 e) ∧
      (saturated111 e).F = [some (DefaultF (F64.exp e)), some DefaultDF]) ∧
    (0 : F64) < F64.fin (2 ^ 1000) ∧ (0 : F64) ≤ 0 ∧ ((0 : F64) ≤ 1 ∧ (1 : F64) ≤ 1) ∧
    ((1 : Nat) : F64) ≤ 1 ∧
    (∀ e, sampleUpdate (saturated111 e) [[F64.fin (2 ^ 1000)]] [[1]] (F64.fin (2 ^ 1000)) 0 0 =
      some (F64.nan, mk111 (DefaultF (F64.exp e)) DefaultDF (F64.fin (2 ^ 1000)) F64.nan
        F64.nan 0 0 0 (F64.fin 1000) F64.nan 0 F64.nan 0)) ∧
    ∀ (e : ℚ → F64) (fuel : Nat) (log : Bool), ∃ n' logged,
      Train (fuel + 3) (saturated111 e) [[F64.fin (2 ^ 1000)]] [[1]] (F64.fin (2 ^ 1000)) 0 1 1
          log =
        Outcome.returned F64.nan 2 (some TrainError.EpochBudgetExceeded) n' logged := by
  have h0 : (1000 : ℚ) ≤ 2 ^ 1000 := by norm_num
  have h1 : (2 : ℚ) ^ 1000 < F64.limit := by unfold F64.limit; norm_num
  have h2 : F64.limit ≤ (2 : ℚ) ^ 1000 * 2 ^ 1000 := by unfold F64.limit; norm_num
  refine ⟨fun e => ⟨⟨rfl, rfl, rfl, rfl, rfl, rfl, rfl, rfl⟩, rfl⟩, ?_, by decide, ⟨by decide, by decide⟩, by decide, ?_, ?_⟩
  · simp [F64.lt_def, F64.lt, F64.zero_def]
  · intro e
    exact saturated_update e _ h0 h1 h2 _ _ rfl rfl 0 0 0 0 0
  · intro e fuel log
    exact saturated_train e _ h0 h1 h2 fuel log

/-! ## Claim C18: the calls of the logging function -/

/-- A `return` inside the inner loop of `Train` returns the current epoch index. -/
theorem TrainSets_stop_epoch (inputs outputs : List (List α)) (speed moment rate : α)
    (epoch ce : Int) (k : Nat) : ∀ (set : Nat) (m : FFN α) (cr r : α) (e : Int)
      (err : Option TrainError) (m' : FFN α),
      TrainSets inputs outputs speed moment rate epoch ce set k m cr = Step.stop r e err m' →
      e = ce := by
  induction k with
  | zero =>
    intro set m cr r e err m' h
    simp [TrainSets] at h
  | succ k ih =>
    intro set m cr r e err m' h
    unfold TrainSets at h
    cases hu : sampleUpdate m inputs outputs speed moment set with
    | none => rw [hu] at h; cases h
    | some p =>
      obtain ⟨r1, m1⟩ := p
      rw [hu] at h
      dsimp only at h
      split_ifs at h with h1 h2
      · cases h; rfl
      · cases h; rfl
      · exact ih _ _ _ _ _ _ _ h

/-- When the inner loop of `Train` falls through, it has run the remaining sample updates of
the epoch, and, if there was one, the epoch index did not exceed the budget. -/
theorem TrainSets_fell_through (n0 : FFN α) (inputs outputs : List (List α))
    (speed moment rate : α) (epoch ce : Int) (base : Nat)
    (hbase : base % inputs.length = 0) (k : Nat) :
    ∀ (set : Nat) (m : FFN α) (cr r' : α) (m' : FFN α), set + k = inputs.length →
      afterUpdates n0 inputs outputs speed moment (base + set) = some (cr, m) →
      TrainSets inputs outputs speed moment rate epoch ce set k m cr = Step.next m' r' →
      afterUpdates n0 inputs outputs speed moment (base + inputs.length) = some (r', m') ∧
        (0 < k → ¬ ce > epoch) := by
  induction k with
  | zero =>
    intro set m cr r' m' hset hm h
    have : set = inputs.length := by omega
    subst this
    simp only [TrainSets, Step.next.injEq] at h
    rw [← h.1, ← h.2]
    exact ⟨hm, fun h0 => absurd h0 (lt_irrefl 0)⟩
  | succ k ih =>
    intro set m cr r' m' hset hm h
    have hlt : set < inputs.length := by omega
    have hmod : (base + set) % inputs.length = set := by
      rw [Nat.add_mod, hbase, zero_add, Nat.mod_mod, Nat.mod_eq_of_lt hlt]
    have hsu := afterUpdates_succ n0 inputs outputs speed moment (base + set) cr m hm
    rw [hmod] at hsu
    unfold TrainSets at h
    cases hu : sampleUpdate m inputs outputs speed moment set with
    | none => rw [hu] at h; cases h
    | some p =>
      obtain ⟨r1, m1⟩ := p
      rw [hu] at h hsu
      dsimp only at h
      split_ifs at h with h1 h2
      exact ⟨(ih (set + 1) m1 r1 r' m' (by omega) (by rw [← add_assoc]; exact hsu) h).1,
        fun _ => h2⟩

theorem rateAfter_eq (n : FFN α) (inputs outputs : List (List α)) (speed moment : α) (k : Nat)
    (r : α) (m : FFN α) (h : afterUpdates n inputs outputs speed moment k = some (r, m)) :
    rateAfter n inputs outputs speed moment k = r := by
  simp [rateAfter, h]

/-- The calls of the logging function while the epoch counter cannot wrap: from the start
of epoch `c`, the outer loop calls it for the epochs `c`, `c+1`, ... with the rate after the
last sample update of each; and when the loop returns, it returns the index that follows
the last call. -/
theorem TrainEpochs_calls (n0 : FFN α) (inputs outputs : List (List α))
    (speed moment rate : α) (epoch : Int) (E : Nat) (hE : epoch = E) (hmax : epoch < maxInt)
    (hne : 0 < inputs.length) (fuel : Nat) :
    ∀ (c : Nat) (m : FFN α) (cr : α), c ≤ E + 1 →
      afterUpdates n0 inputs outputs speed moment (c * inputs.length) = some (cr, m) →
      ∃ d : Nat,
        TrainEpochsCalls inputs outputs speed moment rate epoch fuel (c : Int) m cr =
          (List.range d).map (fun i => (((c + i : Nat) : Int),
            rateAfter n0 inputs outputs speed moment ((c + i + 1) * inputs.length))) ∧
        ∀ (log : Bool) (tr : List (Int × α)) (r : α) (k : Int) (err : Option TrainError)
          (n' : FFN α) (lg : List (Int × α)),
          TrainEpochs inputs outputs speed moment rate epoch log fuel (c : Int) m cr tr =
            Outcome.returned r k err n' lg →
          k = ((c + d : Nat) : Int) ∧
          lg = if log then tr ++ (List.range d).map (fun i => (((c + i : Nat) : Int),
            rateAfter n0 inputs outputs speed moment ((c + i + 1) * inputs.length))) else tr := by
  induction fuel with
  | zero =>
    intro c m cr _ _
    refine ⟨0, rfl, ?_⟩
    intro log tr r k err n' lg h
    simp [TrainEpochs] at h
  | succ fuel ih =>
    intro c m cr hc hm
    cases hT : TrainSets inputs outputs speed moment rate epoch (c : Int) 0 inputs.length m cr with
    | panic =>
      refine ⟨0, by simp [TrainEpochsCalls, hT], ?_⟩
      intro log tr r k err n' lg h
      simp [TrainEpochs, hT] at h
    | stop r1 e1 err1 m1 =>
      refine ⟨0, by simp [TrainEpochsCalls, hT], ?_⟩
      intro log tr r k err n' lg h
      have he := TrainSets_stop_epoch inputs outputs speed moment rate epoch (c : Int)
        inputs.length 0 m cr r1 e1 err1 m1 hT
      simp only [TrainEpochs, hT, Outcome.returned.injEq] at h
      refine ⟨by rw [← h.2.1, he]; rfl, ?_⟩
      rw [← h.2.2.2.2]
      cases log <;> simp
    | next m1 r1 =>
      obtain ⟨hm1, hce⟩ := TrainSets_fell_through n0 inputs outputs speed moment rate epoch
        (c : Int) (c * inputs.length) (Nat.mul_mod_left _ _) inputs.length 0 m cr r1 m1
        (by omega) (by simpa using hm) hT
      have hcE : c ≤ E := by
        have := hce hne
        rw [hE] at this
        omega
      have hm1' : afterUpdates n0 inputs outputs speed moment ((c + 1) * inputs.length) =
          some (r1, m1) := by
        rw [Nat.succ_mul]; exact hm1
      have hw : wrapInt ((c : Int) + 1) = ((c + 1 : Nat) : Int) := by
        rw [wrapInt_id _ (by omega) (by rw [hE] at hmax; omega)]
        rfl
      obtain ⟨d, hd, hret⟩ := ih (c + 1) m1 r1 (by omega) hm1'
      have hg : (List.range (d + 1)).map (fun i => (((c + i : Nat) : Int),
            rateAfter n0 inputs outputs speed moment ((c + i + 1) * inputs.length))) =
          ((c : Int), r1) :: (List.range d).map (fun i => (((c + 1 + i : Nat) : Int),
            rateAfter n0 inputs outputs speed moment ((c + 1 + i + 1) * inputs.length))) := by
        have h0 : ((((c + 0 : Nat) : Int)),
            rateAfter n0 inputs outputs speed moment ((c + 0 + 1) * inputs.length)) =
            ((c : Int), r1) := by
          rw [Nat.add_zero, rateAfter_eq n0 inputs outputs speed moment _ r1 m1 hm1']
        have ht : (List.range d).map ((fun i => (((c + i : Nat) : Int),
              rateAfter n0 inputs outputs speed moment ((c + i + 1) * inputs.length))) ∘
              Nat.succ) =
            (List.range d).map (fun i => (((c + 1 + i : Nat) : Int),
              rateAfter n0 inputs outputs speed moment ((c + 1 + i + 1) * inputs.length))) := by
          apply List.map_congr_left
          intro i _
          have e : c + Nat.succ i = c + 1 + i := by omega
          simp only [Function.comp_apply, e]
        rw [List.range_succ_eq_map, List.map_cons, List.map_map]
        exact congrArg₂ List.cons h0 ht
      refine ⟨d + 1, ?_, ?_⟩
      · rw [hg]
        simp only [TrainEpochsCalls, hT]
        rw [hw, hd]
      · intro log tr r k err n' lg h
        simp only [TrainEpochs, hT] at h
        rw [hw] at h
        obtain ⟨hk, hlg⟩ := hret log _ r k err n' lg h
        refine ⟨by rw [hk, show c + 1 + d = c + (d + 1) by omega], ?_⟩
        rw [hlg, hg]
        cases log <;> simp

/-- The two embeddings of the outer loop of `Train` agree: when the loop returns, the calls
of the logging function it has recorded are those that `TrainEpochsCalls` lists. -/
theorem TrainEpochs_logged_eq_calls (inputs outputs : List (List α)) (speed moment rate : α)
    (epoch : Int) (fuel : Nat) :
    ∀ (ce : Int) (m : FFN α) (cr : α) (tr : List (Int × α)) (r : α) (k : Int)
      (err : Option TrainError) (n' : FFN α) (lg : List (Int × α)),
      TrainEpochs inputs outputs speed moment rate epoch true fuel ce m cr tr =
        Outcome.returned r k err n' lg →
      lg = tr ++ TrainEpochsCalls inputs outputs speed moment rate epoch fuel ce m cr := by
  induction fuel with
  | zero =>
    intro ce m cr tr r k err n' lg h
    simp [TrainEpochs] at h
  | succ fuel ih =>
    intro ce m cr tr r k err n' lg h
    cases hT : TrainSets inputs outputs speed moment rate epoch ce 0 inputs.length m cr with
    | panic => simp [TrainEpochs, hT] at h
    | stop r1 e1 err1 m1 =>
      simp only [TrainEpochs, hT, Outcome.returned.injEq] at h
      simp [TrainEpochsCalls, hT, h.2.2.2.2]
    | next m1 r1 =>
      simp only [TrainEpochs, hT, if_true] at h
      rw [ih _ _ _ _ _ _ _ _ _ h]
      simp [TrainEpochsCalls, hT]

/-- When `Train` returns, the calls of the logging function it has made are those that
`TrainCalls` lists. -/
theorem Train_logged_eq_calls (fuel : Nat) (n : FFN α) (inputs outputs : List (List α))
    (speed moment rate : α) (epoch : Int) (r : α) (k : Int) (err : Option TrainError)
    (n' : FFN α) (lg : List (Int × α))
    (h : Train fuel n inputs outputs speed moment rate epoch true =
      Outcome.returned r k err n' lg) :
    lg = TrainCalls fuel n inputs outputs speed moment rate epoch := by
  unfold Train at h
  unfold TrainCalls
  split_ifs at h ⊢ with h1 h2 h3 h4 h5
  · simp only [Outcome.returned.injEq] at h; exact h.2.2.2.2.symm
  · simp only [Outcome.returned.injEq] at h; exact h.2.2.2.2.symm
  · simp only [Outcome.returned.injEq] at h; exact h.2.2.2.2.symm
  · simp only [Outcome.returned.injEq] at h; exact h.2.2.2.2.symm
  · simp only [Outcome.returned.injEq] at h; exact h.2.2.2.2.symm
  · simpa using TrainEpochs_logged_eq_calls inputs outputs speed moment rate epoch fuel 0 n 0 []
      r k err n' lg h

/-- Claim C18 (amended): for a non-empty dataset and an epoch budget below the largest
`int`, the calls of the logging function that `Train` makes within any number of epochs are
the calls for the epoch indices `0, 1, ..., d-1` in this order, the call for epoch `c` being
made with the rate computed after the last sample update of epoch `c` (update number
`(c+1)*N`); and when `Train` returns with the epoch index `k`, then `k` is not negative and
the calls made are exactly those for the indices `0, ..., k-1`. -/
theorem Train_logs_completed_epochs (fuel : Nat) (n : FFN α) (inputs outputs : List (List α))
    (speed moment rate : α) (epoch : Int) (hmax : epoch < maxInt) (hne : inputs ≠ []) :
    (∃ d : Nat, TrainCalls fuel n inputs outputs speed moment rate epoch =
      (List.range d).map (fun c : Nat => ((c : Int),
        rateAfter n inputs outputs speed moment ((c + 1) * inputs.length)))) ∧
    ∀ (r : α) (k : Int) (err : Option TrainError) (n' : FFN α) (logged : List (Int × α)),
      Train fuel n inputs outputs speed moment rate epoch true =
        Outcome.returned r k err n' logged →
      0 ≤ k ∧ logged = TrainCalls fuel n inputs outputs speed moment rate epoch ∧
        logged = (List.range k.toNat).map (fun c : Nat => ((c : Int),
          rateAfter n inputs outputs speed moment ((c + 1) * inputs.length))) := by
  have hfail : ∀ (e : Option TrainError),
      (∃ d : Nat, ([] : List (Int × α)) =
        (List.range d).map (fun c : Nat => ((c : Int),
          rateAfter n inputs outputs speed moment ((c + 1) * inputs.length)))) ∧
      ∀ (r : α) (k : Int) (err : Option TrainError) (n' : FFN α) (logged : List (Int × α)),
        Outcome.returned 0 0 e n [] = Outcome.returned r k err n' logged →
        0 ≤ k ∧ logged = [] ∧
          logged = (List.range k.toNat).map (fun c : Nat => ((c : Int),
            rateAfter n inputs outputs speed moment ((c + 1) * inputs.length))) := by
    intro e
    refine ⟨⟨0, rfl⟩, ?_⟩
    intro r k err n' logged h
    simp only [Outcome.returned.injEq] at h
    obtain ⟨_, hk, _, _, hl⟩ := h
    subst hk hl
    exact ⟨le_refl _, rfl, rfl⟩
  unfold Train TrainCalls
  split_ifs with h1 h2 h3 h4 h5
  · exact hfail _
  · exact hfail _
  · exact hfail _
  · exact hfail _
  · exact hfail _
  · have hE : epoch = (epoch.toNat : Int) :=
      (Int.toNat_of_nonneg (le_of_lt (not_le.mp h5))).symm
    obtain ⟨d, hd, hret⟩ := TrainEpochs_calls n inputs outputs speed moment rate epoch
      epoch.toNat hE hmax (List.length_pos.mpr hne) fuel 0 n 0 (Nat.zero_le _)
      (by rw [Nat.zero_mul]; rfl)
    simp only [Nat.cast_zero, Nat.zero_add] at hd hret
    refine ⟨⟨d, hd⟩, ?_⟩
    intro r k err n' logged h
    obtain ⟨hk, hlg⟩ := hret true [] r k err n' logged h
    simp only [if_true, List.nil_append] at hlg
    refine ⟨by rw [hk]; exact Int.natCast_nonneg d, by rw [hlg, hd], ?_⟩
    rw [hlg, hk, Int.toNat_natCast]

theorem stuckNet_calls : ∀ (m : Nat) (ce : Int) (cr : ℚ), -2 ^ 63 ≤ ce → ce ≤ maxInt →
    TrainEpochsCalls [[0]] [[1]] 1 0 0 maxInt m ce stuckNet cr =
      (List.range m).map (fun i : Nat => (wrapInt (ce + (i : Int)), (1 : ℚ))) := by
  intro m
  induction m with
  | zero => intro ce cr _ _; rfl
  | succ m ih =>
    intro ce cr hlo hhi
    have h1 : ¬ ((1 : ℚ) ≤ 0) := by norm_num
    have hw : wrapInt ce = ce := by
      unfold wrapInt
      unfold maxInt at hhi
      omega
    have hlo' : -2 ^ 63 ≤ wrapInt (ce + 1) := by unfold wrapInt; omega
    have ht : (List.range m).map ((fun i : Nat => (wrapInt (ce + i), (1 : ℚ))) ∘ Nat.succ) =
        (List.range m).map (fun i : Nat => (wrapInt (wrapInt (ce + 1) + i), (1 : ℚ))) := by
      apply List.map_congr_left
      intro i _
      have e : wrapInt (ce + ((Nat.succ i : Nat) : Int)) = wrapInt (wrapInt (ce + 1) + i) := by
        unfold wrapInt
        push_cast
        omega
      simp only [Function.comp_apply, e]
    simp only [TrainEpochsCalls, List.length_cons, List.length_nil, Nat.zero_add, TrainSets,
      stuckNet_update, h1, if_false, not_lt.mpr hhi, gt_iff_lt]
    rw [ih _ _ hlo' (wrapInt_le _), List.range_succ_eq_map, List.map_cons, List.map_map, ht]
    simp only [Nat.cast_zero, add_zero, hw]

/-- Claim C18, counterexample: with the epoch budget `maxInt`, on a network that cannot
learn, the call of the logging function that follows the call with the epoch index `maxInt`
(the call number `2^63`, counting from 0) is made with the index `-2^63`: the indices do
not increase, and the call after epoch number `2^63` does not carry that number. -/
theorem Train_callback_index_wraps :
    (TrainCalls (2 ^ 63 + 1) stuckNet [[0]] [[1]] 1 0 0 maxInt)[2 ^ 63 - 1]? =
      some (maxInt, 1) ∧
    (TrainCalls (2 ^ 63 + 1) stuckNet [[0]] [[1]] 1 0 0 maxInt)[2 ^ 63]? =
      some (-2 ^ 63, 1) := by
  have h1 : ¬ ((1 : ℚ) ≤ 0) := by norm_num
  have h2 : ¬ (maxInt ≤ 0) := by unfold maxInt; omega
  have hT : TrainCalls (2 ^ 63 + 1) stuckNet [[0]] [[1]] 1 0 0 maxInt =
      (List.range (2 ^ 63 + 1)).map (fun i : Nat => (wrapInt (0 + (i : Int)), (1 : ℚ))) := by
    simp only [TrainCalls, List.length_cons, List.length_nil, ne_eq, not_true_eq_false,
      if_false, h1, lt_irrefl, h2]
    exact stuckNet_calls _ 0 0 (by norm_num) (by unfold maxInt; omega)
  rw [hT]
  constructor
  · rw [getElem?_map_range _ _ _ (by norm_num)]
    norm_num [wrapInt, maxInt]
  · rw [getElem?_map_range _ _ _ (by norm_num)]
    norm_num [wrapInt]

theorem Train_logs_completed_epochs_witness :
    Train 3 stuckNet [[0]] [[1]] 1 0 0 1 true =
        Outcome.returned 1 2 (some TrainError.EpochBudgetExceeded) stuckNet [(0, 1), (1, 1)] ∧
      (0 : Int) ≤ 2 ∧ [((0 : Int), (1 : ℚ)), (1, 1)] = TrainCalls 3 stuckNet [[0]] [[1]] 1 0 0 1 ∧
      [((0 : Int), (1 : ℚ)), (1, 1)] = (List.range (Int.toNat 2)).map (fun c : Nat => ((c : Int),
        rateAfter stuckNet [[0]] [[1]] 1 0 ((c + 1) * [[(0 : ℚ)]].length))) :=
  have hrun : Train 3 stuckNet [[0]] [[1]] 1 0 0 1 true =
      Outcome.returned 1 2 (some TrainError.EpochBudgetExceeded) stuckNet [(0, 1), (1, 1)] := by
    norm_num [Train, TrainEpochs, TrainSets, stuckNet_update, wrapInt]
  ⟨hrun, (Train_logs_completed_epochs 3 stuckNet [[0]] [[1]] 1 0 0 1 (by decide) (by simp)).2
    1 2 _ stuckNet _ hrun⟩

end NN
